import Mathlib

/-!
# Runtime type-metadata introspection: the visitor framework

A verification development for `stdlib/private/SwiftPrivateMetadataExtras`
(`Metadata_Metadata.h`, `Metadata_Metadata.cc`, `Metadata.cc`) and the public
shim `stdlib/public/SwiftShims/MetadataExtras.h`.

## How the C++ is embedded

* A pointer that may be null is an `Option`.
* The C++ reads one block of memory through several static types
  (`(const tuple_type_metadata *)this`, ...).  A handle therefore carries one
  *view* per static type: the cast is the identity and a member access is a
  projection of the matching view.  The views are independent, so nothing is
  assumed about how they overlap in memory.
* `relative_ptr<T>` is represented by what `get()` yields: `none` when the
  stored offset is zero, the target otherwise.
* Runtime entry points (`swift_getTypeByMangledNameInContext`,
  `class_copyIvarList`, `ivar_getOffset`) are fields of `Runtime`; they are
  functions, so a repeated query gives the same answer.
* Visitor callbacks may have effects; they are state transformers
  `σ → Bool × σ` over an arbitrary state `σ`.
* Unsigned machine integers are `Nat`; a named member holds a value of its
  C++ type, and results are reduced modulo `2 ^ 32` or `2 ^ 64` where the C++
  arithmetic or a conversion truncates.  `intptr_t` is `Int`.
-/

namespace swift

/-! ## Platform constants -/

/-- The value of `sizeof(uintptr_t)` and `sizeof(intptr_t)`: an LP64 target. -/
def sizeof_uintptr_t : Nat := 8

/-- Reduction of a value to `uint32_t`. -/
def to_uint32 (n : Nat) : Nat := n % 2 ^ 32

/-- Reduction of a value to `size_t` / `uintptr_t`. -/
def to_size_t (n : Nat) : Nat := n % 2 ^ 64

/-- Conversion of an `intptr_t` to `uintptr_t` (two's complement). -/
def intptr_to_uintptr (x : Int) : Nat := (x % 2 ^ 64).toNat

/-- Conversion of a `uintptr_t` to `intptr_t` (two's complement). -/
def uintptr_to_intptr (n : Nat) : Int :=
  if n % 2 ^ 64 < 2 ^ 63 then ((n % 2 ^ 64 : Nat) : Int) else ((n % 2 ^ 64 : Nat) : Int) - 2 ^ 64

/-! ## `mangled_type_name_size` -/

/-- The loop of `mangled_type_name_size`.  `ptr` is the memory readable from
the name pointer on; `end_` is the index the C++ pointer `end` has reached.
`none` is a read outside `ptr`.  The first argument bounds the number of
iterations; `mangled_type_name_size` supplies more than the loop can use. -/
def mangled_type_name_size_loop (ptr : List Nat) : Nat → Nat → Option Nat
  | 0, _ => none
  | fuel + 1, end_ =>
    match ptr.get? end_ with
    | none => none
    | some current =>
      if current = 0 then some end_
      else if 0x1 ≤ current ∧ current ≤ 0x17 then
        mangled_type_name_size_loop ptr fuel (end_ + 1 + 4)
      else if 0x18 ≤ current ∧ current ≤ 0x1F then
        mangled_type_name_size_loop ptr fuel (end_ + 1 + sizeof_uintptr_t)
      else
        mangled_type_name_size_loop ptr fuel (end_ + 1)

/-- The function `mangled_type_name_size(ptr)`: the index of the 0x00 byte the
scan stops at, or `none` when the scan reads outside the buffer. -/
def mangled_type_name_size (ptr : List Nat) : Option Nat :=
  mangled_type_name_size_loop ptr (ptr.length + 1) 0

/-- An encoded type name as the descriptors hold it: the bytes readable from
the name pointer on, terminated so that the length scan stops inside them. -/
structure encoded_name where
  bytes : List Nat
  terminated : (mangled_type_name_size bytes).isSome = true

/-- The length `mangled_type_name_size` computes for a descriptor's name. -/
def encoded_name.size (n : encoded_name) : Nat :=
  (mangled_type_name_size n.bytes).get n.terminated

/-- The byte `type_name[i]`; bytes outside the buffer read as zero (the code
indexes only below the scanned length). -/
def encoded_name.at (n : encoded_name) (i : Nat) : Nat := n.bytes.getD i 0

/-! ## Descriptors -/

/-- The struct `field_record`. -/
structure field_record where
  flags : Nat := 0
  mangled_type_name : Option encoded_name := none
  field_name : Option String := none

/-- The struct `field_descriptor`; `records` is the trailing array, indexed as
the C++ indexes it (no bound is checked by the code). -/
structure field_descriptor where
  mangled_type_name : Option encoded_name := none
  superclass : Option encoded_name := none
  kind : Nat := 0
  field_record_size : Nat := 12
  num_fields : Nat := 0
  records : Nat → field_record := fun _ => {}

/-- The members `nominal_type_descriptor` adds to `context_descriptor`.  The
two words of the union are stored once; `struct_type` and `enum_type` read the
same words. -/
structure nominal_type_descriptor where
  name : Option String := none
  reflection_metadata : Option field_descriptor := none
  union_word0 : Nat := 0
  union_word1 : Nat := 0

/-- The member `struct_type.field_count`. -/
def nominal_type_descriptor.struct_type_field_count (d : nominal_type_descriptor) : Nat :=
  d.union_word0

/-- The member `struct_type.field_offset_vector_offset`. -/
def nominal_type_descriptor.struct_type_field_offset_vector_offset
    (d : nominal_type_descriptor) : Nat :=
  d.union_word1

/-- The member `enum_type.payload_cases`. -/
def nominal_type_descriptor.enum_type_payload_cases (d : nominal_type_descriptor) : Nat :=
  d.union_word0

/-- The member `enum_type.empty_cases`. -/
def nominal_type_descriptor.enum_type_empty_cases (d : nominal_type_descriptor) : Nat :=
  d.union_word1

/-- The members `class_type_descriptor` adds to `context_descriptor`.
`resilient_super_immediate_members_offset` is the value read through the
reference `resilient_super.immediate_members_offset`. -/
structure class_type_descriptor where
  name : Option String := none
  fields : Option field_descriptor := none
  superclass_type : Option encoded_name := none
  metadata_negative_size_in_words : Nat := 0
  metadata_positive_size_in_words : Nat := 0
  resilient_super_immediate_members_offset : Int := 0
  num_immediate_members : Nat := 0
  num_fields : Nat := 0
  _field_offset_vector_offset : Nat := 0

/-- A context descriptor object: the `context_descriptor` base and the object
read as a `nominal_type_descriptor` and as a `class_type_descriptor`. -/
structure context_descriptor where
  flags : Nat := 0
  nominal : nominal_type_descriptor := {}
  cls : class_type_descriptor := {}

namespace context_descriptor

def is_generic : Nat := 0x80
def is_unique : Nat := 0x40
def kind_mask : Nat := 0x1f
def kind_module : Nat := 0
def kind_extension : Nat := 1
def kind_anonymous : Nat := 2
def kind_protocol : Nat := 3
def kind_class : Nat := 0x10
def kind_struct : Nat := 0x11
def kind_enum : Nat := 0x12

/-- The method `context_descriptor::kind_specific_flags()`. -/
def kind_specific_flags (d : context_descriptor) : Nat :=
  (d.flags >>> 16) &&& 0xffff

/-- The method `context_descriptor::nominal_descriptor()`. -/
def nominal_descriptor (d : context_descriptor) : Option nominal_type_descriptor :=
  if d.flags &&& kind_mask = kind_struct ∨ d.flags &&& kind_mask = kind_enum then
    some d.nominal
  else none

/-- The method `context_descriptor::class_descriptor()`. -/
def class_descriptor (d : context_descriptor) : Option class_type_descriptor :=
  if d.flags &&& kind_mask = kind_class then some d.cls else none

end context_descriptor

namespace class_type_descriptor

def immediate_members_negative : Nat := 1 <<< 12
def has_resilient_superclass_flag : Nat := 1 <<< 13

/-- The method `class_type_descriptor::has_resilient_superclass()`. -/
def has_resilient_superclass (d : context_descriptor) : Bool :=
  d.kind_specific_flags &&& has_resilient_superclass_flag != 0

/-- The method `class_type_descriptor::has_field_offset_vector()`. -/
def has_field_offset_vector (d : context_descriptor) : Bool :=
  d.cls._field_offset_vector_offset != 0

/-- The method `class_type_descriptor::immediate_members_offset()`.  The
difference of the two `uint32_t` members is taken modulo `2 ^ 32` before it is
widened. -/
def immediate_members_offset (d : context_descriptor) : Int :=
  if !has_resilient_superclass d then
    if d.kind_specific_flags &&& immediate_members_negative != 0 then
      - ((d.cls.metadata_negative_size_in_words : Nat) : Int)
    else
      ((to_uint32 (d.cls.metadata_positive_size_in_words + 2 ^ 32
          - to_uint32 d.cls.num_immediate_members) : Nat) : Int)
  else
    d.cls.resilient_super_immediate_members_offset

/-- The method `class_type_descriptor::field_offset_vector_offset()`.  In the
resilient case the `intptr_t` operand is converted to `uintptr_t` for the
division by `sizeof(uintptr_t)`, and the sum is converted back on return. -/
def field_offset_vector_offset (d : context_descriptor) : Int :=
  if !has_resilient_superclass d then
    ((d.cls._field_offset_vector_offset : Nat) : Int)
  else
    uintptr_to_intptr
      (intptr_to_uintptr (immediate_members_offset d) / sizeof_uintptr_t
        + d.cls._field_offset_vector_offset)

/-- The method `class_type_descriptor::generic_argument_offset()`. -/
def generic_argument_offset (d : context_descriptor) : Int :=
  immediate_members_offset d

end class_type_descriptor

/-! ## Metadata -/

/-- The members of `value_witness_table` the visitor framework reads. -/
structure value_witness_table where
  size : Nat := 0
  stride : Nat := 0
  flags : Nat := 0
  extra_inhabitant_count : Nat := 0

namespace value_witness_table

def alignment_mask : Nat := 0x000000FF
def is_non_POD : Nat := 0x00010000
def is_non_inline : Nat := 0x00020000
def is_non_bitwise_takable : Nat := 0x00100000

end value_witness_table

/-- The members of `capture_descriptor`; `capture_type` is the trailing array
of `CaptureType` entries (each one relative reference to an encoded name). -/
structure capture_descriptor where
  num_capture_types : Nat := 0
  num_metadata_sources : Nat := 0
  num_bindings : Nat := 0
  capture_type : Nat → Option encoded_name := fun _ => none

/-- The handle read as a `nominal_type_metadata`. -/
structure nominal_type_metadata where
  descriptor : Option context_descriptor := none

/-- The handle read as an `any_class_type_metadata` / `class_type_metadata`,
the `superclass` link apart (it is a handle itself). -/
structure class_type_metadata where
  data : Nat := 0
  flags : Nat := 0
  instance_address_point : Nat := 0
  instance_size : Nat := 0
  instance_align_mask : Nat := 0
  class_size : Nat := 0
  class_address_point : Nat := 0
  descriptor : Option context_descriptor := none

/-- The handle read as a `heap_local_variable_metadata`. -/
structure heap_local_variable_metadata where
  offset_to_first_capture : Nat := 0
  descriptor : Option capture_descriptor := none

/-- The handle read as an `existential_type_metadata`. -/
structure existential_type_metadata where
  flags : Nat := 0
  num_protocols : Nat := 0

/-- Everything a handle holds that is not itself a handle.  `addr` is the
address of the metadata (`this`); `value_witness` is the table found through
the word before the address point; `u32_at b` is the `uint32_t` at byte offset
`b` from `this` and `word_at w` the `uintptr_t` at word offset `w`. -/
structure metadata_header where
  addr : Nat := 0
  kind : Nat := 0
  value_witness : value_witness_table := {}
  nominal : nominal_type_metadata := {}
  cls : class_type_metadata := {}
  tuple_num_elements : Nat := 0
  heap_local : heap_local_variable_metadata := {}
  generic_box_offset : Nat := 0
  existential : existential_type_metadata := {}
  u32_at : Nat → Nat := fun _ => 0
  word_at : Int → Nat := fun _ => 0

/-- A type handle (`const metadata *`): the header, the `superclass` link of
`any_class_type_metadata`, the `elements` array of `tuple_type_metadata`
(each a type handle and an offset) and the `boxed_type` of
`generic_box_heap_metadata`. -/
inductive metadata where
  | mk (header : metadata_header) (superclass : Option metadata)
      (elements : Nat → Option metadata × Nat) (boxed_type : Option metadata)

namespace metadata

/-! ### The enum `metadata::Kind` -/

def kind_is_non_type : Nat := 0x400
def kind_is_non_heap : Nat := 0x200
def kind_is_runtime_private : Nat := 0x100
def kind_class : Nat := 0
def kind_struct : Nat := 0 ||| kind_is_non_heap
def kind_enum : Nat := 1 ||| kind_is_non_heap
def kind_optional : Nat := 2 ||| kind_is_non_heap
def kind_foreign_class : Nat := 3 ||| kind_is_non_heap
def kind_opaque : Nat := 0 ||| kind_is_runtime_private ||| kind_is_non_heap
def kind_tuple : Nat := 1 ||| kind_is_runtime_private ||| kind_is_non_heap
def kind_function : Nat := 2 ||| kind_is_runtime_private ||| kind_is_non_heap
def kind_existential : Nat := 3 ||| kind_is_runtime_private ||| kind_is_non_heap
def kind_metatype : Nat := 4 ||| kind_is_runtime_private ||| kind_is_non_heap
def kind_objc_class_wrapper : Nat := 5 ||| kind_is_runtime_private ||| kind_is_non_heap
def kind_existential_metatype : Nat := 6 ||| kind_is_runtime_private ||| kind_is_non_heap
def kind_heap_local_variable : Nat := 0 ||| kind_is_non_type
def kind_heap_generic_local_variable : Nat := 0 ||| kind_is_non_type ||| kind_is_runtime_private
def kind_error_object : Nat := 1 ||| kind_is_non_type ||| kind_is_runtime_private
def kind_last_enumerated : Nat := 0x7FF

/-! ### The enum `metadata::HeapKindMask` -/

def heap_kind_mask_class : Nat := 1 <<< 0
def heap_kind_mask_local : Nat := 1 <<< 1
def heap_kind_mask_generic : Nat := 1 <<< 2
def heap_kind_all : Nat := 2 ^ 32 - 1

/-- The enum `metadata::ref_kind`. -/
inductive ref_kind where
  | strong
  | weak
  | unowned
  | unowned_unsafe
  deriving DecidableEq, Repr

/-! ### Member access -/

def header : metadata → metadata_header
  | .mk h _ _ _ => h

/-- The member `any_class_type_metadata::superclass`. -/
def superclass : metadata → Option metadata
  | .mk _ s _ _ => s

/-- The array `tuple_type_metadata::elements`: handle and offset of an element. -/
def elements : metadata → Nat → Option metadata × Nat
  | .mk _ _ e _ => e

/-- The member `generic_box_heap_metadata::boxed_type`. -/
def boxed_type : metadata → Option metadata
  | .mk _ _ _ b => b

/-- The address `this`. -/
def addr (this : metadata) : Nat := this.header.addr

/-- The member `metadata::kind`. -/
def kind (this : metadata) : Nat := this.header.kind

/-- The `uint32_t` at byte offset `b` from `this`. -/
def load_u32 (this : metadata) (b : Nat) : Nat := to_uint32 (this.header.u32_at b)

/-- The `uintptr_t` at word offset `w` from `this`. -/
def load_word (this : metadata) (w : Int) : Nat := to_size_t (this.header.word_at w)

/-- The method `metadata::canonical_kind()`. -/
def canonical_kind (this : metadata) : Nat :=
  if this.kind > kind_last_enumerated then kind_class else this.kind

/-- The method `metadata::value_witness()`. -/
def value_witness (this : metadata) : value_witness_table := this.header.value_witness

/-- The method `metadata::size()`. -/
def size (this : metadata) : Nat := this.value_witness.size

/-- The method `metadata::stride()`. -/
def stride (this : metadata) : Nat := this.value_witness.stride

/-- The method `metadata::flags()`. -/
def flags (this : metadata) : Nat := this.value_witness.flags

/-- The method `metadata::alignment_mask()`. -/
def alignment_mask (this : metadata) : Nat := this.flags &&& value_witness_table.alignment_mask

/-! ### `any_class_type_metadata` and `class_type_metadata` -/

def uses_swift_refcounting : Nat := 0x2

/-- The method `any_class_type_metadata::is_swift_class()`. -/
def is_swift_class (this : metadata) : Bool := this.header.cls.data &&& 3 != 0

/-- The method `any_class_type_metadata::swift_metadata()`. -/
def swift_metadata (this : metadata) : Option metadata :=
  if this.is_swift_class then some this else none

/-- The method `class_type_metadata::field_offset_vector()`, called on a class
whose `descriptor` is `desc`: the array found at the returned pointer, or
`none` for a null pointer. -/
def field_offset_vector (this : metadata) (desc : context_descriptor) : Option (Nat → Nat) :=
  if !class_type_descriptor.has_field_offset_vector desc then none
  else some (fun i =>
    this.load_word (class_type_descriptor.field_offset_vector_offset desc + (i : Int)))

/-! ### Descriptor lookup -/

/-- The method `metadata::descriptor()`. -/
def descriptor (this : metadata) : Option context_descriptor :=
  if this.canonical_kind = kind_struct ∨ this.canonical_kind = kind_enum
      ∨ this.canonical_kind = kind_optional then
    this.header.nominal.descriptor
  else if this.canonical_kind = kind_class then
    match this.swift_metadata with
    | some m => m.header.cls.descriptor
    | none => none
  else none

/-- The method `metadata::nominal_descriptor()`. -/
def nominal_descriptor (this : metadata) : Option nominal_type_descriptor :=
  match this.descriptor with
  | some desc => desc.nominal_descriptor
  | none => none

end metadata

/-! ## Runtime services -/

/-- The entry points of the Swift and Objective-C runtimes the code calls.
`class_copyIvarList` yields the instance-variable handles (`none` for a null
result; the reported count is the length of the list). -/
structure Runtime where
  swift_getTypeByMangledNameInContext :
    encoded_name → Nat → Option context_descriptor → Option Int → Option metadata
  class_copyIvarList : metadata → Option (List Nat)
  ivar_getOffset : Nat → Nat

/-- The complement `~a` of a `size_t`. -/
def bitwise_not_size_t (a : Nat) : Nat := 2 ^ 64 - 1 - a % 2 ^ 64

/-- The string literal `"Bo"` (native object). -/
def name_Bo : encoded_name := ⟨[0x42, 0x6F, 0x00], by decide⟩

/-- The string literal `"Bp"` (raw pointer). -/
def name_Bp : encoded_name := ⟨[0x42, 0x70, 0x00], by decide⟩

namespace metadata

/-- The method `metadata::mangled_type_name_ref(type_name, ret_ref_kind)`.
The result is the returned handle (`none` for null) paired with the value the
call stores through `ret_ref_kind` when that pointer is not null; a caller
that passes no `ret_ref_kind` uses the first component only. -/
def mangled_type_name_ref (rt : Runtime) (this : metadata) (type_name : Option encoded_name) :
    Option (metadata × ref_kind) :=
  match type_name with
  | none => none
  | some type_name =>
    let context : Option context_descriptor := this.descriptor
    let generic_args : Option Int :=
      match this.descriptor with
      | none => none
      | some desc =>
        if desc.flags &&& context_descriptor.is_generic ≠ 0 then
          if desc.flags &&& context_descriptor.kind_mask = context_descriptor.kind_struct
              ∨ desc.flags &&& context_descriptor.kind_mask = context_descriptor.kind_enum then
            some ((this.addr : Int) + 2 * sizeof_uintptr_t)
          else if desc.flags &&& context_descriptor.kind_mask = context_descriptor.kind_class then
            some ((this.addr : Int)
              + sizeof_uintptr_t * class_type_descriptor.generic_argument_offset desc)
          else none
        else none
    let len := type_name.size
    match rt.swift_getTypeByMangledNameInContext type_name len context generic_args with
    | none => none
    | some ret =>
      let ret_ref_kind : ref_kind :=
        if len > 2 ∧ type_name.at (len - 2) = 'X'.toNat then
          if type_name.at (len - 1) = 'o'.toNat then ref_kind.unowned
          else if type_name.at (len - 1) = 'u'.toNat then ref_kind.unowned_unsafe
          else if type_name.at (len - 1) = 'w'.toNat then ref_kind.weak
          else ref_kind.strong
        else ref_kind.strong
      some (ret, ret_ref_kind)

end metadata

/-! ## The visitor interface -/

/-- The virtual functions of `metadata_visitor`, each a transformer of the
visitor's state `σ`. -/
structure metadata_visitor (σ : Type) where
  unknown_result : σ → Bool
  visit_element : metadata → metadata.ref_kind → Nat → σ → Bool × σ
  visit_field : metadata → field_record → Nat → σ → Bool × σ
  visit_case : metadata → field_record → Nat → σ → Bool × σ
  visit_class : metadata → σ → Bool × σ
  visit_existential : metadata → σ → Bool × σ
  visit_function : metadata → σ → Bool × σ
  visit_native_object : metadata → σ → Bool × σ

namespace metadata_visitor

variable {σ : Type}

/-- The base implementation of `unknown_result()`. -/
def base_unknown_result : σ → Bool := fun _ => false

/-- The body `return unknown_result();` shared by the base implementations of
`visit_element`, `visit_case`, `visit_class`, `visit_existential`,
`visit_function` and `visit_native_object`; `unknown_result` is the final
overrider. -/
def base_return_unknown (unknown_result : σ → Bool) (s : σ) : Bool × σ :=
  (unknown_result s, s)

/-- The base implementation `metadata_visitor::visit_field`; `unknown_result`
and `visit_element` are the final overriders. -/
def base_visit_field (rt : Runtime) (unknown_result : σ → Bool)
    (visit_element : metadata → metadata.ref_kind → Nat → σ → Bool × σ)
    (struct_type : metadata) (field : field_record) (offset : Nat) (s : σ) : Bool × σ :=
  match field.mangled_type_name with
  | some type_name =>
    match struct_type.mangled_type_name_ref rt (some type_name) with
    | some (type, ref) => visit_element type ref offset s
    | none => (unknown_result s, s)
  | none => (unknown_result s, s)

/-- A `metadata_visitor` object that overrides nothing. -/
def base (rt : Runtime) : metadata_visitor σ where
  unknown_result := base_unknown_result
  visit_element := fun _ _ _ => base_return_unknown base_unknown_result
  visit_field := base_visit_field rt base_unknown_result
    (fun _ _ _ => base_return_unknown base_unknown_result)
  visit_case := fun _ _ _ => base_return_unknown base_unknown_result
  visit_class := fun _ => base_return_unknown base_unknown_result
  visit_existential := fun _ => base_return_unknown base_unknown_result
  visit_function := fun _ => base_return_unknown base_unknown_result
  visit_native_object := fun _ => base_return_unknown base_unknown_result

end metadata_visitor

/-! ## The enumeration algorithms -/

/-- The loop `for (i = i0; i < i0 + count; i++) { if (!body(i)) return false; }
return true;` over a visitor state. -/
def for_each_index {σ : Type} (body : Nat → σ → Bool × σ) : Nat → Nat → σ → Bool × σ
  | 0, _, s => (true, s)
  | count + 1, i, s =>
    match body i s with
    | (true, s1) => for_each_index body count (i + 1) s1
    | (false, s1) => (false, s1)

namespace metadata

variable {σ : Type}

/-- The method `metadata::visit_struct`. -/
def visit_struct (this : metadata) (visitor : metadata_visitor σ) (s : σ) : Bool × σ :=
  match this.nominal_descriptor with
  | none => (visitor.unknown_result s, s)
  | some descriptor =>
    match descriptor.reflection_metadata with
    | none => (visitor.unknown_result s, s)
    | some reflection_metadata =>
      if descriptor.struct_type_field_offset_vector_offset = 0 then
        (visitor.unknown_result s, s)
      else
        for_each_index
          (fun i => visitor.visit_field this (reflection_metadata.records i)
            (this.load_u32
              (sizeof_uintptr_t * descriptor.struct_type_field_offset_vector_offset + 4 * i)))
          descriptor.struct_type_field_count 0 s

/-- The method `metadata::visit_tuple`. -/
def visit_tuple (this : metadata) (visitor : metadata_visitor σ) (s : σ) : Bool × σ :=
  for_each_index
    (fun i s1 =>
      match (this.elements i).1 with
      | some type => visitor.visit_element type ref_kind.strong (this.elements i).2 s1
      | none => (true, s1))
    this.header.tuple_num_elements 0 s

/-- The method `metadata::visit_enum`.  The `spme_assert` expands to nothing. -/
def visit_enum (this : metadata) (visitor : metadata_visitor σ) (s : σ) : Bool × σ :=
  match this.nominal_descriptor with
  | none => (visitor.unknown_result s, s)
  | some descriptor =>
    match descriptor.reflection_metadata with
    | none => (visitor.unknown_result s, s)
    | some reflection_metadata =>
      let cases := reflection_metadata.num_fields
      let payloads := descriptor.enum_type_payload_cases &&& 0x00ffffff
      if payloads = 0 then (visitor.unknown_result s, s)
      else
        for_each_index
          (fun i s1 =>
            if (reflection_metadata.records i).mangled_type_name.isSome then
              visitor.visit_case this (reflection_metadata.records i) i s1
            else (true, s1))
          cases 0 s

/-- The method `metadata::visit`.  The function-local static `native_object` is
the result of `mangled_type_name_ref("Bo")`. -/
def visit (rt : Runtime) (this : metadata) (visitor : metadata_visitor σ) (s : σ) : Bool × σ :=
  if this.canonical_kind = kind_class then visitor.visit_class this s
  else if this.canonical_kind = kind_struct then this.visit_struct visitor s
  else if this.canonical_kind = kind_enum ∨ this.canonical_kind = kind_optional then
    this.visit_enum visitor s
  else if this.canonical_kind = kind_tuple then this.visit_tuple visitor s
  else if this.canonical_kind = kind_function then visitor.visit_function this s
  else if this.canonical_kind = kind_existential then visitor.visit_existential this s
  else if this.canonical_kind = kind_opaque then
    match this.mangled_type_name_ref rt (some name_Bo) with
    | some (native_object, _) =>
      if this.addr = native_object.addr then visitor.visit_native_object this s
      else (visitor.unknown_result s, s)
    | none => (visitor.unknown_result s, s)
  else (visitor.unknown_result s, s)

/-- The part of `metadata::visit_heap_class` after the superclass walk: the
fields of the class itself.  `desc` is `cls->descriptor`. -/
def visit_heap_class_fields (rt : Runtime) (this : metadata) (desc : context_descriptor)
    (visitor : metadata_visitor σ) (s : σ) : Bool × σ :=
  match desc.cls.fields with
  | none => (true, s)
  | some fields =>
    if fields.num_fields = 0 then (true, s)
    else if fields.num_fields ≠ desc.cls.num_fields then (visitor.unknown_result s, s)
    else
      let offsets : Option (Nat → Nat) :=
        if this.header.cls.flags &&& uses_swift_refcounting ≠ 0 then
          this.field_offset_vector desc
        else
          match rt.class_copyIvarList this with
          | some ivars =>
            if ivars.length = fields.num_fields then
              some (fun i => to_size_t (rt.ivar_getOffset (ivars.getD i 0)))
            else none
          | none => none
      match offsets with
      | none => (visitor.unknown_result s, s)
      | some offsets =>
        if offsets 0 = 0 then (visitor.unknown_result s, s)
        else
          for_each_index (fun i => visitor.visit_field this (fields.records i) (offsets i))
            fields.num_fields 0 s

/-- The method `metadata::visit_heap_class`. -/
def visit_heap_class (rt : Runtime) (visitor : metadata_visitor σ) : metadata → σ → Bool × σ
  | mk header superclass elements boxed_type, s =>
    match (mk header superclass elements boxed_type).swift_metadata with
    | none => (visitor.unknown_result s, s)
    | some cls =>
      match header.cls.descriptor with
      | none => (visitor.unknown_result s, s)
      | some desc =>
        match desc.cls.superclass_type, superclass with
        | some _, some s_cls =>
          if s_cls.canonical_kind ≠ kind_class then (visitor.unknown_result s, s)
          else
            match visit_heap_class rt visitor s_cls s with
            | (false, s1) => (false, s1)
            | (true, s1) => visit_heap_class_fields rt cls desc visitor s1
        | _, _ => visit_heap_class_fields rt cls desc visitor s

/-- The method `metadata::visit_heap_box`. -/
def visit_heap_box (this : metadata) (visitor : metadata_visitor σ) (s : σ) : Bool × σ :=
  match this.boxed_type with
  | some type =>
    let offset := this.header.generic_box_offset
    let align := type.alignment_mask
    let offset := to_size_t (offset + align) &&& bitwise_not_size_t align
    visitor.visit_element type ref_kind.strong offset s
  | none => (visitor.unknown_result s, s)

/-- The outcome of one of the two loops of `visit_heap_locals`: the loop ran to
its end and left `offset`, or the function returned from inside the loop. -/
inductive locals_loop (σ : Type) where
  | finished (offset : Nat) (s : σ)
  | returned (result : Bool) (s : σ)

/-- The bindings loop of `metadata::visit_heap_locals`.  The function-local
static `pointer_type` is the result of `mangled_type_name_ref("Bp")`. -/
def visit_heap_locals_bindings (rt : Runtime) (this : metadata) (visitor : metadata_visitor σ) :
    Nat → Nat → σ → locals_loop σ
  | 0, offset, s => locals_loop.finished offset s
  | count + 1, offset, s =>
    match this.mangled_type_name_ref rt (some name_Bp) with
    | none => locals_loop.returned (visitor.unknown_result s) s
    | some (pointer_type, _) =>
      match visitor.visit_element pointer_type ref_kind.unowned_unsafe offset s with
      | (false, s1) => locals_loop.returned false s1
      | (true, s1) =>
        visit_heap_locals_bindings rt this visitor count (to_size_t (offset + sizeof_uintptr_t)) s1

/-- The captures loop of `metadata::visit_heap_locals`; `i` is the loop index
and `count` the number of iterations left. -/
def visit_heap_locals_captures (rt : Runtime) (this : metadata) (desc : capture_descriptor)
    (visitor : metadata_visitor σ) : Nat → Nat → Nat → σ → locals_loop σ
  | 0, _, offset, s => locals_loop.finished offset s
  | count + 1, i, offset, s =>
    match this.mangled_type_name_ref rt (desc.capture_type i) with
    | none => locals_loop.returned (visitor.unknown_result s) s
    | some (elt_type, ref) =>
      let align := elt_type.alignment_mask
      let offset := to_size_t (offset + align) &&& bitwise_not_size_t align
      match visitor.visit_element elt_type ref offset s with
      | (false, s1) => locals_loop.returned false s1
      | (true, s1) =>
        visit_heap_locals_captures rt this desc visitor count (i + 1)
          (to_size_t (offset + elt_type.size)) s1

/-- The method `metadata::visit_heap_locals`. -/
def visit_heap_locals (rt : Runtime) (this : metadata) (visitor : metadata_visitor σ) (s : σ) :
    Bool × σ :=
  match this.header.heap_local.descriptor with
  | none => (visitor.unknown_result s, s)
  | some desc =>
    if desc.num_metadata_sources ≠ 0 then (visitor.unknown_result s, s)
    else
      let offset := this.header.heap_local.offset_to_first_capture
      let offset := if offset = 0 then 2 * sizeof_uintptr_t else offset
      match visit_heap_locals_bindings rt this visitor desc.num_bindings offset s with
      | locals_loop.returned result s1 => (result, s1)
      | locals_loop.finished offset s1 =>
        match visit_heap_locals_captures rt this desc visitor desc.num_capture_types 0 offset s1 with
        | locals_loop.returned result s2 => (result, s2)
        | locals_loop.finished _ s2 => (true, s2)

/-- The method `metadata::visit_heap`. -/
def visit_heap (rt : Runtime) (this : metadata) (visitor : metadata_visitor σ) (mask : Nat)
    (s : σ) : Bool × σ :=
  if this.canonical_kind = kind_class then
    if mask &&& heap_kind_mask_class ≠ 0 then visit_heap_class rt visitor this s
    else (visitor.unknown_result s, s)
  else if this.canonical_kind = kind_heap_local_variable then
    if mask &&& heap_kind_mask_local ≠ 0 then this.visit_heap_locals rt visitor s
    else (visitor.unknown_result s, s)
  else if this.canonical_kind = kind_heap_generic_local_variable then
    if mask &&& heap_kind_mask_generic ≠ 0 then this.visit_heap_box visitor s
    else (visitor.unknown_result s, s)
  else if this.canonical_kind = kind_error_object then (visitor.unknown_result s, s)
  else (visitor.unknown_result s, s)

end metadata

/-! ## The entry point `SPMETypeApplyFields` -/

def SPMETypeApplyClassType : Nat := 1 <<< 0
def SPMETypeApplyIgnoreUnknown : Nat := 1 <<< 1

/-- The closure `callback(name, offset, type)` over a caller state `σ`. -/
abbrev Callback (σ : Type) : Type := Option String → Nat → metadata → σ → Bool × σ

namespace SPMETypeApplyFields

variable {σ : Type}

/-- The override `Visitor::unknown_result`. -/
def Visitor_unknown_result (flags : Nat) : σ → Bool :=
  fun _ => decide (flags &&& SPMETypeApplyIgnoreUnknown ≠ 0)

/-- The override `Visitor::visit_field`.  The `size_t` offset is converted to
the closure's `__swift_uint32_t` parameter. -/
def Visitor_visit_field (rt : Runtime) (callback : Callback σ) (flags : Nat)
    (type : metadata) (field : field_record) (offset : Nat) (s : σ) : Bool × σ :=
  match type.mangled_type_name_ref rt field.mangled_type_name with
  | some (ft, _) => callback field.field_name (to_uint32 offset) ft s
  | none => (Visitor_unknown_result flags s, s)

/-- The local struct `Visitor`: `unknown_result` and `visit_field` are
overridden, every other virtual function is the base implementation. -/
def Visitor (rt : Runtime) (callback : Callback σ) (flags : Nat) : metadata_visitor σ where
  unknown_result := Visitor_unknown_result flags
  visit_element := fun _ _ _ => metadata_visitor.base_return_unknown (Visitor_unknown_result flags)
  visit_field := Visitor_visit_field rt callback flags
  visit_case := fun _ _ _ => metadata_visitor.base_return_unknown (Visitor_unknown_result flags)
  visit_class := fun _ => metadata_visitor.base_return_unknown (Visitor_unknown_result flags)
  visit_existential := fun _ =>
    metadata_visitor.base_return_unknown (Visitor_unknown_result flags)
  visit_function := fun _ => metadata_visitor.base_return_unknown (Visitor_unknown_result flags)
  visit_native_object := fun _ =>
    metadata_visitor.base_return_unknown (Visitor_unknown_result flags)

end SPMETypeApplyFields

/-- The function `SPMETypeApplyFields(type_id, flags, callback)`. -/
def SPMETypeApplyFields {σ : Type} (rt : Runtime) (type : metadata) (flags : Nat)
    (callback : Callback σ) (s : σ) : Bool × σ :=
  if type.canonical_kind = metadata.kind_struct ∨ type.canonical_kind = metadata.kind_tuple then
    if flags &&& SPMETypeApplyClassType ≠ 0 then (false, s)
    else type.visit rt (SPMETypeApplyFields.Visitor rt callback flags) s
  else if type.canonical_kind = metadata.kind_class then
    if ¬ (flags &&& SPMETypeApplyClassType ≠ 0) then (false, s)
    else
      type.visit_heap rt (SPMETypeApplyFields.Visitor rt callback flags)
        metadata.heap_kind_mask_class s
  else (false, s)

/-! ## Observing a walk

The definitions below are not part of the program.  They record the calls a
walk makes, name the fields a walk is expected to reach, and give concrete
handles on which the program is evaluated. -/

/-- One invocation of the callback closure: its three arguments and the value
it returned. -/
structure callback_call where
  name : Option String
  offset : Nat
  type : metadata
  result : Bool

/-- The closure `callback`, instrumented: every invocation is appended to a log
kept next to the closure's own state. -/
def Callback.recording {σ : Type} (callback : Callback σ) : Callback (σ × List callback_call) :=
  fun name offset type s =>
    ((callback name offset type s.1).1,
      ((callback name offset type s.1).2,
        s.2 ++ [{ name := name, offset := offset, type := type,
                  result := (callback name offset type s.1).1 }]))

/-- A call a walk makes on its visitor. -/
inductive visit_event where
  | element (type : metadata) (ref : metadata.ref_kind) (offset : Nat)
  | field (struct_type : metadata) (field : field_record) (offset : Nat)
  | case_ (enum_type : metadata) (field : field_record) (tag : Nat)
  | class_ (class_type : metadata)
  | existential (type : metadata)
  | function (type : metadata)
  | native_object (type : metadata)

/-- The visitor `visitor`, instrumented: every call of one of its `visit_...`
functions is appended to a log kept next to the visitor's own state. -/
def metadata_visitor.recording {σ : Type} (visitor : metadata_visitor σ) :
    metadata_visitor (σ × List visit_event) where
  unknown_result := fun s => visitor.unknown_result s.1
  visit_element := fun type ref offset s =>
    ((visitor.visit_element type ref offset s.1).1,
      ((visitor.visit_element type ref offset s.1).2,
        s.2 ++ [visit_event.element type ref offset]))
  visit_field := fun struct_type field offset s =>
    ((visitor.visit_field struct_type field offset s.1).1,
      ((visitor.visit_field struct_type field offset s.1).2,
        s.2 ++ [visit_event.field struct_type field offset]))
  visit_case := fun enum_type field tag s =>
    ((visitor.visit_case enum_type field tag s.1).1,
      ((visitor.visit_case enum_type field tag s.1).2,
        s.2 ++ [visit_event.case_ enum_type field tag]))
  visit_class := fun class_type s =>
    ((visitor.visit_class class_type s.1).1,
      ((visitor.visit_class class_type s.1).2, s.2 ++ [visit_event.class_ class_type]))
  visit_existential := fun type s =>
    ((visitor.visit_existential type s.1).1,
      ((visitor.visit_existential type s.1).2, s.2 ++ [visit_event.existential type]))
  visit_function := fun type s =>
    ((visitor.visit_function type s.1).1,
      ((visitor.visit_function type s.1).2, s.2 ++ [visit_event.function type]))
  visit_native_object := fun type s =>
    ((visitor.visit_native_object type s.1).1,
      ((visitor.visit_native_object type s.1).2, s.2 ++ [visit_event.native_object type]))

/-- A call `visit_field(type, field, offset)` a walk is expected to make. -/
structure field_visit where
  type : metadata
  field : field_record
  offset : Nat

/-- The handle a field's encoded type name resolves to in the context of the
type that declares it (`none` when the name is absent or does not resolve). -/
def field_visit.resolved (rt : Runtime) (v : field_visit) : Option metadata :=
  (v.type.mangled_type_name_ref rt v.field.mangled_type_name).map Prod.fst

/-- The callback invocation a resolvable field gives rise to: the field's
name, its offset as a `__swift_uint32_t`, and the resolved handle. -/
def field_visit.call (rt : Runtime) (v : field_visit) (result : Bool) : Option callback_call :=
  (v.resolved rt).map
    (fun ft => { name := v.field.field_name, offset := to_uint32 v.offset, type := ft,
                 result := result })

/-- The fields of a struct in declaration order, each with its entry of the
field-offset vector. -/
def struct_field_visits (this : metadata) (descriptor : nominal_type_descriptor)
    (reflection_metadata : field_descriptor) : List field_visit :=
  (List.range descriptor.struct_type_field_count).map
    (fun i =>
      { type := this, field := reflection_metadata.records i,
        offset := this.load_u32
          (sizeof_uintptr_t * descriptor.struct_type_field_offset_vector_offset + 4 * i) })

/-- The calls `visit_field(type, field, offset)` for the fields of a list, in
order, up to and including the first one the visitor rejects. -/
def visit_fields_in_order {σ : Type} (visitor : metadata_visitor σ) :
    List field_visit → σ → Bool × σ
  | [], s => (true, s)
  | v :: rest, s =>
    match visitor.visit_field v.type v.field v.offset s with
    | (true, s1) => visit_fields_in_order visitor rest s1
    | (false, s1) => (false, s1)

/-- The classes whose fields the heap-class walk of a class enumerates, the
root of the declared hierarchy first: the superclass link is followed where
the class's descriptor declares a superclass and the link is not null. -/
def class_levels : metadata → List metadata
  | metadata.mk header superclass elements boxed_type =>
    match header.cls.descriptor with
    | some desc =>
      match desc.cls.superclass_type, superclass with
      | some _, some s_cls =>
        class_levels s_cls ++ [metadata.mk header superclass elements boxed_type]
      | _, _ => [metadata.mk header superclass elements boxed_type]
    | none => [metadata.mk header superclass elements boxed_type]

/-- A level of a class hierarchy that is a native class with native
refcounting, whose reflection metadata is present with the field count the
descriptor declares, and whose field-offset vector is present with a nonzero
first entry. -/
def native_class_level (m : metadata) : Prop :=
  m.canonical_kind = metadata.kind_class ∧ m.is_swift_class = true
  ∧ ∃ desc fields, m.header.cls.descriptor = some desc ∧ desc.cls.fields = some fields
    ∧ fields.num_fields = desc.cls.num_fields
    ∧ m.header.cls.flags &&& metadata.uses_swift_refcounting ≠ 0
    ∧ class_type_descriptor.has_field_offset_vector desc = true
    ∧ m.load_word (class_type_descriptor.field_offset_vector_offset desc) ≠ 0

/-- The number of fields the descriptor of a class declares for the class
itself. -/
def class_level_field_count (m : metadata) : Nat :=
  match m.header.cls.descriptor with
  | some desc => desc.cls.num_fields
  | none => 0

/-- The fields one class declares, in declaration order, each with its entry of
the class's field-offset vector. -/
def class_level_field_visits (m : metadata) : List field_visit :=
  match m.header.cls.descriptor with
  | some desc =>
    match desc.cls.fields with
    | some fields =>
      (List.range fields.num_fields).map
        (fun i =>
          { type := m, field := fields.records i,
            offset := m.load_word
              (class_type_descriptor.field_offset_vector_offset desc + (i : Int)) })
    | none => []
  | none => []

/-- The fields of a class and of its declared superclasses: the fields of a
superclass before those of its subclass. -/
def class_field_visits (type : metadata) : List field_visit :=
  (class_levels type).flatMap class_level_field_visits

/-- Every logged invocation of the callback returned true. -/
def all_accepted (log : List callback_call) : Prop := ∀ c ∈ log, c.result = true

/-- An outcome of a walk in which a rejection ends the walk: every logged
invocation returned true, or the walk returned false and the last logged
invocation is the only one that returned false. -/
def stopped_at_rejection {σ : Type} (out : Bool × σ × List callback_call) : Prop :=
  all_accepted out.2.2
  ∨ (out.1 = false
    ∧ ∃ pre c, out.2.2 = pre ++ [c] ∧ all_accepted pre ∧ c.result = false)

/-- The scanned name ends in the two characters `a` `b`: it is at least two
bytes long and its last two bytes, `type_name[len - 2]` and
`type_name[len - 1]`, are `a` and `b`. -/
def encoded_name.ends_in (n : encoded_name) (a b : Char) : Prop :=
  2 ≤ n.size ∧ n.at (n.size - 2) = a.toNat ∧ n.at (n.size - 1) = b.toNat

/-! ## Concrete handles -/

namespace sample

open metadata

/-- No tuple elements. -/
def no_elements : Nat → Option metadata × Nat := fun _ => (none, 0)

/-- The encoded name `Si` (`Swift.Int`). -/
def name_Si : encoded_name := ⟨[0x53, 0x69, 0x00], by decide⟩

/-- The encoded name `SS` (`Swift.String`). -/
def name_SS : encoded_name := ⟨[0x53, 0x53, 0x00], by decide⟩

/-- The two bytes `Xo` alone. -/
def name_Xo : encoded_name := ⟨[0x58, 0x6F, 0x00], by decide⟩

/-- The encoded name `SiXo`. -/
def name_SiXo : encoded_name := ⟨[0x53, 0x69, 0x58, 0x6F, 0x00], by decide⟩

/-- An encoded name the sample resolver does not know. -/
def name_unknown : encoded_name := ⟨[0x51, 0x51, 0x00], by decide⟩

/-- The metadata of `Swift.Int`: a struct of size 8, alignment mask 7. -/
def type_Int : metadata :=
  mk { addr := 0x1000, kind := kind_struct, value_witness := { size := 8, stride := 8, flags := 7 } }
    none no_elements none

/-- The metadata of `Swift.String`: a struct of size 16, alignment mask 7. -/
def type_String : metadata :=
  mk { addr := 0x2000, kind := kind_struct,
       value_witness := { size := 16, stride := 16, flags := 7 } }
    none no_elements none

/-- A runtime whose resolver knows `Si`, `SS`, `Xo` and `SiXo` and which reports
no instance variables. -/
def runtime : Runtime where
  swift_getTypeByMangledNameInContext := fun name _ _ _ =>
    if name.bytes = name_Si.bytes then some type_Int
    else if name.bytes = name_SS.bytes then some type_String
    else if name.bytes = name_Xo.bytes then some type_Int
    else if name.bytes = name_SiXo.bytes then some type_Int
    else none
  class_copyIvarList := fun _ => none
  ivar_getOffset := fun _ => 0

/-- The field records `x : Int`, `y : String`. -/
def records_xy : Nat → field_record := fun i =>
  if i = 0 then { mangled_type_name := some name_Si, field_name := some "x" }
  else if i = 1 then { mangled_type_name := some name_SS, field_name := some "y" }
  else {}

/-- The field records `x : Int`, `q` of an unknown type, `y : String`. -/
def records_xqy : Nat → field_record := fun i =>
  if i = 0 then { mangled_type_name := some name_Si, field_name := some "x" }
  else if i = 1 then { mangled_type_name := some name_unknown, field_name := some "q" }
  else if i = 2 then { mangled_type_name := some name_SS, field_name := some "y" }
  else {}

/-- The descriptor of `struct Pair { x : Int; y : String }`; the field-offset
vector is two words after the address point. -/
def descriptor_Pair : context_descriptor :=
  { flags := context_descriptor.kind_struct,
    nominal := { name := some "Pair",
                 reflection_metadata := some { num_fields := 2, records := records_xy },
                 union_word0 := 2, union_word1 := 2 } }

/-- The metadata of `Pair`, with field offsets 0 and 8. -/
def struct_Pair : metadata :=
  mk { addr := 0x3000, kind := kind_struct,
       nominal := { descriptor := some descriptor_Pair },
       u32_at := fun b => if b = 16 then 0 else if b = 20 then 8 else 0 }
    none no_elements none

/-- The descriptor of `struct Triple { x : Int; q : ?; y : String }`. -/
def descriptor_Triple : context_descriptor :=
  { flags := context_descriptor.kind_struct,
    nominal := { name := some "Triple",
                 reflection_metadata := some { num_fields := 3, records := records_xqy },
                 union_word0 := 3, union_word1 := 2 } }

/-- The metadata of `Triple`, with field offsets 0, 8 and 16. -/
def struct_Triple : metadata :=
  mk { addr := 0x3800, kind := kind_struct,
       nominal := { descriptor := some descriptor_Triple },
       u32_at := fun b => if b = 16 then 0 else if b = 20 then 8 else if b = 24 then 16 else 0 }
    none no_elements none

/-- The metadata of the tuple `(Int, String)`. -/
def tuple_Int_String : metadata :=
  mk { addr := 0x4000, kind := kind_tuple, tuple_num_elements := 2 }
    none (fun i => if i = 0 then (some type_Int, 0) else if i = 1 then (some type_String, 8)
                   else (none, 0))
    none

/-- The descriptor of `class Base { x : Int }`: no declared superclass, field-offset
vector at word 10. -/
def descriptor_Base : context_descriptor :=
  { flags := context_descriptor.kind_class,
    cls := { name := some "Base",
             fields := some { num_fields := 1, records := records_xy },
             num_fields := 1, _field_offset_vector_offset := 10 } }

/-- The metadata of `Base`: a native class with native refcounting; `x` is at
offset 16. -/
def class_Base : metadata :=
  mk { addr := 0x5000, kind := kind_class,
       cls := { data := 1, flags := uses_swift_refcounting, descriptor := some descriptor_Base },
       word_at := fun w => if w = 10 then 16 else 0 }
    none no_elements none

/-- The field record `y : String`. -/
def records_y : Nat → field_record := fun i =>
  if i = 0 then { mangled_type_name := some name_SS, field_name := some "y" } else {}

/-- The descriptor of `class Derived : Base { y : String }`: field-offset vector
at word 11. -/
def descriptor_Derived : context_descriptor :=
  { flags := context_descriptor.kind_class,
    cls := { name := some "Derived",
             fields := some { num_fields := 1, records := records_y },
             superclass_type := some name_SS,
             num_fields := 1, _field_offset_vector_offset := 11 } }

/-- The metadata of `Derived`: `y` is at offset 24. -/
def class_Derived : metadata :=
  mk { addr := 0x6000, kind := kind_class,
       cls := { data := 1, flags := uses_swift_refcounting,
                descriptor := some descriptor_Derived },
       word_at := fun w => if w = 11 then 24 else 0 }
    (some class_Base) no_elements none

/-- The metadata of a metatype. -/
def type_Metatype : metadata :=
  mk { addr := 0x7000, kind := kind_metatype } none no_elements none

/-- A callback that accepts every field and keeps no state. -/
def accept_all : Callback Unit := fun _ _ _ s => (true, s)

/-- A callback that rejects every field and keeps no state. -/
def reject_all : Callback Unit := fun _ _ _ s => (false, s)

end sample


instance encoded_name.decidable_ends_in (n : encoded_name) (a b : Char) :
    Decidable (n.ends_in a b) := by
  unfold encoded_name.ends_in
  infer_instance

/-- The generic-argument vector `mangled_type_name_ref` hands to the resolver
for a base type: null unless the base type has a descriptor whose is-generic
flag is set; for a struct or enum descriptor the metadata's inline
`generic_args` array, two words after the address point; for a class descriptor
the metadata's address plus the descriptor's generic-argument offset in words;
null for any other descriptor kind. -/
def metadata.resolver_generic_args (this : metadata) : Option Int :=
  match this.descriptor with
  | none => none
  | some desc =>
    if desc.flags &&& context_descriptor.is_generic = 0 then none
    else if desc.flags &&& context_descriptor.kind_mask = context_descriptor.kind_struct
        ∨ desc.flags &&& context_descriptor.kind_mask = context_descriptor.kind_enum then
      some ((this.addr : Int) + 2 * sizeof_uintptr_t)
    else if desc.flags &&& context_descriptor.kind_mask = context_descriptor.kind_class then
      some ((this.addr : Int)
        + sizeof_uintptr_t * class_type_descriptor.generic_argument_offset desc)
    else none

/-! ## Further concrete handles -/

namespace sample

/-- A runtime whose resolver resolves every name to `Swift.Int`. -/
def runtime_any : Runtime where
  swift_getTypeByMangledNameInContext := fun _ _ _ _ => some type_Int
  class_copyIvarList := fun _ => none
  ivar_getOffset := fun _ => 0

/-- The bytes `XoSiXq`: `Xo` occurs before the last two characters, and the
last two characters are `X` followed by a character that is no ownership
suffix. -/
def name_XoSiXq : encoded_name := ⟨[0x58, 0x6F, 0x53, 0x69, 0x58, 0x71, 0x00], by decide⟩

end sample


/-! ## Observing the length scan -/

/-- The indices `mangled_type_name_size_loop` reads, in the order it reads
them: the same loop, recording the index of every `*end`.  An index outside
the buffer is recorded too; the scan ends there. -/
def mangled_type_name_size_reads_loop (ptr : List Nat) : Nat → Nat → List Nat
  | 0, _ => []
  | fuel + 1, end_ =>
    end_ ::
      match ptr.get? end_ with
      | none => []
      | some current =>
        if current = 0 then []
        else if 0x1 ≤ current ∧ current ≤ 0x17 then
          mangled_type_name_size_reads_loop ptr fuel (end_ + 1 + 4)
        else if 0x18 ≤ current ∧ current ≤ 0x1F then
          mangled_type_name_size_reads_loop ptr fuel (end_ + 1 + sizeof_uintptr_t)
        else
          mangled_type_name_size_reads_loop ptr fuel (end_ + 1)

/-- The indices `mangled_type_name_size(ptr)` reads. -/
def mangled_type_name_size_reads (ptr : List Nat) : List Nat :=
  mangled_type_name_size_reads_loop ptr (ptr.length + 1) 0

/-- A buffer that starts with a well-formed encoded name: a sequence of items,
each a tag byte in [0x01,0x17] with its 4 payload bytes, a tag byte in
[0x18,0x1F] with its pointer-width payload, or one other non-zero byte,
followed by the 0x00 terminator.  Payload bytes are arbitrary; bytes after the
terminator do not belong to the name. -/
inductive well_formed_name : List Nat → Prop where
  | terminator (rest : List Nat) : well_formed_name (0 :: rest)
  | reference_4 (tag : Nat) (payload rest : List Nat) :
      0x1 ≤ tag → tag ≤ 0x17 → payload.length = 4 → well_formed_name rest →
      well_formed_name (tag :: (payload ++ rest))
  | reference_pointer (tag : Nat) (payload rest : List Nat) :
      0x18 ≤ tag → tag ≤ 0x1F → payload.length = sizeof_uintptr_t → well_formed_name rest →
      well_formed_name (tag :: (payload ++ rest))
  | plain (byte : Nat) (rest : List Nat) :
      byte ≠ 0 → ¬ (0x1 ≤ byte ∧ byte ≤ 0x1F) → well_formed_name rest →
      well_formed_name (byte :: rest)






/-! ## Existential containers -/

/-- An existential container as the code reads it through `container`: `addr`
is the pointer itself; `value` is the member of `class_existential_container`;
`buffer` and `type` are the members of `opaque_existential_container` (the
stored type pointer of an initialised container is not null). -/
structure existential_container where
  addr : Nat := 0
  value : Nat := 0
  buffer : Nat → Nat := fun _ => 0
  type : metadata

/-- The Objective-C entry points `dynamic_type` calls: `object_getClass` on an
object pointer and `swift_getObjCClassMetadata` on a class. -/
structure ObjectRuntime where
  object_getClass : Nat → metadata
  swift_getObjCClassMetadata : metadata → Option metadata

namespace opaque_existential_container

/-- The method `opaque_existential_container::is_value_inline()`. -/
def is_value_inline (this : existential_container) : Bool :=
  this.type.flags &&& value_witness_table.is_non_inline = 0

/-- The method `opaque_existential_container::project_value()`: the address of
`buffer` itself, or the pointer held in `buffer[0]` plus the padded header
size. -/
def project_value (this : existential_container) : Nat :=
  if this.type.flags &&& value_witness_table.is_non_inline = 0 then this.addr
  else
    let align := this.type.alignment_mask
    let offset := to_size_t (2 * sizeof_uintptr_t + align) &&& bitwise_not_size_t align
    to_size_t (this.buffer 0) + offset

end opaque_existential_container

namespace existential_type_metadata

def num_witness_tables_mask : Nat := 0x00ffffff
def non_class_constraint_flag : Nat := 0x80000000
def has_superclass_flag : Nat := 0x40000000
def special_protocol_mask : Nat := 0x3f000000
def special_protocol_shift : Nat := 24

/-- The enum `existential_type_metadata::representation_type`. -/
inductive representation_type where
  | opaque_
  | class_type
  | unsupported
  deriving DecidableEq, Repr

/-- The method `existential_type_metadata::representation()`. -/
def representation (this : existential_type_metadata) : representation_type :=
  if (this.flags &&& special_protocol_mask) >>> special_protocol_shift ≠ 0 then
    representation_type.unsupported
  else if this.flags &&& non_class_constraint_flag = 0 then representation_type.class_type
  else representation_type.opaque_

/-- The method `existential_type_metadata::is_class_bound()`. -/
def is_class_bound (this : existential_type_metadata) : Bool :=
  representation this = representation_type.class_type

/-- The method `existential_type_metadata::project_value(container)`: the
returned pointer, `none` for null. -/
def project_value (this : existential_type_metadata) (container : existential_container) :
    Option Nat :=
  match representation this with
  | representation_type.class_type => some container.addr
  | representation_type.opaque_ => some (opaque_existential_container.project_value container)
  | representation_type.unsupported => none

/-- The method `existential_type_metadata::dynamic_type(container)`. -/
def dynamic_type (objc : ObjectRuntime) (this : existential_type_metadata)
    (container : existential_container) : Option metadata :=
  match representation this with
  | representation_type.class_type =>
    let obj := container.value
    let cls_type := objc.object_getClass obj
    if cls_type.is_swift_class then some cls_type
    else objc.swift_getObjCClassMetadata cls_type
  | representation_type.opaque_ => some container.type
  | representation_type.unsupported => none

end existential_type_metadata

/-! ## Concrete handles for enums, boxes and existentials -/

namespace sample

open metadata

/-- The case records `a(Int)`, `b(String)`. -/
def records_ab : Nat → field_record := fun i =>
  if i = 0 then { mangled_type_name := some name_Si, field_name := some "a" }
  else if i = 1 then { mangled_type_name := some name_SS, field_name := some "b" }
  else {}

/-- The descriptor of an enum whose packed payload word has high byte 5 and a
payload-case count of zero, with two empty cases declared and case records that
carry type names. -/
def descriptor_no_payload : context_descriptor :=
  { flags := context_descriptor.kind_enum,
    nominal := { name := some "E",
                 reflection_metadata := some { num_fields := 2, records := records_ab },
                 union_word0 := 0x05000000, union_word1 := 2 } }

/-- The metadata of that enum. -/
def enum_no_payload : metadata :=
  mk { addr := 0x8000, kind := kind_enum, nominal := { descriptor := some descriptor_no_payload } }
    none no_elements none

/-- The metadata of a local-capture box with one metadata source, one binding
and one capture of type `Int`. -/
def box_with_metadata_source : metadata :=
  mk { addr := 0x9000, kind := kind_heap_local_variable,
       heap_local :=
         { offset_to_first_capture := 16,
           descriptor := some { num_capture_types := 1, num_metadata_sources := 1,
                                num_bindings := 1,
                                capture_type := fun _ => some name_Si } } }
    none no_elements none

/-- The metadata of a generic box holding a `String` at declared offset 13. -/
def generic_box_String : metadata :=
  mk { addr := 0xA000, kind := kind_heap_generic_local_variable, generic_box_offset := 13 }
    none no_elements (some type_String)

/-- The metadata of a generic box without a boxed type. -/
def generic_box_empty : metadata :=
  mk { addr := 0xA800, kind := kind_heap_generic_local_variable, generic_box_offset := 13 }
    none no_elements none

/-- A class-constrained existential with two witness tables and a superclass
constraint. -/
def existential_class : existential_type_metadata := { flags := 0x40000002 }

/-- An existential with special protocol 1 (an error existential). -/
def existential_error : existential_type_metadata := { flags := 0x81000001 }

/-- An opaque existential with one witness table. -/
def existential_any : existential_type_metadata := { flags := 0x80000001 }

/-- A container at address 0xB000 whose first word is 0xC000. -/
def container : existential_container :=
  { addr := 0xB000, value := 0xC000, buffer := fun i => if i = 0 then 0xC000 else 0,
    type := type_Int }

/-- An Objective-C runtime in which every object is an instance of `Base`. -/
def object_runtime : ObjectRuntime where
  object_getClass := fun _ => class_Base
  swift_getObjCClassMetadata := fun _ => none

end sample






/-! ## Further observation of walks -/

/-- The align-up arithmetic `(offset + a) & ~a` on `size_t`, as the generic-box
walk, the capture-box walk and the opaque-existential projection write it. -/
def align_up (offset a : Nat) : Nat := to_size_t (offset + a) &&& bitwise_not_size_t a

/-- The calls `visit_case(enum_type, records[tag], tag)` for a list of tags, in
order, up to and including the first one the visitor rejects. -/
def visit_cases_in_order {σ : Type} (visitor : metadata_visitor σ) (enum_type : metadata)
    (records : Nat → field_record) : List Nat → σ → Bool × σ
  | [], s => (true, s)
  | tag :: rest, s =>
    match visitor.visit_case enum_type (records tag) tag s with
    | (true, s1) => visit_cases_in_order visitor enum_type records rest s1
    | (false, s1) => (false, s1)

/-- The indices of the case records that carry an encoded type name, in
ascending order. -/
def payload_case_tags (reflection_metadata : field_descriptor) : List Nat :=
  (List.range reflection_metadata.num_fields).filter
    (fun i => (reflection_metadata.records i).mangled_type_name.isSome)

/-! ## Concrete handles for class hierarchies -/

namespace sample

open metadata

/-- The metadata of an Objective-C class: the kind word is an isa pointer and
the class is not flagged as a native Swift class. -/
def class_NSObject : metadata :=
  mk { addr := 0xD000, kind := 0x100004000 } none no_elements none

/-- The descriptor of `class Holder : NSObject { y : String }`. -/
def descriptor_Holder : context_descriptor :=
  { flags := context_descriptor.kind_class,
    cls := { name := some "Holder",
             fields := some { num_fields := 1, records := records_y },
             superclass_type := some name_SS,
             num_fields := 1 } }

/-- The metadata of `Holder`: a native Swift class whose kind word is an isa
pointer, without native refcounting, whose superclass link is `NSObject`. -/
def class_Holder : metadata :=
  mk { addr := 0xD800, kind := 0x100005000,
       cls := { data := 1, flags := 0, descriptor := some descriptor_Holder } }
    (some class_NSObject) no_elements none

/-- A runtime whose Objective-C side reports one instance variable, at offset
8, for every class. -/
def runtime_objc : Runtime where
  swift_getTypeByMangledNameInContext := runtime.swift_getTypeByMangledNameInContext
  class_copyIvarList := fun _ => some [1]
  ivar_getOffset := fun _ => 8

/-- The descriptor of a class that declares one field and has no reflection
field metadata. -/
def descriptor_no_reflection : context_descriptor :=
  { flags := context_descriptor.kind_class,
    cls := { name := some "Stripped", fields := none, num_fields := 1,
             _field_offset_vector_offset := 10 } }

/-- The metadata of that class: native, with native refcounting. -/
def class_no_reflection : metadata :=
  mk { addr := 0xE000, kind := kind_class,
       cls := { data := 1, flags := uses_swift_refcounting,
                descriptor := some descriptor_no_reflection },
       word_at := fun w => if w = 10 then 16 else 0 }
    none no_elements none

/-- The descriptor of a class that declares one field and whose reflection
metadata holds zero records. -/
def descriptor_zero_records : context_descriptor :=
  { flags := context_descriptor.kind_class,
    cls := { name := some "Mismatch",
             fields := some { num_fields := 0, records := records_xy },
             num_fields := 1, _field_offset_vector_offset := 10 } }

/-- The metadata of that class: native, with native refcounting. -/
def class_zero_records : metadata :=
  mk { addr := 0xE800, kind := kind_class,
       cls := { data := 1, flags := uses_swift_refcounting,
                descriptor := some descriptor_zero_records },
       word_at := fun w => if w = 10 then 16 else 0 }
    none no_elements none

/-- The descriptor of a class with a resilient superclass whose immediate
members start 16 bytes before the address point, the field-offset vector
declared 3 words into the immediate members. -/
def descriptor_resilient_negative : context_descriptor :=
  { flags := context_descriptor.kind_class
      ||| (class_type_descriptor.has_resilient_superclass_flag <<< 16),
    cls := { name := some "Resilient", resilient_super_immediate_members_offset := -16,
             num_fields := 1, _field_offset_vector_offset := 3 } }

/-- The descriptor of an enum with one payload case and one empty case between
two payload records: `a(Int)`, `none`, `b(String)`. -/
def records_a_none_b : Nat → field_record := fun i =>
  if i = 0 then { mangled_type_name := some name_Si, field_name := some "a" }
  else if i = 1 then { field_name := some "none" }
  else if i = 2 then { mangled_type_name := some name_SS, field_name := some "b" }
  else {}

/-- The descriptor of `enum Choice { a(Int); none; b(String) }`. -/
def descriptor_Choice : context_descriptor :=
  { flags := context_descriptor.kind_enum,
    nominal := { name := some "Choice",
                 reflection_metadata := some { num_fields := 3, records := records_a_none_b },
                 union_word0 := 2, union_word1 := 1 } }

/-- The metadata of `Choice`. -/
def enum_Choice : metadata :=
  mk { addr := 0xF000, kind := kind_enum, nominal := { descriptor := some descriptor_Choice } }
    none no_elements none

/-- A visitor that accepts every call and keeps no state. -/
def accepting_visitor : metadata_visitor Unit where
  unknown_result := fun _ => false
  visit_element := fun _ _ _ s => (true, s)
  visit_field := fun _ _ _ s => (true, s)
  visit_case := fun _ _ _ s => (true, s)
  visit_class := fun _ s => (true, s)
  visit_existential := fun _ s => (true, s)
  visit_function := fun _ s => (true, s)
  visit_native_object := fun _ s => (true, s)

end sample


/-! ## Observing the capture-box walk -/

/-- The offset at which the capture-box walk starts: the declared
first-capture offset, or two pointer widths when that offset is zero. -/
def first_capture_offset (this : metadata) : Nat :=
  if this.header.heap_local.offset_to_first_capture = 0 then 2 * sizeof_uintptr_t
  else this.header.heap_local.offset_to_first_capture

/-- The visits of `count` binding slots from `start` on: the `b`-th slot as an
unowned-unsafe reference of the placeholder type at `start + b * pointer
width`. -/
def binding_events (pointer_type : metadata) (start count : Nat) : List visit_event :=
  (List.range count).map
    (fun b =>
      visit_event.element pointer_type metadata.ref_kind.unowned_unsafe
        (start + b * sizeof_uintptr_t))

/-- The visits of a list of captures, given by resolved type and ownership
kind, from the running offset `offset` on: each capture at the running offset
rounded up to its type's alignment, the running offset then advancing by the
type's size. -/
def capture_events : List (metadata × metadata.ref_kind) → Nat → List visit_event
  | [], _ => []
  | (type, ref) :: rest, offset =>
    visit_event.element type ref (align_up offset type.alignment_mask)
      :: capture_events rest (to_size_t (align_up offset type.alignment_mask + type.size))

namespace sample

open metadata

/-- The metadata of `Builtin.RawPointer`: size 8, alignment mask 7. -/
def type_RawPointer : metadata :=
  mk { addr := 0x1800, kind := kind_opaque,
       value_witness := { size := 8, stride := 8, flags := 7 } }
    none no_elements none

/-- The metadata of `Swift.Bool`: size 1, alignment mask 0. -/
def type_Bool : metadata :=
  mk { addr := 0x2800, kind := kind_struct, value_witness := { size := 1, stride := 1, flags := 0 } }
    none no_elements none

/-- The encoded name `Sb` (`Swift.Bool`). -/
def name_Sb : encoded_name := ⟨[0x53, 0x62, 0x00], by decide⟩

/-- A runtime whose resolver knows `Bp`, `Sb`, `Si` and `SS`. -/
def runtime_locals : Runtime where
  swift_getTypeByMangledNameInContext := fun name _ _ _ =>
    if name.bytes = name_Bp.bytes then some type_RawPointer
    else if name.bytes = name_Sb.bytes then some type_Bool
    else if name.bytes = name_Si.bytes then some type_Int
    else if name.bytes = name_SS.bytes then some type_String
    else none
  class_copyIvarList := fun _ => none
  ivar_getOffset := fun _ => 0

/-- The capture descriptor of a closure with one generic binding that captures
a `Bool` and an `Int`. -/
def captures_Bool_Int : capture_descriptor :=
  { num_capture_types := 2, num_metadata_sources := 0, num_bindings := 1,
    capture_type := fun i => if i = 0 then some name_Sb else if i = 1 then some name_Si
                             else none }

/-- The metadata of that closure's box; the first-capture offset is left zero. -/
def box_Bool_Int : metadata :=
  mk { addr := 0x9800, kind := kind_heap_local_variable,
       heap_local := { offset_to_first_capture := 0, descriptor := some captures_Bool_Int } }
    none no_elements none

/-- The capture descriptor of a closure that captures a `Bool` and a value of
an unknown type. -/
def captures_Bool_unknown : capture_descriptor :=
  { num_capture_types := 2, num_metadata_sources := 0, num_bindings := 1,
    capture_type := fun i => if i = 0 then some name_Sb else if i = 1 then some name_unknown
                             else none }

/-- The metadata of that closure's box. -/
def box_Bool_unknown : metadata :=
  mk { addr := 0x9C00, kind := kind_heap_local_variable,
       heap_local := { offset_to_first_capture := 0, descriptor := some captures_Bool_unknown } }
    none no_elements none

end sample


/-! ## The case-count equation of enums -/

/-- The equation `payload_cases + empty_cases == total_case_count` for an enum
descriptor and its reflection metadata: `payload_cases` is the low 24 bits of
the packed payload word, `total_case_count` the number of case records. -/
def case_count_equation (d : nominal_type_descriptor) (fd : field_descriptor) : Prop :=
  (d.enum_type_payload_cases &&& 0x00ffffff) + d.enum_type_empty_cases = fd.num_fields

instance case_count_equation.decidable (d : nominal_type_descriptor) (fd : field_descriptor) :
    Decidable (case_count_equation d fd) := by
  unfold case_count_equation
  infer_instance

/-- The handle `this` with the empty-case count of its nominal descriptor
replaced by `empty_cases`; everything else is kept. -/
def metadata.with_empty_cases (this : metadata) (empty_cases : Nat) : metadata :=
  match this with
  | metadata.mk header superclass elements boxed_type =>
    metadata.mk
      { header with
        nominal :=
          { descriptor := header.nominal.descriptor.map
              (fun desc => { desc with nominal := { desc.nominal with
                                                    union_word1 := empty_cases } }) } }
      superclass elements boxed_type

namespace sample

open metadata

/-- The descriptor of an enum that declares one payload case and no empty case,
with two case records `a(Int)`, `b(String)` in its reflection metadata. -/
def descriptor_miscounted : context_descriptor :=
  { flags := context_descriptor.kind_enum,
    nominal := { name := some "Miscounted",
                 reflection_metadata := some { num_fields := 2, records := records_ab },
                 union_word0 := 1, union_word1 := 0 } }

/-- The metadata of that enum. -/
def enum_miscounted : metadata :=
  mk { addr := 0xF800, kind := kind_enum,
       nominal := { descriptor := some descriptor_miscounted } }
    none no_elements none

/-- A visitor that accepts every call and collects the tags of the cases it is
shown. -/
def tag_collector : metadata_visitor (List Nat) where
  unknown_result := fun _ => false
  visit_element := fun _ _ _ s => (true, s)
  visit_field := fun _ _ _ s => (true, s)
  visit_case := fun _ _ tag s => (true, s ++ [tag])
  visit_class := fun _ s => (true, s)
  visit_existential := fun _ s => (true, s)
  visit_function := fun _ s => (true, s)
  visit_native_object := fun _ s => (true, s)

end sample


/-! ## Observing the tuple walk -/

/-- The elements of a tuple handle whose type handle is present, in element
order, each with its stored type handle and its stored offset. -/
def present_elements (this : metadata) : List (metadata × Nat) :=
  (List.range this.header.tuple_num_elements).filterMap
    (fun i =>
      match (this.elements i).1 with
      | some type => some (type, (this.elements i).2)
      | none => none)

/-- The calls `visit_element(type, strong, offset)` for a list of elements, in
order, up to and including the first one the visitor rejects. -/
def visit_elements_in_order {σ : Type} (visitor : metadata_visitor σ) :
    List (metadata × Nat) → σ → Bool × σ
  | [], s => (true, s)
  | (type, offset) :: rest, s =>
    match visitor.visit_element type metadata.ref_kind.strong offset s with
    | (true, s1) => visit_elements_in_order visitor rest s1
    | (false, s1) => (false, s1)

/-- The elements a walk reports under an acceptance test `accept`: the accepted
elements up to the first rejected one, and that one. -/
def elements_up_to_rejection (accept : metadata × Nat → Bool)
    (elements : List (metadata × Nat)) : List (metadata × Nat) :=
  elements.takeWhile accept ++ (elements.dropWhile accept).take 1

namespace sample

open metadata

/-- The metadata of a three-element tuple whose middle element has no type
handle: `Int` at offset 0, an absent element, `String` at offset 16. -/
def tuple_Int_gap_String : metadata :=
  mk { addr := 0x4800, kind := kind_tuple, tuple_num_elements := 3 }
    none (fun i => if i = 0 then (some type_Int, 0) else if i = 1 then (none, 8)
                   else if i = 2 then (some type_String, 16) else (none, 0))
    none

/-- A visitor that accepts elements of size 16 only and keeps no state. -/
def size_16_visitor : metadata_visitor Unit where
  unknown_result := fun _ => false
  visit_element := fun type _ _ s => (type.size == 16, s)
  visit_field := fun _ _ _ s => (true, s)
  visit_case := fun _ _ _ s => (true, s)
  visit_class := fun _ s => (true, s)
  visit_existential := fun _ s => (true, s)
  visit_function := fun _ s => (true, s)
  visit_native_object := fun _ s => (true, s)

end sample


/-! ## Concrete handles for generic classes -/

namespace sample

open metadata

/-- The descriptor of the generic class `Box<T>`: is-generic flag set, no
resilient superclass, metadata of 12 words after the address point, the last
2 of them the class's immediate members. -/
def descriptor_Box : context_descriptor :=
  { flags := context_descriptor.kind_class ||| context_descriptor.is_generic,
    cls := { name := some "Box", metadata_negative_size_in_words := 2,
             metadata_positive_size_in_words := 12, num_immediate_members := 2 } }

/-- The metadata of `Box<Int>`, a native class at address 0x6000. -/
def class_Box : metadata :=
  mk { addr := 0x6000, kind := kind_class,
       cls := { data := 1, flags := uses_swift_refcounting, descriptor := some descriptor_Box } }
    none no_elements none

/-- A runtime whose resolver resolves a name to `Swift.Int` exactly when it is
given a context and the generic-argument vector at address 0x6050. -/
def runtime_generic : Runtime where
  swift_getTypeByMangledNameInContext := fun _ _ context generic_args =>
    if context.isSome ∧ generic_args = some 0x6050 then some type_Int else none
  class_copyIvarList := fun _ => none
  ivar_getOffset := fun _ => 0

end sample


/-! ## Concrete handles for boxed existential values -/

namespace sample

open metadata

/-- The metadata of a 40-byte struct with alignment mask 31 whose values do not
fit an existential's inline buffer: the non-inline bit is set. -/
def type_Wide : metadata :=
  mk { addr := 0x3000, kind := kind_struct,
       value_witness := { size := 40, stride := 64,
                          flags := value_witness_table.is_non_inline ||| 31 } }
    none no_elements none

/-- A container at address 0xB800 that holds a `Wide` out of line: its first
buffer word is the pointer 0xC000 to the side allocation. -/
def container_boxed : existential_container :=
  { addr := 0xB800, value := 0xC000, buffer := fun i => if i = 0 then 0xC000 else 0,
    type := type_Wide }

end sample


/-! ## Relative references at the level of addresses -/

/-- The method `relative_ptr<T>::get()` on addresses: `alignof_T` is
`alignof(T)`, `this` the address of the reference itself, `_offset` the stored
`int32_t`, and `load` reads the pointer-sized slot at an address.  The result
is the target address, 0 for `nullptr`.  The `int32_t` is converted to the
unsigned word type for `&` and for the sum with `(uintptr_t)this`. -/
def relative_ptr.get (alignof_T : Nat) (load : Nat → Nat) (this : Nat) (_offset : Int) : Nat :=
  if _offset = 0 then 0
  else if intptr_to_uintptr _offset &&& to_size_t (alignof_T - 1) = 1 then
    load (to_size_t (this + intptr_to_uintptr _offset) &&& bitwise_not_size_t (alignof_T - 1))
  else to_size_t (this + intptr_to_uintptr _offset)

/-- The conversion `relative_ptr<T>::operator bool()`. -/
def relative_ptr.to_bool (_offset : Int) : Bool := _offset != 0

namespace sample

/-- A memory in which the pointer-sized slot at address 0x1004 holds 0x7000 and
every other slot holds 0. -/
def slots : Nat → Nat := fun address => if address = 0x1004 then 0x7000 else 0

end sample


/-! ## A visitor that ignores unknown layouts -/

namespace sample

/-- A visitor that accepts every call, keeps no state, and whose
`unknown_result()` is true. -/
def lenient_visitor : metadata_visitor Unit where
  unknown_result := fun _ => true
  visit_element := fun _ _ _ s => (true, s)
  visit_field := fun _ _ _ s => (true, s)
  visit_case := fun _ _ _ s => (true, s)
  visit_class := fun _ s => (true, s)
  visit_existential := fun _ s => (true, s)
  visit_function := fun _ s => (true, s)
  visit_native_object := fun _ s => (true, s)

end sample

end swift

/-! ## Theorems -/

namespace swift

open metadata

section helpers

variable {σ : Type}

theorem descriptor_eq_none_of_kind (this : metadata)
    (h1 : this.canonical_kind ≠ kind_struct) (h2 : this.canonical_kind ≠ kind_enum)
    (h3 : this.canonical_kind ≠ kind_optional) (h4 : this.canonical_kind ≠ kind_class) :
    this.descriptor = none := by
  simp [metadata.descriptor, h1, h2, h3, h4]

theorem mangled_type_name_ref_of_no_descriptor (rt : Runtime) (this : metadata)
    (name : encoded_name) (h : this.descriptor = none) :
    (this.mangled_type_name_ref rt (some name)).map Prod.fst
      = rt.swift_getTypeByMangledNameInContext name name.size none none := by
  simp only [metadata.mangled_type_name_ref, h]
  cases rt.swift_getTypeByMangledNameInContext name name.size none none <;> rfl

end helpers

/-- C3: `SPMETypeApplyFields` returns false and never invokes the callback when
the top-level kind does not match the options: canonical kind class with the
class-type option unset, canonical kind struct or tuple with the class-type
option set, or any other canonical kind, whatever the other option bits are. -/
theorem SPMETypeApplyFields_kind_mismatch {σ : Type} (rt : Runtime) (type : metadata)
    (flags : Nat) (callback : Callback σ) (s : σ)
    (h : (type.canonical_kind = kind_class ∧ flags &&& SPMETypeApplyClassType = 0)
      ∨ ((type.canonical_kind = kind_struct ∨ type.canonical_kind = kind_tuple)
          ∧ flags &&& SPMETypeApplyClassType ≠ 0)
      ∨ (type.canonical_kind ≠ kind_class ∧ type.canonical_kind ≠ kind_struct
          ∧ type.canonical_kind ≠ kind_tuple)) :
    SPMETypeApplyFields rt type flags callback.recording (s, []) = (false, (s, [])) := by
  unfold SPMETypeApplyFields
  rcases h with ⟨hk, hf⟩ | ⟨hk, hf⟩ | ⟨h1, h2, h3⟩
  · simp +decide [hk, hf]
  · rcases hk with hk | hk <;> simp +decide [hk, hf]
  · simp [h1, h2, h3]

theorem SPMETypeApplyFields_kind_mismatch_witness :
    (sample.class_Derived.canonical_kind = kind_class
        ∧ 2 &&& SPMETypeApplyClassType = 0)
      ∧ SPMETypeApplyFields sample.runtime sample.class_Derived 2
          sample.accept_all.recording ((), []) = (false, ((), [])) :=
  ⟨⟨by decide, by decide⟩,
    SPMETypeApplyFields_kind_mismatch sample.runtime sample.class_Derived 2 sample.accept_all ()
      (Or.inl ⟨by decide, by decide⟩)⟩

/-- C7: for a handle whose canonical kind is class, `metadata::visit` makes
exactly one call on the visitor, `visit_class` with that handle, and returns
what that call returns; no `visit_field`, `visit_element` or `visit_case` call
is made, whatever the handle's descriptor and reflection metadata hold. -/
theorem visit_class_kind {σ : Type} (rt : Runtime) (this : metadata)
    (visitor : metadata_visitor σ) (s : σ) (h : this.canonical_kind = kind_class) :
    this.visit rt visitor.recording (s, [])
      = ((visitor.visit_class this s).1,
          ((visitor.visit_class this s).2, [visit_event.class_ this])) := by
  simp [metadata.visit, h, metadata_visitor.recording]

theorem visit_class_kind_witness :
    sample.class_Derived.canonical_kind = kind_class
      ∧ sample.class_Derived.visit sample.runtime
          (metadata_visitor.base sample.runtime : metadata_visitor Unit).recording ((), [])
        = (((metadata_visitor.base sample.runtime : metadata_visitor Unit).visit_class
              sample.class_Derived ()).1,
            (((metadata_visitor.base sample.runtime : metadata_visitor Unit).visit_class
              sample.class_Derived ()).2, [visit_event.class_ sample.class_Derived])) :=
  ⟨by decide, visit_class_kind sample.runtime sample.class_Derived _ () (by decide)⟩

/-- C8: `metadata::visit_heap` runs the class, local-capture-box or generic-box
enumeration when the canonical kind is class, heap-local-variable or
heap-generic-local-variable and bit 0, bit 1 or bit 2 of the mask is set; for
the error-object kind under every mask, and in every case that is none of the
three above, it returns `unknown_result()` and makes no call on the visitor. -/
theorem visit_heap_dispatch {σ : Type} (rt : Runtime) (this : metadata)
    (visitor : metadata_visitor σ) (mask : Nat) (s : σ) :
    (this.canonical_kind = kind_class → mask &&& heap_kind_mask_class ≠ 0 →
      this.visit_heap rt visitor mask s = visit_heap_class rt visitor this s)
    ∧ (this.canonical_kind = kind_heap_local_variable → mask &&& heap_kind_mask_local ≠ 0 →
      this.visit_heap rt visitor mask s = this.visit_heap_locals rt visitor s)
    ∧ (this.canonical_kind = kind_heap_generic_local_variable →
      mask &&& heap_kind_mask_generic ≠ 0 →
      this.visit_heap rt visitor mask s = this.visit_heap_box visitor s)
    ∧ (this.canonical_kind = kind_error_object →
      this.visit_heap rt visitor.recording mask (s, []) = (visitor.unknown_result s, (s, [])))
    ∧ (¬ (this.canonical_kind = kind_class ∧ mask &&& heap_kind_mask_class ≠ 0) →
      ¬ (this.canonical_kind = kind_heap_local_variable ∧ mask &&& heap_kind_mask_local ≠ 0) →
      ¬ (this.canonical_kind = kind_heap_generic_local_variable
          ∧ mask &&& heap_kind_mask_generic ≠ 0) →
      this.visit_heap rt visitor.recording mask (s, []) = (visitor.unknown_result s, (s, []))) := by
  refine ⟨?_, ?_, ?_, ?_, ?_⟩
  · intro hk hm
    simp [metadata.visit_heap, hk, hm]
  · intro hk hm
    simp +decide [metadata.visit_heap, hk, hm]
  · intro hk hm
    simp +decide [metadata.visit_heap, hk, hm]
  · intro hk
    simp +decide [metadata.visit_heap, hk, metadata_visitor.recording]
  · intro h1 h2 h3
    unfold metadata.visit_heap
    by_cases hc : this.canonical_kind = kind_class
    · have hm : mask &&& heap_kind_mask_class = 0 := by
        by_contra hne
        exact h1 ⟨hc, hne⟩
      simp [hc, hm, metadata_visitor.recording]
    · by_cases hl : this.canonical_kind = kind_heap_local_variable
      · have hm : mask &&& heap_kind_mask_local = 0 := by
          by_contra hne
          exact h2 ⟨hl, hne⟩
        simp +decide [hl, hm, metadata_visitor.recording]
      · by_cases hg : this.canonical_kind = kind_heap_generic_local_variable
        · have hm : mask &&& heap_kind_mask_generic = 0 := by
            by_contra hne
            exact h3 ⟨hg, hne⟩
          simp +decide [hg, hm, metadata_visitor.recording]
        · simp [hc, hl, hg, metadata_visitor.recording]

theorem visit_heap_dispatch_witness :
    sample.struct_Pair.visit_heap sample.runtime
        (metadata_visitor.base sample.runtime : metadata_visitor Unit).recording heap_kind_all
        ((), [])
      = (false, ((), [])) :=
  (visit_heap_dispatch sample.runtime sample.struct_Pair
      (metadata_visitor.base sample.runtime : metadata_visitor Unit) heap_kind_all ()).2.2.2.2
    (by decide) (by decide) (by decide)

/-- C9: `metadata::visit` returns `unknown_result()` and makes no call on the
visitor for every handle whose canonical kind is none of class, struct, enum,
optional, tuple, function, existential and opaque, and for every opaque-kind
handle that is not the handle the resolver returns for the name `Bo` (the
resolver returns null or a handle at another address); an opaque handle equal
to that one is passed to `visit_native_object`, a function-kind handle to
`visit_function` and an existential-kind handle to `visit_existential`, each as
the only call on the visitor. -/
theorem visit_fallback {σ : Type} (rt : Runtime) (this : metadata)
    (visitor : metadata_visitor σ) (s : σ) :
    (this.canonical_kind ≠ kind_class → this.canonical_kind ≠ kind_struct →
      this.canonical_kind ≠ kind_enum → this.canonical_kind ≠ kind_optional →
      this.canonical_kind ≠ kind_tuple → this.canonical_kind ≠ kind_function →
      this.canonical_kind ≠ kind_existential → this.canonical_kind ≠ kind_opaque →
      this.visit rt visitor.recording (s, []) = (visitor.unknown_result s, (s, [])))
    ∧ (this.canonical_kind = kind_opaque →
      (∀ native_object, rt.swift_getTypeByMangledNameInContext name_Bo 2 none none
          = some native_object → this.addr ≠ native_object.addr) →
      this.visit rt visitor.recording (s, []) = (visitor.unknown_result s, (s, [])))
    ∧ (this.canonical_kind = kind_opaque →
      ∀ native_object, rt.swift_getTypeByMangledNameInContext name_Bo 2 none none
          = some native_object → this.addr = native_object.addr →
      this.visit rt visitor.recording (s, [])
        = ((visitor.visit_native_object this s).1,
            ((visitor.visit_native_object this s).2, [visit_event.native_object this])))
    ∧ (this.canonical_kind = kind_function →
      this.visit rt visitor.recording (s, [])
        = ((visitor.visit_function this s).1,
            ((visitor.visit_function this s).2, [visit_event.function this])))
    ∧ (this.canonical_kind = kind_existential →
      this.visit rt visitor.recording (s, [])
        = ((visitor.visit_existential this s).1,
            ((visitor.visit_existential this s).2, [visit_event.existential this]))) := by
  have hBo : ∀ (_ : this.canonical_kind = kind_opaque),
      (this.mangled_type_name_ref rt (some name_Bo)).map Prod.fst
        = rt.swift_getTypeByMangledNameInContext name_Bo 2 none none := by
    intro hk
    have hd : this.descriptor = none :=
      descriptor_eq_none_of_kind this (by rw [hk]; decide) (by rw [hk]; decide)
        (by rw [hk]; decide) (by rw [hk]; decide)
    exact mangled_type_name_ref_of_no_descriptor rt this name_Bo hd
  refine ⟨?_, ?_, ?_, ?_, ?_⟩
  · intro h1 h2 h3 h4 h5 h6 h7 h8
    simp [metadata.visit, h1, h2, h3, h4, h5, h6, h7, h8, metadata_visitor.recording]
  · intro hk hne
    have h := hBo hk
    unfold metadata.visit
    simp +decide only [hk, if_false, if_true, or_self]
    cases hr : this.mangled_type_name_ref rt (some name_Bo) with
    | none => simp [metadata_visitor.recording]
    | some p =>
      obtain ⟨native_object, r⟩ := p
      rw [hr] at h
      have hne2 := hne native_object h.symm
      simp [hne2, metadata_visitor.recording]
  · intro hk native_object hres haddr
    have h := hBo hk
    unfold metadata.visit
    simp +decide only [hk, if_false, if_true, or_self]
    cases hr : this.mangled_type_name_ref rt (some name_Bo) with
    | none =>
      rw [hr] at h
      rw [hres] at h
      simp at h
    | some p =>
      obtain ⟨n, r⟩ := p
      rw [hr, hres] at h
      have hn : n = native_object := by simpa using h
      subst hn
      simp [haddr, metadata_visitor.recording]
  · intro hk
    simp +decide [metadata.visit, hk, metadata_visitor.recording]
  · intro hk
    simp +decide [metadata.visit, hk, metadata_visitor.recording]

theorem visit_fallback_witness :
    sample.type_Metatype.visit sample.runtime
        (metadata_visitor.base sample.runtime : metadata_visitor Unit).recording ((), [])
      = (false, ((), [])) :=
  (visit_fallback sample.runtime sample.type_Metatype
      (metadata_visitor.base sample.runtime : metadata_visitor Unit) ()).1
    (by decide) (by decide) (by decide) (by decide) (by decide) (by decide) (by decide)
    (by decide)

/-- C10, as stated, fails: the resolver resolves the two-byte name `Xo`, the
name ends in `Xo`, and the reported ownership is strong, not unowned. -/
theorem mangled_type_name_ref_suffix_needs_prefix :
    ¬ (∀ (rt : Runtime) (this : metadata) (name : encoded_name) (type : metadata)
        (ref : ref_kind),
        this.mangled_type_name_ref rt (some name) = some (type, ref) →
          (name.ends_in 'X' 'o' → ref = ref_kind.unowned)
          ∧ (name.ends_in 'X' 'u' → ref = ref_kind.unowned_unsafe)
          ∧ (name.ends_in 'X' 'w' → ref = ref_kind.weak)) := by
  intro h
  have h1 := (h sample.runtime sample.type_Int sample.name_Xo sample.type_Int ref_kind.strong
    rfl).1 ⟨by decide, by decide, by decide⟩
  exact absurd h1 (by decide)

/-- C10 (amended): when the resolver resolves an encoded name whose scanned
length is greater than two, `mangled_type_name_ref` stores ownership unowned,
unowned_unsafe or weak through `ret_ref_kind` when the name ends in `Xo`, `Xu`
or `Xw` respectively. -/
theorem mangled_type_name_ref_ownership_suffix (rt : Runtime) (this : metadata)
    (name : encoded_name) (type : metadata) (ref : ref_kind)
    (h : this.mangled_type_name_ref rt (some name) = some (type, ref))
    (hlen : 2 < name.size) :
    (name.ends_in 'X' 'o' → ref = ref_kind.unowned)
    ∧ (name.ends_in 'X' 'u' → ref = ref_kind.unowned_unsafe)
    ∧ (name.ends_in 'X' 'w' → ref = ref_kind.weak) := by
  simp only [metadata.mangled_type_name_ref] at h
  split at h
  · exact absurd h (by simp)
  · rename_i ret hret
    simp only [Option.some.injEq, Prod.mk.injEq] at h
    obtain ⟨-, href⟩ := h
    refine ⟨?_, ?_, ?_⟩
    · rintro ⟨-, hX, ho⟩
      rw [← href]
      simp [hlen, hX, ho]
    · rintro ⟨-, hX, hu⟩
      rw [← href]
      simp +decide [hlen, hX, hu]
    · rintro ⟨-, hX, hw⟩
      rw [← href]
      simp +decide [hlen, hX, hw]

theorem mangled_type_name_ref_ownership_suffix_witness :
    (sample.type_Int.mangled_type_name_ref sample.runtime (some sample.name_SiXo)
        = some (sample.type_Int, ref_kind.unowned)
      ∧ 2 < sample.name_SiXo.size)
    ∧ ((sample.name_SiXo.ends_in 'X' 'o' → ref_kind.unowned = ref_kind.unowned)
      ∧ (sample.name_SiXo.ends_in 'X' 'u' → ref_kind.unowned = ref_kind.unowned_unsafe)
      ∧ (sample.name_SiXo.ends_in 'X' 'w' → ref_kind.unowned = ref_kind.weak)) :=
  ⟨⟨rfl, by decide⟩,
    mangled_type_name_ref_ownership_suffix sample.runtime sample.type_Int sample.name_SiXo
      sample.type_Int ref_kind.unowned rfl (by decide)⟩

section field_walks
variable {σ : Type}

theorem for_each_index_visit_field (visitor : metadata_visitor σ) (this : metadata)
    (records : Nat → field_record) (offsets : Nat → Nat) (n i0 : Nat) (s : σ) :
    for_each_index (fun i => visitor.visit_field this (records i) (offsets i)) n i0 s
      = visit_fields_in_order visitor
          ((List.range' i0 n).map
            (fun i => { type := this, field := records i, offset := offsets i })) s := by
  induction n generalizing i0 s with
  | zero => rfl
  | succ n ih =>
    simp only [for_each_index, List.range'_succ, List.map_cons, visit_fields_in_order]
    cases h : visitor.visit_field this (records i0) (offsets i0) s with
    | mk r s1 =>
      cases r with
      | true => simpa using ih (i0 + 1) s1
      | false => rfl

theorem visit_fields_in_order_append (visitor : metadata_visitor σ) (l1 l2 : List field_visit)
    (s s1 : σ) (h : visit_fields_in_order visitor l1 s = (true, s1)) :
    visit_fields_in_order visitor (l1 ++ l2) s = visit_fields_in_order visitor l2 s1 := by
  induction l1 generalizing s with
  | nil =>
    simp only [visit_fields_in_order, Prod.mk.injEq, true_and] at h
    simp [h]
  | cons v rest ih =>
    simp only [List.cons_append, visit_fields_in_order] at h ⊢
    cases hv : visitor.visit_field v.type v.field v.offset s with
    | mk r s2 =>
      rw [hv] at h
      cases r with
      | true => exact ih s2 h
      | false => simp at h

theorem visit_fields_in_order_append_false (visitor : metadata_visitor σ)
    (l1 l2 : List field_visit) (s s1 : σ)
    (h : visit_fields_in_order visitor l1 s = (false, s1)) :
    visit_fields_in_order visitor (l1 ++ l2) s = (false, s1) := by
  induction l1 generalizing s with
  | nil => simp [visit_fields_in_order] at h
  | cons v rest ih =>
    simp only [List.cons_append, visit_fields_in_order] at h ⊢
    cases hv : visitor.visit_field v.type v.field v.offset s with
    | mk r s2 =>
      rw [hv] at h
      cases r with
      | true => exact ih s2 h
      | false => simpa using h

theorem visit_struct_eq_visit_fields (this : metadata) (visitor : metadata_visitor σ) (s : σ)
    (d : nominal_type_descriptor) (fd : field_descriptor)
    (hd : this.nominal_descriptor = some d) (hr : d.reflection_metadata = some fd)
    (hf : d.struct_type_field_offset_vector_offset ≠ 0) :
    this.visit_struct visitor s
      = visit_fields_in_order visitor (struct_field_visits this d fd) s := by
  simp only [metadata.visit_struct, hd, hr, hf, if_false, struct_field_visits, List.range_eq_range']
  exact for_each_index_visit_field visitor this fd.records _ _ 0 s

theorem visit_fields_in_order_accepting (rt : Runtime) (callback : Callback σ) (flags : Nat)
    (h_cb : ∀ name offset type s, (callback name offset type s).1 = true)
    (l : List field_visit)
    (h : ∀ v ∈ l, (v.resolved rt).isSome = true ∨ flags &&& SPMETypeApplyIgnoreUnknown ≠ 0)
    (s : σ) (log : List callback_call) :
    ∃ s1, visit_fields_in_order (SPMETypeApplyFields.Visitor rt callback.recording flags) l
        (s, log)
      = (true, (s1, log ++ l.filterMap (fun v => v.call rt true))) := by
  induction l generalizing s log with
  | nil => exact ⟨s, by simp [visit_fields_in_order]⟩
  | cons v rest ih =>
    have hrest : ∀ w ∈ rest, (w.resolved rt).isSome = true
        ∨ flags &&& SPMETypeApplyIgnoreUnknown ≠ 0 :=
      fun w hw => h w (List.mem_cons_of_mem _ hw)
    have hv := h v (List.mem_cons_self _ _)
    simp only [visit_fields_in_order, SPMETypeApplyFields.Visitor,
      SPMETypeApplyFields.Visitor_visit_field]
    cases hres : v.type.mangled_type_name_ref rt v.field.mangled_type_name with
    | none =>
      have hign : flags &&& SPMETypeApplyIgnoreUnknown ≠ 0 := by
        rcases hv with hv | hv
        · simp [field_visit.resolved, hres] at hv
        · exact hv
      obtain ⟨s1, hs1⟩ := ih hrest s log
      refine ⟨s1, ?_⟩
      simp only [SPMETypeApplyFields.Visitor_unknown_result, hign, ne_eq, not_false_eq_true,
        decide_True]
      simp only [SPMETypeApplyFields.Visitor, SPMETypeApplyFields.Visitor_visit_field] at hs1
      rw [hs1]
      simp [field_visit.call, field_visit.resolved, hres]
    | some p =>
      obtain ⟨ft, r⟩ := p
      obtain ⟨s1, hs1⟩ := ih hrest (callback v.field.field_name (to_uint32 v.offset) ft s).2
        (log ++ [{ name := v.field.field_name, offset := to_uint32 v.offset, type := ft,
                   result := true }])
      refine ⟨s1, ?_⟩
      simp only [Callback.recording, h_cb]
      simp only [SPMETypeApplyFields.Visitor, SPMETypeApplyFields.Visitor_visit_field] at hs1
      rw [hs1]
      simp [field_visit.call, field_visit.resolved, hres]

end field_walks

section struct_walk

variable {σ : Type}

theorem filterMap_eq_map_of_forall {α β : Type} (f : α → Option β) (g : α → β) (l : List α)
    (h : ∀ a ∈ l, f a = some (g a)) : l.filterMap f = l.map g := by
  induction l with
  | nil => rfl
  | cons a rest ih =>
    have ha := h a (List.mem_cons_self _ _)
    have hrest : ∀ b ∈ rest, f b = some (g b) := fun b hb => h b (List.mem_cons_of_mem _ hb)
    simp [List.filterMap_cons, ha, ih hrest]

theorem to_uint32_load_u32 (this : metadata) (b : Nat) :
    to_uint32 (this.load_u32 b) = this.load_u32 b := by
  simp [metadata.load_u32, to_uint32]

theorem SPMETypeApplyFields_struct_eq (rt : Runtime) (this : metadata) (flags : Nat)
    (callback : Callback σ) (s : σ) (d : nominal_type_descriptor) (fd : field_descriptor)
    (h_kind : this.canonical_kind = kind_struct)
    (h_desc : this.nominal_descriptor = some d) (h_refl : d.reflection_metadata = some fd)
    (h_fov : d.struct_type_field_offset_vector_offset ≠ 0)
    (h_flags : flags &&& SPMETypeApplyClassType = 0) :
    SPMETypeApplyFields rt this flags callback s
      = visit_fields_in_order (SPMETypeApplyFields.Visitor rt callback flags)
          (struct_field_visits this d fd) s := by
  have hv : this.visit rt (SPMETypeApplyFields.Visitor rt callback flags) s
      = this.visit_struct (SPMETypeApplyFields.Visitor rt callback flags) s := by
    simp +decide [metadata.visit, h_kind]
  simp only [SPMETypeApplyFields, h_kind, true_or, if_true, h_flags, ne_eq, not_true_eq_false,
    if_false, hv]
  exact visit_struct_eq_visit_fields this _ s d fd h_desc h_refl h_fov

end struct_walk

/-- C1: for a struct handle with a context descriptor, reflection metadata, a
nonzero field-offset-vector position and `N` declared fields whose encoded type
names all resolve, `SPMETypeApplyFields` without the class-type option and with
a callback that always returns true invokes the callback exactly `N` times, the
`i`-th call with the `i`-th record's name, the `i`-th entry of the field-offset
vector and the `i`-th resolved handle, and returns true. -/
theorem SPMETypeApplyFields_struct {σ : Type} (rt : Runtime) (this : metadata) (flags : Nat)
    (callback : Callback σ) (s : σ) (d : nominal_type_descriptor) (fd : field_descriptor)
    (types : Nat → metadata)
    (h_kind : this.canonical_kind = kind_struct)
    (h_desc : this.nominal_descriptor = some d) (h_refl : d.reflection_metadata = some fd)
    (h_fov : d.struct_type_field_offset_vector_offset ≠ 0)
    (h_res : ∀ i, i < d.struct_type_field_count →
      (this.mangled_type_name_ref rt (fd.records i).mangled_type_name).map Prod.fst
        = some (types i))
    (h_flags : flags &&& SPMETypeApplyClassType = 0)
    (h_cb : ∀ name offset type s, (callback name offset type s).1 = true) :
    ∃ s1, SPMETypeApplyFields rt this flags callback.recording (s, [])
      = (true, (s1, (List.range d.struct_type_field_count).map
          (fun i =>
            { name := (fd.records i).field_name,
              offset := this.load_u32
                (sizeof_uintptr_t * d.struct_type_field_offset_vector_offset + 4 * i),
              type := types i, result := true }))) := by
  rw [SPMETypeApplyFields_struct_eq rt this flags callback.recording (s, []) d fd h_kind h_desc
    h_refl h_fov h_flags]
  have hall : ∀ v ∈ struct_field_visits this d fd,
      (v.resolved rt).isSome = true ∨ flags &&& SPMETypeApplyIgnoreUnknown ≠ 0 := by
    intro v hv
    simp only [struct_field_visits, List.mem_map, List.mem_range] at hv
    obtain ⟨i, hi, rfl⟩ := hv
    left
    simp [field_visit.resolved, h_res i hi]
  obtain ⟨s1, hs1⟩ := visit_fields_in_order_accepting rt callback flags h_cb
    (struct_field_visits this d fd) hall s []
  refine ⟨s1, ?_⟩
  rw [hs1]
  simp only [List.nil_append, struct_field_visits, List.filterMap_map]
  congr 2
  apply filterMap_eq_map_of_forall
  intro i hi
  have h := h_res i (List.mem_range.mp hi)
  simp only [Function.comp, field_visit.call, field_visit.resolved, h, Option.map_some',
    to_uint32_load_u32]

theorem SPMETypeApplyFields_struct_witness :
    (sample.struct_Pair.canonical_kind = kind_struct
      ∧ sample.struct_Pair.nominal_descriptor = some sample.descriptor_Pair.nominal
      ∧ sample.descriptor_Pair.nominal.struct_type_field_offset_vector_offset ≠ 0
      ∧ 0 &&& SPMETypeApplyClassType = 0)
    ∧ ∃ s1, SPMETypeApplyFields sample.runtime sample.struct_Pair 0
        sample.accept_all.recording ((), [])
      = (true, (s1, (List.range 2).map
          (fun i =>
            { name := (sample.records_xy i).field_name,
              offset := sample.struct_Pair.load_u32 (sizeof_uintptr_t * 2 + 4 * i),
              type := if i = 0 then sample.type_Int else sample.type_String,
              result := true }))) :=
  ⟨⟨by decide, rfl, by decide, by decide⟩,
    SPMETypeApplyFields_struct sample.runtime sample.struct_Pair 0 sample.accept_all ()
      sample.descriptor_Pair.nominal { num_fields := 2, records := sample.records_xy }
      (fun i => if i = 0 then sample.type_Int else sample.type_String)
      (by decide) rfl rfl (by decide)
      (by
        intro i hi
        have h2 : i < 2 := hi
        interval_cases i <;> rfl)
      (by decide) (fun _ _ _ _ => rfl)⟩

/-- C6 (the code does not do this): for the tuple `(Int, String)`, both
elements with a present type handle, `SPMETypeApplyFields` without the
class-type option and with a callback that always returns true returns false
and never invokes the callback; with the ignore-unknown option it returns true,
again without invoking the callback. -/
theorem SPMETypeApplyFields_tuple_never_calls_back :
    SPMETypeApplyFields sample.runtime sample.tuple_Int_String 0
        sample.accept_all.recording ((), []) = (false, ((), []))
    ∧ SPMETypeApplyFields sample.runtime sample.tuple_Int_String SPMETypeApplyIgnoreUnknown
        sample.accept_all.recording ((), []) = (true, ((), [])) :=
  ⟨rfl, rfl⟩

section class_walk

variable {σ : Type}

theorem mem_class_levels_self (m : metadata) : m ∈ class_levels m := by
  cases m with
  | mk header superclass elements boxed_type =>
    unfold class_levels
    split
    · split <;> simp
    · simp

theorem visit_heap_class_fields_eq_visit_fields (rt : Runtime) (m : metadata)
    (visitor : metadata_visitor σ) (s : σ) (desc : context_descriptor)
    (hd : m.header.cls.descriptor = some desc) (h : native_class_level m) :
    visit_heap_class_fields rt m desc visitor s
      = visit_fields_in_order visitor (class_level_field_visits m) s := by
  obtain ⟨-, -, desc1, fields, hd1, hf, hcount, hrc, hvec, hfirst⟩ := h
  rw [hd] at hd1
  cases hd1
  simp only [visit_heap_class_fields, class_level_field_visits, hd, hf]
  by_cases h0 : fields.num_fields = 0
  · simp [h0, visit_fields_in_order]
  · have hfirst0 : m.load_word (class_type_descriptor.field_offset_vector_offset desc
        + ((0 : Nat) : Int)) ≠ 0 := by simpa using hfirst
    rw [if_neg h0, if_neg (not_not.mpr hcount)]
    simp only [ne_eq, hrc, not_false_eq_true, if_true, metadata.field_offset_vector, hvec,
      Bool.not_true, Bool.false_eq_true, if_false, hfirst0, List.range_eq_range']
    exact for_each_index_visit_field visitor m fields.records _ _ 0 s

theorem visit_heap_class_eq_visit_fields (rt : Runtime) (visitor : metadata_visitor σ)
    (type : metadata) :
    (∀ m ∈ class_levels type, native_class_level m) →
    ∀ s, visit_heap_class rt visitor type s
      = visit_fields_in_order visitor (class_field_visits type) s := by
  induction type using class_levels.induct with
  | case1 h elements boxed_type desc hdesc val s_cls hsup ih =>
    intro hall s
    have hlev : class_levels (mk h (some s_cls) elements boxed_type)
        = class_levels s_cls ++ [mk h (some s_cls) elements boxed_type] := by
      rw [class_levels]
      simp only [hdesc, hsup]
    have hthis : native_class_level (mk h (some s_cls) elements boxed_type) :=
      hall _ (mem_class_levels_self _)
    have hsupall : ∀ m ∈ class_levels s_cls, native_class_level m := by
      intro m hm
      apply hall
      rw [hlev]
      exact List.mem_append_left _ hm
    have hskind : s_cls.canonical_kind = kind_class := (hsupall _ (mem_class_levels_self _)).1
    have hvis : class_field_visits (mk h (some s_cls) elements boxed_type)
        = class_field_visits s_cls
          ++ class_level_field_visits (mk h (some s_cls) elements boxed_type) := by
      simp [class_field_visits, hlev]
    have hsm : (mk h (some s_cls) elements boxed_type).swift_metadata
        = some (mk h (some s_cls) elements boxed_type) := by
      simp [metadata.swift_metadata, hthis.2.1]
    rw [visit_heap_class, hsm]
    simp only [hdesc, hsup, hskind, ne_eq, not_true_eq_false, if_false]
    rw [ih hsupall s, hvis]
    cases hres : visit_fields_in_order visitor (class_field_visits s_cls) s with
    | mk r s1 =>
      cases r with
      | true =>
        simp only
        rw [visit_fields_in_order_append visitor _ _ s s1 hres]
        exact visit_heap_class_fields_eq_visit_fields rt _ visitor s1 desc hdesc hthis
      | false =>
        simp only
        rw [visit_fields_in_order_append_false visitor _ _ s s1 hres]
  | case2 h elements boxed_type desc hdesc x hno =>
    intro hall s
    have hlev : class_levels (mk h x elements boxed_type) = [mk h x elements boxed_type] := by
      rw [class_levels]
      simp only [hdesc]
    have hthis : native_class_level (mk h x elements boxed_type) :=
      hall _ (mem_class_levels_self _)
    have hvis : class_field_visits (mk h x elements boxed_type)
        = class_level_field_visits (mk h x elements boxed_type) := by
      simp [class_field_visits, hlev]
    have hsm : (mk h x elements boxed_type).swift_metadata
        = some (mk h x elements boxed_type) := by
      simp [metadata.swift_metadata, hthis.2.1]
    rw [visit_heap_class, hsm, hvis]
    simp only [hdesc]
    exact visit_heap_class_fields_eq_visit_fields rt _ visitor s desc hdesc hthis
  | case3 h superclass elements boxed_type hnone =>
    intro hall s
    have hthis : native_class_level (mk h superclass elements boxed_type) :=
      hall _ (mem_class_levels_self _)
    obtain ⟨-, -, desc, fields, hd, -⟩ := hthis
    have : h.cls.descriptor = some desc := hd
    rw [hnone] at this
    cases this

theorem SPMETypeApplyFields_class_eq (rt : Runtime) (type : metadata) (flags : Nat)
    (callback : Callback σ) (s : σ)
    (h_levels : ∀ m ∈ class_levels type, native_class_level m)
    (h_flags : flags &&& SPMETypeApplyClassType ≠ 0) :
    SPMETypeApplyFields rt type flags callback s
      = visit_fields_in_order (SPMETypeApplyFields.Visitor rt callback flags)
          (class_field_visits type) s := by
  have h_kind : type.canonical_kind = kind_class := (h_levels _ (mem_class_levels_self _)).1
  simp +decide only [SPMETypeApplyFields, h_kind, h_flags, metadata.visit_heap, if_true, if_false,
    ne_eq, not_false_eq_true, not_true_eq_false, or_self]
  exact visit_heap_class_eq_visit_fields rt _ type h_levels s

end class_walk

section class_count

theorem class_level_field_visits_length (m : metadata) (h : native_class_level m) :
    (class_level_field_visits m).length = class_level_field_count m := by
  obtain ⟨-, -, desc, fields, hd, hf, hcount, -⟩ := h
  simp [class_level_field_visits, class_level_field_count, hd, hf, hcount]

theorem flatMap_length_eq_sum (levels : List metadata)
    (h : ∀ m ∈ levels, native_class_level m) :
    (levels.flatMap class_level_field_visits).length
      = (levels.map class_level_field_count).sum := by
  induction levels with
  | nil => rfl
  | cons m rest ih =>
    have hm := h m (List.mem_cons_self _ _)
    have hrest : ∀ x ∈ rest, native_class_level x := fun x hx => h x (List.mem_cons_of_mem _ hx)
    simp [List.flatMap_cons, class_level_field_visits_length m hm, ih hrest]

theorem filterMap_call_length (rt : Runtime) (l : List field_visit)
    (h : ∀ v ∈ l, (v.resolved rt).isSome = true) :
    (l.filterMap (fun v => v.call rt true)).length = l.length := by
  induction l with
  | nil => rfl
  | cons v rest ih =>
    have hv := h v (List.mem_cons_self _ _)
    have hrest : ∀ w ∈ rest, (w.resolved rt).isSome = true :=
      fun w hw => h w (List.mem_cons_of_mem _ hw)
    obtain ⟨ft, hft⟩ := Option.isSome_iff_exists.mp hv
    have hc : (fun v => field_visit.call rt v true) v
        = some { name := v.field.field_name, offset := to_uint32 v.offset, type := ft,
                 result := true } := by
      simp [field_visit.call, hft]
    rw [List.filterMap_cons_some (f := fun v => field_visit.call rt v true) hc, List.length_cons,
      List.length_cons, ih hrest]

end class_count

/-- C2: for a native class whose declared superclass chain consists of native
classes, every level with native refcounting, reflection metadata whose field
count equals the descriptor's, a field-offset vector with a nonzero first entry
and only resolvable fields, `SPMETypeApplyFields` with the class-type option
and a callback that always returns true returns true after invoking the
callback once per field of the chain: the fields of a superclass before those
of its subclass, each level in declaration order, `N` invocations in all, `N`
being the sum of the field counts over the chain. -/
theorem SPMETypeApplyFields_class {σ : Type} (rt : Runtime) (type : metadata) (flags : Nat)
    (callback : Callback σ) (s : σ)
    (h_levels : ∀ m ∈ class_levels type, native_class_level m)
    (h_res : ∀ v ∈ class_field_visits type, (v.resolved rt).isSome = true)
    (h_flags : flags &&& SPMETypeApplyClassType ≠ 0)
    (h_cb : ∀ name offset type s, (callback name offset type s).1 = true) :
    (∃ s1, SPMETypeApplyFields rt type flags callback.recording (s, [])
      = (true, (s1, (class_field_visits type).filterMap (fun v => v.call rt true))))
    ∧ ((class_field_visits type).filterMap (fun v => v.call rt true)).length
      = ((class_levels type).map class_level_field_count).sum := by
  constructor
  · rw [SPMETypeApplyFields_class_eq rt type flags callback.recording (s, []) h_levels h_flags]
    obtain ⟨s1, hs1⟩ := visit_fields_in_order_accepting rt callback flags h_cb
      (class_field_visits type) (fun v hv => Or.inl (h_res v hv)) s []
    exact ⟨s1, by simpa using hs1⟩
  · rw [filterMap_call_length rt _ h_res]
    exact flatMap_length_eq_sum _ h_levels

section sample_facts

theorem sample.class_levels_Derived :
    class_levels sample.class_Derived = [sample.class_Base, sample.class_Derived] := rfl

theorem sample.native_class_level_Base : native_class_level sample.class_Base :=
  ⟨by decide, by decide, sample.descriptor_Base,
    { num_fields := 1, records := sample.records_xy }, rfl, rfl, rfl, by decide, by decide,
    by decide⟩

theorem sample.native_class_level_Derived : native_class_level sample.class_Derived :=
  ⟨by decide, by decide, sample.descriptor_Derived,
    { num_fields := 1, records := sample.records_y }, rfl, rfl, rfl, by decide, by decide,
    by decide⟩

theorem sample.class_levels_Derived_native :
    ∀ m ∈ class_levels sample.class_Derived, native_class_level m := by
  intro m hm
  rw [sample.class_levels_Derived] at hm
  simp only [List.mem_cons, List.mem_singleton, List.not_mem_nil, or_false] at hm
  rcases hm with rfl | rfl
  · exact sample.native_class_level_Base
  · exact sample.native_class_level_Derived

theorem sample.class_field_visits_Derived :
    class_field_visits sample.class_Derived
      = [{ type := sample.class_Base, field := sample.records_xy 0, offset := 16 },
         { type := sample.class_Derived, field := sample.records_y 0, offset := 24 }] := rfl

theorem sample.class_field_visits_Derived_resolved :
    ∀ v ∈ class_field_visits sample.class_Derived,
      (v.resolved sample.runtime).isSome = true := by
  intro v hv
  rw [sample.class_field_visits_Derived] at hv
  simp only [List.mem_cons, List.mem_singleton, List.not_mem_nil, or_false] at hv
  rcases hv with rfl | rfl <;> rfl

end sample_facts

theorem SPMETypeApplyFields_class_witness :
    ((∀ m ∈ class_levels sample.class_Derived, native_class_level m)
      ∧ (∀ v ∈ class_field_visits sample.class_Derived,
          (v.resolved sample.runtime).isSome = true)
      ∧ 1 &&& SPMETypeApplyClassType ≠ 0)
    ∧ ((∃ s1, SPMETypeApplyFields sample.runtime sample.class_Derived 1
          sample.accept_all.recording ((), [])
        = (true, (s1, (class_field_visits sample.class_Derived).filterMap
            (fun v => v.call sample.runtime true))))
      ∧ ((class_field_visits sample.class_Derived).filterMap
            (fun v => v.call sample.runtime true)).length
          = ((class_levels sample.class_Derived).map class_level_field_count).sum) :=
  ⟨⟨sample.class_levels_Derived_native, sample.class_field_visits_Derived_resolved, by decide⟩,
    SPMETypeApplyFields_class sample.runtime sample.class_Derived 1 sample.accept_all ()
      sample.class_levels_Derived_native sample.class_field_visits_Derived_resolved (by decide)
      (fun _ _ _ _ => rfl)⟩

section unknown_policy

variable {σ : Type}

theorem visit_fields_in_order_stops_at_unknown (rt : Runtime) (callback : Callback σ)
    (flags : Nat) (h_cb : ∀ name offset type s, (callback name offset type s).1 = true)
    (pre : List field_visit) (v : field_visit) (post : List field_visit)
    (h_pre : ∀ w ∈ pre, (w.resolved rt).isSome = true) (h_v : v.resolved rt = none)
    (h_flags : flags &&& SPMETypeApplyIgnoreUnknown = 0) (s : σ) (log : List callback_call) :
    ∃ s1, visit_fields_in_order (SPMETypeApplyFields.Visitor rt callback.recording flags)
        (pre ++ v :: post) (s, log)
      = (false, (s1, log ++ pre.filterMap (fun w => w.call rt true))) := by
  obtain ⟨s1, hs1⟩ := visit_fields_in_order_accepting rt callback flags h_cb pre
    (fun w hw => Or.inl (h_pre w hw)) s log
  refine ⟨s1, ?_⟩
  rw [visit_fields_in_order_append _ pre (v :: post) _ _ hs1]
  have hnone : v.type.mangled_type_name_ref rt v.field.mangled_type_name = none := by
    simpa [field_visit.resolved] using h_v
  simp [visit_fields_in_order, SPMETypeApplyFields.Visitor,
    SPMETypeApplyFields.Visitor_visit_field, hnone,
    SPMETypeApplyFields.Visitor_unknown_result, h_flags]

end unknown_policy

/-- C5: the visitor of `SPMETypeApplyFields` maps `unknown_result()` to true
exactly when the ignore-unknown option is set, and the policy holds at every
level of a walk.  For a struct that passes the three checks, and for a class
whose declared chain consists of native levels, with a callback that always
returns true: with ignore-unknown set the callback is invoked for exactly the
fields whose type name resolves, in order, a field whose name is absent or
unresolvable producing no invocation, and the result is true; with
ignore-unknown unset the walk returns false at the first such field, the
callback having been invoked for the fields before it only. -/
theorem SPMETypeApplyFields_unknown_policy {σ : Type} (rt : Runtime) (flags : Nat)
    (callback : Callback σ) (s : σ)
    (h_cb : ∀ name offset type s, (callback name offset type s).1 = true) :
    (∀ st : σ, (SPMETypeApplyFields.Visitor rt callback flags).unknown_result st = true
      ↔ flags &&& SPMETypeApplyIgnoreUnknown ≠ 0)
    ∧ (∀ (this : metadata) (d : nominal_type_descriptor) (fd : field_descriptor),
        this.canonical_kind = kind_struct → this.nominal_descriptor = some d →
        d.reflection_metadata = some fd → d.struct_type_field_offset_vector_offset ≠ 0 →
        flags &&& SPMETypeApplyClassType = 0 →
        (flags &&& SPMETypeApplyIgnoreUnknown ≠ 0 →
          ∃ s1, SPMETypeApplyFields rt this flags callback.recording (s, [])
            = (true, (s1, (struct_field_visits this d fd).filterMap
                (fun v => v.call rt true))))
        ∧ (flags &&& SPMETypeApplyIgnoreUnknown = 0 →
          ∀ pre v post, struct_field_visits this d fd = pre ++ v :: post →
            (∀ w ∈ pre, (w.resolved rt).isSome = true) → v.resolved rt = none →
            ∃ s1, SPMETypeApplyFields rt this flags callback.recording (s, [])
              = (false, (s1, pre.filterMap (fun w => w.call rt true)))))
    ∧ (∀ (type : metadata), (∀ m ∈ class_levels type, native_class_level m) →
        flags &&& SPMETypeApplyClassType ≠ 0 →
        (flags &&& SPMETypeApplyIgnoreUnknown ≠ 0 →
          ∃ s1, SPMETypeApplyFields rt type flags callback.recording (s, [])
            = (true, (s1, (class_field_visits type).filterMap (fun v => v.call rt true))))
        ∧ (flags &&& SPMETypeApplyIgnoreUnknown = 0 →
          ∀ pre v post, class_field_visits type = pre ++ v :: post →
            (∀ w ∈ pre, (w.resolved rt).isSome = true) → v.resolved rt = none →
            ∃ s1, SPMETypeApplyFields rt type flags callback.recording (s, [])
              = (false, (s1, pre.filterMap (fun w => w.call rt true))))) := by
  refine ⟨?_, ?_, ?_⟩
  · intro st
    simp [SPMETypeApplyFields.Visitor, SPMETypeApplyFields.Visitor_unknown_result]
  · intro this d fd h_kind h_desc h_refl h_fov h_flags
    rw [SPMETypeApplyFields_struct_eq rt this flags callback.recording (s, []) d fd h_kind
      h_desc h_refl h_fov h_flags]
    constructor
    · intro h_ign
      obtain ⟨s1, hs1⟩ := visit_fields_in_order_accepting rt callback flags h_cb
        (struct_field_visits this d fd) (fun v _ => Or.inr h_ign) s []
      exact ⟨s1, by simpa using hs1⟩
    · intro h_ign pre v post hsplit h_pre h_v
      rw [hsplit]
      obtain ⟨s1, hs1⟩ := visit_fields_in_order_stops_at_unknown rt callback flags h_cb pre v
        post h_pre h_v h_ign s []
      exact ⟨s1, by simpa using hs1⟩
  · intro type h_levels h_flags
    rw [SPMETypeApplyFields_class_eq rt type flags callback.recording (s, []) h_levels h_flags]
    constructor
    · intro h_ign
      obtain ⟨s1, hs1⟩ := visit_fields_in_order_accepting rt callback flags h_cb
        (class_field_visits type) (fun v _ => Or.inr h_ign) s []
      exact ⟨s1, by simpa using hs1⟩
    · intro h_ign pre v post hsplit h_pre h_v
      rw [hsplit]
      obtain ⟨s1, hs1⟩ := visit_fields_in_order_stops_at_unknown rt callback flags h_cb pre v
        post h_pre h_v h_ign s []
      exact ⟨s1, by simpa using hs1⟩

theorem SPMETypeApplyFields_unknown_policy_witness :
    (∀ name offset type s, (sample.accept_all name offset type s).1 = true)
    ∧ (∃ s1, SPMETypeApplyFields sample.runtime sample.struct_Triple SPMETypeApplyIgnoreUnknown
          sample.accept_all.recording ((), [])
        = (true, (s1, (struct_field_visits sample.struct_Triple sample.descriptor_Triple.nominal
              { num_fields := 3, records := sample.records_xqy }).filterMap
            (fun v => v.call sample.runtime true))))
    ∧ ((struct_field_visits sample.struct_Triple sample.descriptor_Triple.nominal
              { num_fields := 3, records := sample.records_xqy }).filterMap
            (fun v => v.call sample.runtime true)).length = 2 :=
  ⟨fun _ _ _ _ => rfl,
    ((SPMETypeApplyFields_unknown_policy sample.runtime SPMETypeApplyIgnoreUnknown
        sample.accept_all () (fun _ _ _ _ => rfl)).2.1
      sample.struct_Triple sample.descriptor_Triple.nominal
      { num_fields := 3, records := sample.records_xqy }
      (by decide) rfl rfl (by decide) (by decide)).1 (by decide),
    rfl⟩

section rejection

variable {σ : Type}

theorem stopped_at_rejection_of_accepted (r : Bool) (st : σ × List callback_call)
    (h : all_accepted st.2) : stopped_at_rejection (r, st) :=
  Or.inl h

theorem all_accepted_of_stopped (out : Bool × σ × List callback_call)
    (h : stopped_at_rejection out) (hr : out.1 = true) : all_accepted out.2.2 := by
  rcases h with h | ⟨hf, -⟩
  · exact h
  · rw [hr] at hf
    cases hf

theorem Visitor_visit_field_stopped (rt : Runtime) (callback : Callback σ) (flags : Nat)
    (type : metadata) (field : field_record) (offset : Nat) (st : σ × List callback_call)
    (h : all_accepted st.2) :
    stopped_at_rejection
      ((SPMETypeApplyFields.Visitor rt callback.recording flags).visit_field type field offset
        st) := by
  simp only [SPMETypeApplyFields.Visitor, SPMETypeApplyFields.Visitor_visit_field]
  cases type.mangled_type_name_ref rt field.mangled_type_name with
  | none => exact Or.inl h
  | some p =>
    obtain ⟨ft, r⟩ := p
    simp only [Callback.recording]
    cases hres : (callback field.field_name (to_uint32 offset) ft st.1).1 with
    | true =>
      left
      intro c hc
      simp only [List.mem_append, List.mem_singleton] at hc
      rcases hc with hc | rfl
      · exact h c hc
      · rfl
    | false =>
      right
      exact ⟨rfl, st.2, _, rfl, h, rfl⟩

theorem for_each_index_stopped (body : Nat → σ × List callback_call → Bool × σ × List callback_call)
    (hbody : ∀ i st, all_accepted st.2 → stopped_at_rejection (body i st))
    (n i0 : Nat) (st : σ × List callback_call) (h : all_accepted st.2) :
    stopped_at_rejection (for_each_index body n i0 st) := by
  induction n generalizing i0 st with
  | zero => exact Or.inl h
  | succ n ih =>
    simp only [for_each_index]
    have hb := hbody i0 st h
    cases hres : body i0 st with
    | mk r st1 =>
      rw [hres] at hb
      cases r with
      | true => exact ih (i0 + 1) st1 (all_accepted_of_stopped _ hb rfl)
      | false => exact hb

theorem visit_stopped (rt : Runtime) (callback : Callback σ) (flags : Nat) (this : metadata)
    (st : σ × List callback_call) (h : all_accepted st.2) :
    stopped_at_rejection
      (this.visit rt (SPMETypeApplyFields.Visitor rt callback.recording flags) st) := by
  unfold metadata.visit
  split
  · exact Or.inl h
  split
  · unfold metadata.visit_struct
    split
    · exact Or.inl h
    split
    · exact Or.inl h
    split
    · exact Or.inl h
    · exact for_each_index_stopped _
        (fun i st1 h1 => Visitor_visit_field_stopped rt callback flags _ _ _ st1 h1) _ _ st h
  split
  · unfold metadata.visit_enum
    split
    · exact Or.inl h
    split
    · exact Or.inl h
    simp only
    split
    · exact Or.inl h
    · apply for_each_index_stopped _ _ _ _ st h
      intro i st1 h1
      split
      · exact Or.inl h1
      · exact Or.inl h1
  split
  · unfold metadata.visit_tuple
    apply for_each_index_stopped _ _ _ _ st h
    intro i st1 h1
    split
    · exact Or.inl h1
    · exact Or.inl h1
  split
  · exact Or.inl h
  split
  · exact Or.inl h
  split
  · split
    · split
      · exact Or.inl h
      · exact Or.inl h
    · exact Or.inl h
  · exact Or.inl h

theorem visit_heap_class_fields_stopped (rt : Runtime) (callback : Callback σ) (flags : Nat)
    (this : metadata) (desc : context_descriptor) (st : σ × List callback_call)
    (h : all_accepted st.2) :
    stopped_at_rejection
      (visit_heap_class_fields rt this desc
        (SPMETypeApplyFields.Visitor rt callback.recording flags) st) := by
  unfold visit_heap_class_fields
  split
  · exact Or.inl h
  split
  · exact Or.inl h
  split
  · exact Or.inl h
  simp only
  split
  · exact Or.inl h
  split
  · exact Or.inl h
  · exact for_each_index_stopped _
      (fun i st1 h1 => Visitor_visit_field_stopped rt callback flags _ _ _ st1 h1) _ _ st h

theorem visit_heap_class_stopped (rt : Runtime) (callback : Callback σ) (flags : Nat)
    (type : metadata) :
    ∀ st : σ × List callback_call, all_accepted st.2 →
      stopped_at_rejection
        (visit_heap_class rt (SPMETypeApplyFields.Visitor rt callback.recording flags) type
          st) := by
  induction type using class_levels.induct with
  | case1 h elements boxed_type desc hdesc val s_cls hsup ih =>
    intro st hst
    rw [visit_heap_class]
    split
    · exact Or.inl hst
    simp only [hdesc, hsup]
    split
    · exact Or.inl hst
    have hrec := ih st hst
    cases hres : visit_heap_class rt (SPMETypeApplyFields.Visitor rt callback.recording flags)
        s_cls st with
    | mk r st1 =>
      rw [hres] at hrec
      cases r with
      | true =>
        exact visit_heap_class_fields_stopped rt callback flags _ desc st1
          (all_accepted_of_stopped _ hrec rfl)
      | false => exact hrec
  | case2 h elements boxed_type desc hdesc x hno =>
    intro st hst
    rw [visit_heap_class]
    split
    · exact Or.inl hst
    simp only [hdesc]
    exact visit_heap_class_fields_stopped rt callback flags _ desc st hst
  | case3 h superclass elements boxed_type hnone =>
    intro st hst
    rw [visit_heap_class]
    split
    · exact Or.inl hst
    simp only [hnone]
    exact Or.inl hst

theorem SPMETypeApplyFields_stopped (rt : Runtime) (callback : Callback σ) (flags : Nat)
    (type : metadata) (st : σ × List callback_call) (h : all_accepted st.2) :
    stopped_at_rejection (SPMETypeApplyFields rt type flags callback.recording st) := by
  unfold SPMETypeApplyFields
  split
  · split
    · exact Or.inl h
    · exact visit_stopped rt callback flags type st h
  split
  · split
    · exact Or.inl h
    · unfold metadata.visit_heap
      split
      · split
        · exact visit_heap_class_stopped rt callback flags type st h
        · exact Or.inl h
      · contradiction
  · exact Or.inl h

end rejection

/-- C4: in every walk of `SPMETypeApplyFields` (a struct, a class with its
superclasses, or any other handle, whatever the options), if the callback
returns false on its `k`-th invocation then the callback is invoked exactly `k`
times in all and `SPMETypeApplyFields` returns false: no field after the
rejected one is visited, in particular no field of a subclass after a
rejected superclass field. -/
theorem SPMETypeApplyFields_stops_at_rejection {σ : Type} (rt : Runtime) (type : metadata)
    (flags : Nat) (callback : Callback σ) (s : σ) (k : Nat) (c : callback_call)
    (h_call : (SPMETypeApplyFields rt type flags callback.recording (s, [])).2.2[k]? = some c)
    (h_rejected : c.result = false) :
    (SPMETypeApplyFields rt type flags callback.recording (s, [])).2.2.length = k + 1
    ∧ (SPMETypeApplyFields rt type flags callback.recording (s, [])).1 = false := by
  have hstop := SPMETypeApplyFields_stopped rt callback flags type (s, [])
    (fun c hc => absurd hc (List.not_mem_nil c))
  have hmem : c ∈ (SPMETypeApplyFields rt type flags callback.recording (s, [])).2.2 :=
    List.getElem?_mem h_call
  rcases hstop with hall | ⟨hfalse, pre, last, hlog, hpre, hlast⟩
  · have := hall c hmem
    rw [h_rejected] at this
    cases this
  · refine ⟨?_, hfalse⟩
    rw [hlog] at h_call ⊢
    have hk : k < (pre ++ [last]).length := by
      rcases List.getElem?_eq_some_iff.mp h_call with ⟨hk, -⟩
      exact hk
    simp only [List.length_append, List.length_singleton] at hk ⊢
    by_cases hlt : k < pre.length
    · rw [List.getElem?_append_left hlt] at h_call
      have := hpre c (List.getElem?_mem h_call)
      rw [h_rejected] at this
      cases this
    · omega

theorem SPMETypeApplyFields_stops_at_rejection_witness :
    ((SPMETypeApplyFields sample.runtime sample.class_Derived 1 sample.reject_all.recording
          ((), [])).2.2[0]?
        = some { name := some "x", offset := 16, type := sample.type_Int, result := false }
      ∧ ({ name := some "x", offset := 16, type := sample.type_Int, result := false }
          : callback_call).result = false)
    ∧ ((SPMETypeApplyFields sample.runtime sample.class_Derived 1 sample.reject_all.recording
          ((), [])).2.2.length = 0 + 1
      ∧ (SPMETypeApplyFields sample.runtime sample.class_Derived 1 sample.reject_all.recording
          ((), [])).1 = false) :=
  ⟨⟨rfl, rfl⟩,
    SPMETypeApplyFields_stops_at_rejection sample.runtime sample.class_Derived 1
      sample.reject_all () 0
      { name := some "x", offset := 16, type := sample.type_Int, result := false } rfl rfl⟩

section resolver

theorem mangled_type_name_ref_fst (rt : Runtime) (this : metadata) (name : encoded_name) :
    (this.mangled_type_name_ref rt (some name)).map Prod.fst
      = rt.swift_getTypeByMangledNameInContext name name.size this.descriptor
          this.resolver_generic_args := by
  simp only [metadata.mangled_type_name_ref, metadata.resolver_generic_args]
  cases this.descriptor with
  | none =>
    simp only []
    generalize rt.swift_getTypeByMangledNameInContext _ _ _ _ = ret
    cases ret <;> rfl
  | some desc =>
    simp only []
    by_cases hg : desc.flags &&& context_descriptor.is_generic = 0
    · simp only [hg, ne_eq, not_true_eq_false, if_false, if_true]
      generalize rt.swift_getTypeByMangledNameInContext _ _ _ _ = ret
      cases ret <;> rfl
    · simp only [hg, ne_eq, not_false_eq_true, if_false, if_true]
      generalize rt.swift_getTypeByMangledNameInContext _ _ _ _ = ret
      cases ret <;> rfl

end resolver

/-- C11: when the resolver resolves an encoded name and the ownership kind is
requested, `mangled_type_name_ref` reports ownership strong whenever the name,
up to its scanned length, does not end in `X` followed by `o`, `u` or `w`;
this covers a name whose second-to-last character is `X` and whose last
character is another one, and a name in which `Xo`, `Xu` or `Xw` occurs only
before the last two characters. -/
theorem mangled_type_name_ref_strong (rt : Runtime) (this : metadata) (name : encoded_name)
    (type : metadata) (ref : ref_kind)
    (h : this.mangled_type_name_ref rt (some name) = some (type, ref))
    (h_o : ¬ name.ends_in 'X' 'o') (h_u : ¬ name.ends_in 'X' 'u')
    (h_w : ¬ name.ends_in 'X' 'w') :
    ref = ref_kind.strong := by
  simp only [metadata.mangled_type_name_ref] at h
  split at h
  · exact absurd h (by simp)
  · simp only [Option.some.injEq, Prod.mk.injEq] at h
    obtain ⟨-, href⟩ := h
    rw [← href]
    by_cases hX : name.size > 2 ∧ name.at (name.size - 2) = 'X'.toNat
    · have h2 : 2 ≤ name.size := by omega
      have ho : ¬ name.at (name.size - 1) = 'o'.toNat := fun ho => h_o ⟨h2, hX.2, ho⟩
      have hu : ¬ name.at (name.size - 1) = 'u'.toNat := fun hu => h_u ⟨h2, hX.2, hu⟩
      have hw : ¬ name.at (name.size - 1) = 'w'.toNat := fun hw => h_w ⟨h2, hX.2, hw⟩
      simp only [hX, and_self, if_true, ho, hu, hw, if_false]
    · simp only [hX, if_false]

theorem mangled_type_name_ref_strong_witness :
    (sample.type_Int.mangled_type_name_ref sample.runtime_any (some sample.name_XoSiXq)
        = some (sample.type_Int, ref_kind.strong)
      ∧ ¬ sample.name_XoSiXq.ends_in 'X' 'o' ∧ ¬ sample.name_XoSiXq.ends_in 'X' 'u'
      ∧ ¬ sample.name_XoSiXq.ends_in 'X' 'w')
    ∧ ref_kind.strong = ref_kind.strong :=
  ⟨⟨rfl, by decide, by decide, by decide⟩,
    mangled_type_name_ref_strong sample.runtime_any sample.type_Int sample.name_XoSiXq
      sample.type_Int ref_kind.strong rfl (by decide) (by decide) (by decide)⟩

/-- C12: an unresolved name is unknown, not a fault.  For a null name
`mangled_type_name_ref` returns null whatever the resolver is (it is not
called); for a non-null name it returns what the resolver returns for the name,
its scanned length and the context of the base type, null included.  The base
`metadata_visitor::visit_field` returns `unknown_result()` and makes no call
when the record's type name is absent or does not resolve, and otherwise makes
the one call `visit_element(resolved type, decoded ownership, offset)` with the
offset it was given and returns its result. -/
theorem unresolved_name_is_unknown {σ : Type} (rt : Runtime) (this : metadata)
    (visitor : metadata_visitor σ) (field : field_record) (offset : Nat) (s : σ) :
    (∀ rt1 : Runtime, this.mangled_type_name_ref rt1 none = none)
    ∧ (∀ name : encoded_name,
        (this.mangled_type_name_ref rt (some name)).map Prod.fst
          = rt.swift_getTypeByMangledNameInContext name name.size this.descriptor
              this.resolver_generic_args)
    ∧ (this.mangled_type_name_ref rt field.mangled_type_name = none →
        metadata_visitor.base_visit_field rt visitor.recording.unknown_result
            visitor.recording.visit_element this field offset (s, [])
          = (visitor.unknown_result s, (s, [])))
    ∧ (∀ type ref, this.mangled_type_name_ref rt field.mangled_type_name = some (type, ref) →
        metadata_visitor.base_visit_field rt visitor.recording.unknown_result
            visitor.recording.visit_element this field offset (s, [])
          = ((visitor.visit_element type ref offset s).1,
              ((visitor.visit_element type ref offset s).2,
                [visit_event.element type ref offset]))) := by
  refine ⟨fun _ => rfl, ?_, ?_, ?_⟩
  · intro name
    exact mangled_type_name_ref_fst rt this name
  · intro hnone
    unfold metadata_visitor.base_visit_field
    cases hname : field.mangled_type_name with
    | none => rfl
    | some type_name =>
      rw [hname] at hnone
      simp [hnone, metadata_visitor.recording]
  · intro type ref hsome
    unfold metadata_visitor.base_visit_field
    cases hname : field.mangled_type_name with
    | none =>
      rw [hname] at hsome
      simp [metadata.mangled_type_name_ref] at hsome
    | some type_name =>
      rw [hname] at hsome
      simp [hsome, metadata_visitor.recording]

theorem unresolved_name_is_unknown_witness :
    metadata_visitor.base_visit_field sample.runtime
        (metadata_visitor.base sample.runtime : metadata_visitor Unit).recording.unknown_result
        (metadata_visitor.base sample.runtime : metadata_visitor Unit).recording.visit_element
        sample.struct_Triple (sample.records_xqy 1) 8 ((), [])
      = (false, ((), [])) :=
  (unresolved_name_is_unknown sample.runtime sample.struct_Triple
      (metadata_visitor.base sample.runtime : metadata_visitor Unit) (sample.records_xqy 1) 8
      ()).2.2.1 rfl

section length_scan

theorem mangled_type_name_size_loop_fuel (ptr : List Nat) (fuel : Nat) :
    ∀ (fuel1 end_ : Nat), ptr.length < fuel + end_ → fuel ≤ fuel1 →
      mangled_type_name_size_loop ptr fuel1 end_ = mangled_type_name_size_loop ptr fuel end_ := by
  induction fuel with
  | zero =>
    intro fuel1 end_ h _
    have hget : ptr.get? end_ = none := by
      rw [List.get?_eq_getElem?, List.getElem?_eq_none_iff]
      omega
    cases fuel1 with
    | zero => rfl
    | succ f => simp only [mangled_type_name_size_loop, hget]
  | succ fuel ih =>
    intro fuel1 end_ h hle
    obtain ⟨f, rfl⟩ : ∃ f, fuel1 = f + 1 := ⟨fuel1 - 1, by omega⟩
    simp only [mangled_type_name_size_loop]
    cases ptr.get? end_ with
    | none => rfl
    | some current =>
      simp only []
      rw [ih f (end_ + 1 + 4) (by omega) (by omega),
        ih f (end_ + 1 + sizeof_uintptr_t) (by omega) (by omega),
        ih f (end_ + 1) (by omega) (by omega)]

theorem mangled_type_name_size_loop_shift (pre rest : List Nat) (fuel : Nat) :
    ∀ end_ : Nat,
      mangled_type_name_size_loop (pre ++ rest) fuel (pre.length + end_)
        = (mangled_type_name_size_loop rest fuel end_).map (fun len => len + pre.length) := by
  induction fuel with
  | zero => intro end_; rfl
  | succ fuel ih =>
    intro end_
    have hget : (pre ++ rest).get? (pre.length + end_) = rest.get? end_ := by
      simp [List.get?_eq_getElem?, List.getElem?_append_right]
    simp only [mangled_type_name_size_loop, hget]
    cases rest.get? end_ with
    | none => rfl
    | some current =>
      simp only []
      have h4 := ih (end_ + 1 + 4)
      have hp := ih (end_ + 1 + sizeof_uintptr_t)
      have h1 := ih (end_ + 1)
      simp only [← Nat.add_assoc] at h4 hp h1
      by_cases h0 : current = 0
      · simp [h0, Nat.add_comm]
      · simp only [h0, if_false]
        split
        · exact h4
        · split
          · exact hp
          · exact h1

theorem mangled_type_name_size_cons_skip (byte : Nat) (payload rest : List Nat) (fuel : Nat)
    (hfuel : rest.length < fuel) :
    mangled_type_name_size_loop (byte :: (payload ++ rest)) fuel (0 + 1 + payload.length)
      = (mangled_type_name_size rest).map (fun len => len + (1 + payload.length)) := by
  have hshift := mangled_type_name_size_loop_shift (byte :: payload) rest fuel 0
  simp only [List.cons_append, List.length_cons, Nat.add_zero] at hshift
  have hidx : 0 + 1 + payload.length = payload.length + 1 := by omega
  rw [hidx, hshift]
  have hf := mangled_type_name_size_loop_fuel rest (rest.length + 1) fuel 0 (by omega) (by omega)
  rw [hf]
  simp only [mangled_type_name_size]

theorem mangled_type_name_size_terminator (rest : List Nat) :
    mangled_type_name_size (0 :: rest) = some 0 := by
  simp [mangled_type_name_size, mangled_type_name_size_loop]

theorem mangled_type_name_size_reference_4 (tag : Nat) (payload rest : List Nat)
    (h1 : 0x1 ≤ tag) (h2 : tag ≤ 0x17) (hp : payload.length = 4) :
    mangled_type_name_size (tag :: (payload ++ rest))
      = (mangled_type_name_size rest).map (fun len => len + 5) := by
  have h0 : tag ≠ 0 := by omega
  have hskip := mangled_type_name_size_cons_skip tag payload rest
    ((payload ++ rest).length + 1) (by simp; omega)
  rw [hp] at hskip
  simp only [mangled_type_name_size, mangled_type_name_size_loop, List.length_cons,
    List.get?_cons_zero, h0, if_false, h1, h2, and_self, if_true]
  exact hskip

theorem mangled_type_name_size_reference_pointer (tag : Nat) (payload rest : List Nat)
    (h1 : 0x18 ≤ tag) (h2 : tag ≤ 0x1F) (hp : payload.length = sizeof_uintptr_t) :
    mangled_type_name_size (tag :: (payload ++ rest))
      = (mangled_type_name_size rest).map (fun len => len + (1 + sizeof_uintptr_t)) := by
  have h0 : tag ≠ 0 := by omega
  have hnot : ¬ (0x1 ≤ tag ∧ tag ≤ 0x17) := by omega
  have hskip := mangled_type_name_size_cons_skip tag payload rest
    ((payload ++ rest).length + 1) (by simp; omega)
  rw [hp] at hskip
  simp only [mangled_type_name_size, mangled_type_name_size_loop, List.length_cons,
    List.get?_cons_zero, h0, if_false, hnot, h1, h2, and_self, if_true]
  exact hskip

theorem mangled_type_name_size_plain (byte : Nat) (rest : List Nat)
    (h0 : byte ≠ 0) (hnot : ¬ (0x1 ≤ byte ∧ byte ≤ 0x1F)) :
    mangled_type_name_size (byte :: rest)
      = (mangled_type_name_size rest).map (fun len => len + 1) := by
  have hn4 : ¬ (0x1 ≤ byte ∧ byte ≤ 0x17) := by omega
  have hnp : ¬ (0x18 ≤ byte ∧ byte ≤ 0x1F) := by omega
  have hskip := mangled_type_name_size_cons_skip byte [] rest (rest.length + 1) (by omega)
  simp only [List.nil_append, List.length_nil, Nat.add_zero] at hskip
  simp only [mangled_type_name_size, mangled_type_name_size_loop, List.length_cons,
    List.get?_cons_zero, h0, if_false, hn4, hnp]
  exact hskip

end length_scan

section length_scan_results

theorem mangled_type_name_size_loop_stops_at_zero (ptr : List Nat) (fuel : Nat) :
    ∀ (end_ len : Nat), mangled_type_name_size_loop ptr fuel end_ = some len →
      ptr[len]? = some 0 ∧ end_ ≤ len := by
  induction fuel with
  | zero =>
    intro end_ len h
    simp [mangled_type_name_size_loop] at h
  | succ fuel ih =>
    intro end_ len h
    simp only [mangled_type_name_size_loop] at h
    cases hget : ptr.get? end_ with
    | none =>
      rw [hget] at h
      cases h
    | some current =>
      rw [hget] at h
      simp only [] at h
      by_cases h0 : current = 0
      · simp only [h0, if_true, Option.some.injEq] at h
        subst h
        subst h0
        exact ⟨by simpa [List.get?_eq_getElem?] using hget, Nat.le_refl _⟩
      · simp only [h0, if_false] at h
        split at h
        · have := ih _ _ h
          exact ⟨this.1, by omega⟩
        · split at h
          · have := ih _ _ h
            exact ⟨this.1, by omega⟩
          · have := ih _ _ h
            exact ⟨this.1, by omega⟩

theorem mangled_type_name_size_loop_plain (ptr : List Nat) (z : Nat) (hz : ptr[z]? = some 0)
    (fuel : Nat) :
    ∀ end_ : Nat, end_ ≤ z → z - end_ < fuel →
      (∀ j byte, end_ ≤ j → j < z → ptr[j]? = some byte →
        byte ≠ 0 ∧ ¬ (0x1 ≤ byte ∧ byte ≤ 0x1F)) →
      mangled_type_name_size_loop ptr fuel end_ = some z := by
  induction fuel with
  | zero => intro end_ _ h; omega
  | succ fuel ih =>
    intro end_ hle hfuel hplain
    simp only [mangled_type_name_size_loop]
    by_cases heq : end_ = z
    · subst heq
      simp [List.get?_eq_getElem?, hz]
    · have hlt : end_ < z := by omega
      have hzlen : z < ptr.length := by
        rcases List.getElem?_eq_some_iff.mp hz with ⟨h, -⟩
        exact h
      have hin : end_ < ptr.length := by omega
      have hget : ptr.get? end_ = some ptr[end_] := by
        rw [List.get?_eq_getElem?]
        exact List.getElem?_eq_getElem hin
      have hb := hplain end_ ptr[end_] (Nat.le_refl _) hlt (List.getElem?_eq_getElem hin)
      have hn4 : ¬ (0x1 ≤ ptr[end_] ∧ ptr[end_] ≤ 0x17) := by omega
      have hnp : ¬ (0x18 ≤ ptr[end_] ∧ ptr[end_] ≤ 0x1F) := by omega
      rw [hget]
      simp only [hb.1, if_false, hn4, hnp]
      exact ih (end_ + 1) (by omega) (by omega)
        (fun j byte hj1 hj2 hj3 => hplain j byte (by omega) hj2 hj3)

theorem mangled_type_name_size_of_well_formed (ptr : List Nat) (h : well_formed_name ptr) :
    ∃ len, mangled_type_name_size ptr = some len ∧ len < ptr.length := by
  induction h with
  | terminator rest =>
    exact ⟨0, mangled_type_name_size_terminator rest, by simp⟩
  | reference_4 tag payload rest h1 h2 hp _ ih =>
    obtain ⟨len, hlen, hlt⟩ := ih
    refine ⟨len + 5, ?_, ?_⟩
    · rw [mangled_type_name_size_reference_4 tag payload rest h1 h2 hp, hlen]
      rfl
    · simp only [List.length_cons, List.length_append, hp]
      omega
  | reference_pointer tag payload rest h1 h2 hp _ ih =>
    obtain ⟨len, hlen, hlt⟩ := ih
    refine ⟨len + (1 + sizeof_uintptr_t), ?_, ?_⟩
    · rw [mangled_type_name_size_reference_pointer tag payload rest h1 h2 hp, hlen]
      rfl
    · simp only [List.length_cons, List.length_append, hp]
      omega
  | plain byte rest h0 hnot _ ih =>
    obtain ⟨len, hlen, hlt⟩ := ih
    refine ⟨len + 1, ?_, ?_⟩
    · rw [mangled_type_name_size_plain byte rest h0 hnot, hlen]
      rfl
    · simp only [List.length_cons]
      omega

end length_scan_results

/-- C13: on every well-formed zero-terminated encoded name the length scan
returns.  Whenever it returns a length, the byte at that length is 0x00 and the
length is not shorter than the index of the first 0x00 byte; and when a 0x00
byte is preceded by no byte of [0x00,0x1F], the scan returns exactly the index
of that byte. -/
theorem mangled_type_name_size_terminator_index (ptr : List Nat) :
    (well_formed_name ptr → ∃ len, mangled_type_name_size ptr = some len)
    ∧ (∀ len, mangled_type_name_size ptr = some len →
        ptr[len]? = some 0
        ∧ ∀ first, (∀ j, j < first → ptr[j]? ≠ some 0) → first ≤ len)
    ∧ (∀ z, ptr[z]? = some 0 →
        (∀ j byte, j < z → ptr[j]? = some byte → byte ≠ 0 ∧ ¬ (0x1 ≤ byte ∧ byte ≤ 0x1F)) →
        mangled_type_name_size ptr = some z) := by
  refine ⟨?_, ?_, ?_⟩
  · intro h
    obtain ⟨len, hlen, -⟩ := mangled_type_name_size_of_well_formed ptr h
    exact ⟨len, hlen⟩
  · intro len h
    have hzero := (mangled_type_name_size_loop_stops_at_zero ptr _ 0 len h).1
    refine ⟨hzero, ?_⟩
    intro first hfirst
    by_contra hlt
    exact hfirst len (by omega) hzero
  · intro z hz hplain
    have hzlen : z < ptr.length := by
      rcases List.getElem?_eq_some_iff.mp hz with ⟨h, -⟩
      exact h
    exact mangled_type_name_size_loop_plain ptr z hz (ptr.length + 1) 0 (Nat.zero_le _)
      (by omega) (fun j byte _ hj2 hj3 => hplain j byte hj2 hj3)

theorem mangled_type_name_size_terminator_index_witness :
    mangled_type_name_size [0x53, 0x69, 0x00, 0x51] = some 2 :=
  (mangled_type_name_size_terminator_index [0x53, 0x69, 0x00, 0x51]).2.2 2 rfl
    (by
      intro j byte hj hget
      have h2 : j < 2 := hj
      interval_cases j
      · simp at hget
        omega
      · simp at hget
        omega)

/-- C14: the length scan skips embedded back-references without interpreting
them.  For a name that starts with a tag byte in [0x01,0x17] followed by 4
arbitrary payload bytes the result is 5 plus the result for the remainder; for
a tag byte in [0x18,0x1F] followed by pointer-width arbitrary payload bytes it
is 1 plus the pointer width plus the result for the remainder; any other
non-zero byte adds exactly 1 (in each case the scan of the whole fails when
the scan of the remainder does).  The bytes 0x05 `?` `?` `?` `?` `X` 0x00 give
6. -/
theorem mangled_type_name_size_skips_references :
    (∀ (tag : Nat) (payload rest : List Nat), 0x1 ≤ tag → tag ≤ 0x17 → payload.length = 4 →
      mangled_type_name_size (tag :: (payload ++ rest))
        = (mangled_type_name_size rest).map (fun len => len + 5))
    ∧ (∀ (tag : Nat) (payload rest : List Nat), 0x18 ≤ tag → tag ≤ 0x1F →
      payload.length = sizeof_uintptr_t →
      mangled_type_name_size (tag :: (payload ++ rest))
        = (mangled_type_name_size rest).map (fun len => len + (1 + sizeof_uintptr_t)))
    ∧ (∀ (byte : Nat) (rest : List Nat), byte ≠ 0 → ¬ (0x1 ≤ byte ∧ byte ≤ 0x1F) →
      mangled_type_name_size (byte :: rest)
        = (mangled_type_name_size rest).map (fun len => len + 1))
    ∧ mangled_type_name_size [0x05, 0x3F, 0x3F, 0x3F, 0x3F, 0x58, 0x00] = some 6 :=
  ⟨mangled_type_name_size_reference_4, mangled_type_name_size_reference_pointer,
    mangled_type_name_size_plain, by decide⟩

theorem mangled_type_name_size_skips_references_witness :
    mangled_type_name_size (0x05 :: ([0x00, 0x00, 0x00, 0x00] ++ [0x58, 0x00]))
      = (mangled_type_name_size [0x58, 0x00]).map (fun len => len + 5) :=
  mangled_type_name_size_skips_references.1 0x05 [0x00, 0x00, 0x00, 0x00] [0x58, 0x00]
    (by decide) (by decide) rfl

section length_scan_reads

theorem mangled_type_name_size_reads_loop_fuel (ptr : List Nat) (fuel : Nat) :
    ∀ (fuel1 end_ : Nat), ptr.length + 1 ≤ fuel + min end_ ptr.length → fuel ≤ fuel1 →
      mangled_type_name_size_reads_loop ptr fuel1 end_
        = mangled_type_name_size_reads_loop ptr fuel end_ := by
  induction fuel with
  | zero =>
    intro fuel1 end_ h _
    omega
  | succ fuel ih =>
    intro fuel1 end_ h hle
    obtain ⟨f, rfl⟩ : ∃ f, fuel1 = f + 1 := ⟨fuel1 - 1, by omega⟩
    simp only [mangled_type_name_size_reads_loop]
    cases hget : ptr.get? end_ with
    | none => rfl
    | some current =>
      have hin : end_ < ptr.length := by
        rw [List.get?_eq_getElem?] at hget
        rcases List.getElem?_eq_some_iff.mp hget with ⟨hlt, -⟩
        exact hlt
      simp only []
      rw [ih f (end_ + 1 + 4) (by omega) (by omega),
        ih f (end_ + 1 + sizeof_uintptr_t) (by omega) (by omega),
        ih f (end_ + 1) (by omega) (by omega)]

theorem mangled_type_name_size_reads_loop_shift (pre rest : List Nat) (fuel : Nat) :
    ∀ end_ : Nat,
      mangled_type_name_size_reads_loop (pre ++ rest) fuel (pre.length + end_)
        = (mangled_type_name_size_reads_loop rest fuel end_).map (fun i => i + pre.length) := by
  induction fuel with
  | zero => intro end_; rfl
  | succ fuel ih =>
    intro end_
    have hget : (pre ++ rest).get? (pre.length + end_) = rest.get? end_ := by
      simp [List.get?_eq_getElem?, List.getElem?_append_right]
    simp only [mangled_type_name_size_reads_loop, hget, List.map_cons]
    rw [Nat.add_comm pre.length end_]
    congr 1
    cases rest.get? end_ with
    | none => rfl
    | some current =>
      simp only []
      have h4 := ih (end_ + 1 + 4)
      have hp := ih (end_ + 1 + sizeof_uintptr_t)
      have h1 := ih (end_ + 1)
      have e4 : end_ + pre.length + 1 + 4 = pre.length + (end_ + 1 + 4) := by omega
      have ep : end_ + pre.length + 1 + sizeof_uintptr_t
          = pre.length + (end_ + 1 + sizeof_uintptr_t) := by omega
      have e1 : end_ + pre.length + 1 = pre.length + (end_ + 1) := by omega
      rw [e4, ep, e1, h4, hp, h1]
      by_cases h0 : current = 0
      · simp [h0]
      · simp only [h0, if_false]
        split
        · rfl
        · split <;> rfl

theorem mangled_type_name_size_reads_cons_skip (byte : Nat) (payload rest : List Nat)
    (fuel : Nat) (hfuel : rest.length < fuel) :
    mangled_type_name_size_reads_loop (byte :: (payload ++ rest)) fuel (0 + 1 + payload.length)
      = (mangled_type_name_size_reads rest).map (fun i => i + (1 + payload.length)) := by
  have hshift := mangled_type_name_size_reads_loop_shift (byte :: payload) rest fuel 0
  simp only [List.cons_append, List.length_cons, Nat.add_zero] at hshift
  have hidx : 0 + 1 + payload.length = payload.length + 1 := by omega
  have hsum : 1 + payload.length = payload.length + 1 := by omega
  rw [hsum, hshift]
  have hf := mangled_type_name_size_reads_loop_fuel rest (rest.length + 1) fuel 0 (by omega)
    (by omega)
  rw [hf]
  rfl

theorem mangled_type_name_size_reads_terminator (rest : List Nat) :
    mangled_type_name_size_reads (0 :: rest) = [0] := by
  unfold mangled_type_name_size_reads
  rw [mangled_type_name_size_reads_loop]
  simp only [List.get?_cons_zero, if_true]

theorem mangled_type_name_size_reads_reference_4 (tag : Nat) (payload rest : List Nat)
    (h1 : 0x1 ≤ tag) (h2 : tag ≤ 0x17) (hp : payload.length = 4) :
    mangled_type_name_size_reads (tag :: (payload ++ rest))
      = 0 :: (mangled_type_name_size_reads rest).map (fun i => i + 5) := by
  have h0 : tag ≠ 0 := by omega
  have hskip := mangled_type_name_size_reads_cons_skip tag payload rest
    (tag :: (payload ++ rest)).length (by simp; omega)
  rw [hp] at hskip
  unfold mangled_type_name_size_reads
  rw [mangled_type_name_size_reads_loop]
  simp only [List.get?_cons_zero, h0, if_false, h1, h2, and_self, if_true]
  rw [hskip]
  rfl

theorem mangled_type_name_size_reads_reference_pointer (tag : Nat) (payload rest : List Nat)
    (h1 : 0x18 ≤ tag) (h2 : tag ≤ 0x1F) (hp : payload.length = sizeof_uintptr_t) :
    mangled_type_name_size_reads (tag :: (payload ++ rest))
      = 0 :: (mangled_type_name_size_reads rest).map (fun i => i + (1 + sizeof_uintptr_t)) := by
  have h0 : tag ≠ 0 := by omega
  have hnot : ¬ (0x1 ≤ tag ∧ tag ≤ 0x17) := by omega
  have hskip := mangled_type_name_size_reads_cons_skip tag payload rest
    (tag :: (payload ++ rest)).length (by simp; omega)
  rw [hp] at hskip
  unfold mangled_type_name_size_reads
  rw [mangled_type_name_size_reads_loop]
  simp only [List.get?_cons_zero, h0, if_false, hnot, h1, h2, and_self, if_true]
  rw [hskip]
  rfl

theorem mangled_type_name_size_reads_plain (byte : Nat) (rest : List Nat)
    (h0 : byte ≠ 0) (hnot : ¬ (0x1 ≤ byte ∧ byte ≤ 0x1F)) :
    mangled_type_name_size_reads (byte :: rest)
      = 0 :: (mangled_type_name_size_reads rest).map (fun i => i + 1) := by
  have hn4 : ¬ (0x1 ≤ byte ∧ byte ≤ 0x17) := by omega
  have hnp : ¬ (0x18 ≤ byte ∧ byte ≤ 0x1F) := by omega
  have hskip := mangled_type_name_size_reads_cons_skip byte [] rest (byte :: rest).length
    (by simp)
  simp only [List.nil_append, List.length_nil, Nat.add_zero] at hskip
  unfold mangled_type_name_size_reads
  rw [mangled_type_name_size_reads_loop]
  simp only [List.get?_cons_zero, h0, if_false, hn4, hnp]
  rw [hskip]
  rfl

theorem mangled_type_name_size_reads_of_well_formed (ptr : List Nat)
    (h : well_formed_name ptr) :
    ∀ i ∈ mangled_type_name_size_reads ptr, i < ptr.length := by
  induction h with
  | terminator rest =>
    intro i hi
    rw [mangled_type_name_size_reads_terminator] at hi
    simp only [List.mem_singleton] at hi
    subst hi
    simp
  | reference_4 tag payload rest h1 h2 hp _ ih =>
    intro i hi
    rw [mangled_type_name_size_reads_reference_4 tag payload rest h1 h2 hp] at hi
    simp only [List.mem_cons, List.mem_map] at hi
    rcases hi with rfl | ⟨j, hj, rfl⟩
    · simp
    · have := ih j hj
      simp only [List.length_cons, List.length_append, hp]
      omega
  | reference_pointer tag payload rest h1 h2 hp _ ih =>
    intro i hi
    rw [mangled_type_name_size_reads_reference_pointer tag payload rest h1 h2 hp] at hi
    simp only [List.mem_cons, List.mem_map] at hi
    rcases hi with rfl | ⟨j, hj, rfl⟩
    · simp
    · have := ih j hj
      simp only [List.length_cons, List.length_append, hp]
      omega
  | plain byte rest h0 hnot _ ih =>
    intro i hi
    rw [mangled_type_name_size_reads_plain byte rest h0 hnot] at hi
    simp only [List.mem_cons, List.mem_map] at hi
    rcases hi with rfl | ⟨j, hj, rfl⟩
    · simp
    · have := ih j hj
      simp only [List.length_cons]
      omega

theorem mangled_type_name_size_none_iff_loop (ptr : List Nat) (fuel : Nat) :
    ∀ end_ : Nat, ptr.length + 1 ≤ fuel + min end_ ptr.length →
      (mangled_type_name_size_loop ptr fuel end_ = none
        ↔ ∃ i ∈ mangled_type_name_size_reads_loop ptr fuel end_, ptr.length ≤ i) := by
  induction fuel with
  | zero => intro end_ h; omega
  | succ fuel ih =>
    intro end_ h
    simp only [mangled_type_name_size_loop, mangled_type_name_size_reads_loop]
    cases hget : ptr.get? end_ with
    | none =>
      have hout : ptr.length ≤ end_ := by
        rw [List.get?_eq_getElem?] at hget
        exact List.getElem?_eq_none_iff.mp hget
      simp [hout]
    | some current =>
      have hin : end_ < ptr.length := by
        rw [List.get?_eq_getElem?] at hget
        rcases List.getElem?_eq_some_iff.mp hget with ⟨hlt, -⟩
        exact hlt
      have hnot : ¬ ptr.length ≤ end_ := by omega
      simp only [List.mem_cons, exists_eq_or_imp, hnot, false_or]
      by_cases h0 : current = 0
      · simp [h0]
      · simp only [h0, if_false]
        split
        · exact ih _ (by omega)
        · split
          · exact ih _ (by omega)
          · exact ih _ (by omega)

theorem mangled_type_name_size_none_iff (ptr : List Nat) :
    mangled_type_name_size ptr = none
      ↔ ∃ i ∈ mangled_type_name_size_reads ptr, ptr.length ≤ i :=
  mangled_type_name_size_none_iff_loop ptr (ptr.length + 1) 0 (by omega)

end length_scan_reads

/-- C15, as stated, fails: in the three-byte buffer `A` 0x05 0x00, whose last
byte is the terminator, the tag byte 0x05 stands one byte before the end; the
scan reads index 6, beyond the end of the buffer, and returns no length inside
the buffer. -/
theorem mangled_type_name_size_reads_past_terminator :
    ¬ (∀ ptr : List Nat, ptr.getLast? = some 0 →
        (∀ i ∈ mangled_type_name_size_reads ptr, i < ptr.length)
        ∧ ∃ len, mangled_type_name_size ptr = some len ∧ len ≤ ptr.length - 1) := by
  intro h
  have h1 := (h [0x41, 0x05, 0x00] rfl).1 6 (by decide)
  exact absurd h1 (by decide)

/-- C15 (amended): for every buffer that holds a well-formed encoded name, each
back-reference tag followed inside the buffer by its whole payload and the
name closed by its 0x00 terminator, the length scan reads no byte at an index
beyond the end of the buffer and returns a length no greater than the index of
the last byte. -/
theorem mangled_type_name_size_in_bounds (ptr : List Nat) (h : well_formed_name ptr) :
    (∀ i ∈ mangled_type_name_size_reads ptr, i < ptr.length)
    ∧ ∃ len, mangled_type_name_size ptr = some len ∧ len ≤ ptr.length - 1 := by
  refine ⟨mangled_type_name_size_reads_of_well_formed ptr h, ?_⟩
  obtain ⟨len, hlen, hlt⟩ := mangled_type_name_size_of_well_formed ptr h
  exact ⟨len, hlen, by omega⟩

theorem mangled_type_name_size_in_bounds_witness :
    well_formed_name (0x05 :: ([0x58, 0x00, 0x58, 0x58] ++ [0x58, 0x00]))
    ∧ (∀ i ∈ mangled_type_name_size_reads (0x05 :: ([0x58, 0x00, 0x58, 0x58] ++ [0x58, 0x00])),
        i < (0x05 :: ([0x58, 0x00, 0x58, 0x58] ++ [0x58, 0x00])).length)
    ∧ ∃ len, mangled_type_name_size (0x05 :: ([0x58, 0x00, 0x58, 0x58] ++ [0x58, 0x00]))
          = some len
        ∧ len ≤ (0x05 :: ([0x58, 0x00, 0x58, 0x58] ++ [0x58, 0x00])).length - 1 :=
  have hwf : well_formed_name (0x05 :: ([0x58, 0x00, 0x58, 0x58] ++ [0x58, 0x00])) :=
    well_formed_name.reference_4 0x05 [0x58, 0x00, 0x58, 0x58] [0x58, 0x00] (by decide)
      (by decide) rfl
      (well_formed_name.plain 0x58 [0x00] (by decide) (by decide)
        (well_formed_name.terminator []))
  ⟨hwf, mangled_type_name_size_in_bounds _ hwf⟩

section bits

theorem shiftRight_and (x m i : Nat) : (x &&& m) >>> i = (x >>> i) &&& (m >>> i) := by
  apply Nat.eq_of_testBit_eq
  intro j
  simp [Nat.testBit_shiftRight, Nat.testBit_and]

theorem and_two_pow_eq_zero_iff (x n : Nat) : x &&& 2 ^ n = 0 ↔ x / 2 ^ n % 2 = 0 := by
  have hbit : x.testBit n = decide (x / 2 ^ n % 2 = 1) := Nat.testBit_to_div_mod
  constructor
  · intro h
    have h1 : (x &&& 2 ^ n).testBit n = false := by rw [h]; simp
    rw [Nat.testBit_and, Nat.testBit_two_pow_self, Bool.and_true, hbit] at h1
    have h2 : ¬ (x / 2 ^ n % 2 = 1) := by simpa using h1
    omega
  · intro h
    have h1 : x.testBit n = false := by
      rw [hbit]
      simp [h]
    apply Nat.eq_of_testBit_eq
    intro i
    rw [Nat.testBit_and, Nat.testBit_two_pow]
    by_cases hi : n = i
    · subst hi
      simp [h1]
    · simp [hi]

theorem special_protocol_field (flags : Nat) :
    (flags &&& existential_type_metadata.special_protocol_mask)
        >>> existential_type_metadata.special_protocol_shift
      = flags / 2 ^ 24 % 2 ^ 6 := by
  have hmask : existential_type_metadata.special_protocol_mask
      >>> existential_type_metadata.special_protocol_shift = 2 ^ 6 - 1 := by decide
  rw [shiftRight_and, hmask, Nat.and_pow_two_sub_one_eq_mod, Nat.shiftRight_eq_div_pow]
  rfl

theorem non_class_constraint_bit (flags : Nat) :
    flags &&& existential_type_metadata.non_class_constraint_flag = 0
      ↔ flags / 2 ^ 31 % 2 = 0 :=
  and_two_pow_eq_zero_iff flags 31

theorem and_mask_eq_mod (x : Nat) : x &&& 0x00ffffff = x % 2 ^ 24 :=
  Nat.and_pow_two_sub_one_eq_mod x 24

end bits

/-- C16: for an enum or optional handle with reflection metadata whose
payload-case count, the low 24 bits of the packed payload word, is zero,
`metadata::visit` returns `unknown_result()` and makes no call on the visitor,
whatever the high byte of the packed word, the empty-case count and the case
records are. -/
theorem visit_enum_without_payload {σ : Type} (rt : Runtime) (this : metadata)
    (visitor : metadata_visitor σ) (s : σ) (d : nominal_type_descriptor)
    (fd : field_descriptor)
    (h_kind : this.canonical_kind = kind_enum ∨ this.canonical_kind = kind_optional)
    (h_desc : this.nominal_descriptor = some d) (h_refl : d.reflection_metadata = some fd)
    (h_zero : d.enum_type_payload_cases % 2 ^ 24 = 0) :
    this.visit rt visitor.recording (s, []) = (visitor.unknown_result s, (s, [])) := by
  have hv : this.visit rt visitor.recording (s, [])
      = this.visit_enum visitor.recording (s, []) := by
    rcases h_kind with h | h <;> simp +decide [metadata.visit, h]
  have hpay : d.enum_type_payload_cases &&& 0x00ffffff = 0 := by
    rw [and_mask_eq_mod]
    exact h_zero
  rw [hv]
  simp [metadata.visit_enum, h_desc, h_refl, hpay, metadata_visitor.recording]

theorem visit_enum_without_payload_witness :
    ((sample.enum_no_payload.canonical_kind = kind_enum
        ∨ sample.enum_no_payload.canonical_kind = kind_optional)
      ∧ sample.enum_no_payload.nominal_descriptor = some sample.descriptor_no_payload.nominal
      ∧ sample.descriptor_no_payload.nominal.enum_type_payload_cases % 2 ^ 24 = 0)
    ∧ sample.enum_no_payload.visit sample.runtime
        (metadata_visitor.base sample.runtime : metadata_visitor Unit).recording ((), [])
      = (false, ((), [])) :=
  ⟨⟨Or.inl (by decide), rfl, by decide⟩,
    visit_enum_without_payload sample.runtime sample.enum_no_payload
      (metadata_visitor.base sample.runtime : metadata_visitor Unit) ()
      sample.descriptor_no_payload.nominal { num_fields := 2, records := sample.records_ab }
      (Or.inl (by decide)) rfl rfl (by decide)⟩

/-- C17: for a heap local-capture box whose capture descriptor has
`num_metadata_sources > 0`, or which has no capture descriptor, `visit_heap`
with the local bit set returns `unknown_result()` and makes no `visit_element`
call, whatever the first-capture offset, the bindings and the captures are. -/
theorem visit_heap_locals_with_metadata_sources {σ : Type} (rt : Runtime) (this : metadata)
    (visitor : metadata_visitor σ) (mask : Nat) (s : σ)
    (h_kind : this.canonical_kind = kind_heap_local_variable)
    (h_mask : mask &&& heap_kind_mask_local ≠ 0)
    (h_desc : this.header.heap_local.descriptor = none
      ∨ ∃ desc, this.header.heap_local.descriptor = some desc ∧ 0 < desc.num_metadata_sources) :
    this.visit_heap rt visitor.recording mask (s, []) = (visitor.unknown_result s, (s, [])) := by
  have hv : this.visit_heap rt visitor.recording mask (s, [])
      = this.visit_heap_locals rt visitor.recording (s, []) := by
    simp +decide [metadata.visit_heap, h_kind, h_mask]
  rw [hv]
  rcases h_desc with hnone | ⟨desc, hsome, hpos⟩
  · simp [metadata.visit_heap_locals, hnone, metadata_visitor.recording]
  · have hne : desc.num_metadata_sources ≠ 0 := by omega
    simp [metadata.visit_heap_locals, hsome, hne, metadata_visitor.recording]

theorem visit_heap_locals_with_metadata_sources_witness :
    (sample.box_with_metadata_source.canonical_kind = kind_heap_local_variable
      ∧ heap_kind_all &&& heap_kind_mask_local ≠ 0)
    ∧ sample.box_with_metadata_source.visit_heap sample.runtime
        (metadata_visitor.base sample.runtime : metadata_visitor Unit).recording heap_kind_all
        ((), [])
      = (false, ((), [])) :=
  ⟨⟨by decide, by decide⟩,
    visit_heap_locals_with_metadata_sources sample.runtime sample.box_with_metadata_source
      (metadata_visitor.base sample.runtime : metadata_visitor Unit) heap_kind_all ()
      (by decide) (by decide)
      (Or.inr ⟨{ num_capture_types := 1, num_metadata_sources := 1, num_bindings := 1,
                 capture_type := fun _ => some sample.name_Si }, rfl, by decide⟩)⟩

/-- C18: for a heap generic box, `visit_heap` with the generic bit set returns
`unknown_result()` without a call on the visitor when the boxed-type handle is
null; otherwise it makes exactly one call, `visit_element` with the boxed type,
ownership strong and the offset `(base + a) & ~a` in `size_t` arithmetic, `base`
being the box's declared offset and `a` the boxed type's alignment mask, and
returns the result of that call. -/
theorem visit_heap_generic_box {σ : Type} (rt : Runtime) (this : metadata)
    (visitor : metadata_visitor σ) (mask : Nat) (s : σ)
    (h_kind : this.canonical_kind = kind_heap_generic_local_variable)
    (h_mask : mask &&& heap_kind_mask_generic ≠ 0) :
    (this.boxed_type = none →
      this.visit_heap rt visitor.recording mask (s, []) = (visitor.unknown_result s, (s, [])))
    ∧ (∀ type, this.boxed_type = some type →
      this.visit_heap rt visitor.recording mask (s, [])
        = ((visitor.visit_element type ref_kind.strong
              (to_size_t (this.header.generic_box_offset + type.alignment_mask)
                &&& bitwise_not_size_t type.alignment_mask) s).1,
            ((visitor.visit_element type ref_kind.strong
              (to_size_t (this.header.generic_box_offset + type.alignment_mask)
                &&& bitwise_not_size_t type.alignment_mask) s).2,
              [visit_event.element type ref_kind.strong
                (to_size_t (this.header.generic_box_offset + type.alignment_mask)
                  &&& bitwise_not_size_t type.alignment_mask)]))) := by
  have hv : this.visit_heap rt visitor.recording mask (s, [])
      = this.visit_heap_box visitor.recording (s, []) := by
    simp +decide [metadata.visit_heap, h_kind, h_mask]
  rw [hv]
  constructor
  · intro hnone
    simp [metadata.visit_heap_box, hnone, metadata_visitor.recording]
  · intro type hsome
    simp [metadata.visit_heap_box, hsome, metadata_visitor.recording]

theorem visit_heap_generic_box_witness :
    (sample.generic_box_String.canonical_kind = kind_heap_generic_local_variable
      ∧ heap_kind_mask_generic &&& heap_kind_mask_generic ≠ 0)
    ∧ sample.generic_box_String.visit_heap sample.runtime
        (metadata_visitor.base sample.runtime : metadata_visitor Unit).recording
        heap_kind_mask_generic ((), [])
      = (false, ((), [visit_event.element sample.type_String ref_kind.strong 16])) :=
  ⟨⟨by decide, by decide⟩,
    (visit_heap_generic_box sample.runtime sample.generic_box_String
      (metadata_visitor.base sample.runtime : metadata_visitor Unit) heap_kind_mask_generic ()
      (by decide) (by decide)).2 sample.type_String rfl⟩

/-- C19: for every existential metadata and every container, when the
representation is class_type `project_value` returns the address of the
container's pointer slot, the container's own address, whatever pointer the
slot holds; when the representation is unsupported, `project_value` and
`dynamic_type` both return null for every container, whatever it holds. -/
theorem existential_projection (objc : ObjectRuntime) (this : existential_type_metadata)
    (container : existential_container) :
    (existential_type_metadata.representation this
        = existential_type_metadata.representation_type.class_type →
      existential_type_metadata.project_value this container = some container.addr
      ∧ ∀ value, existential_type_metadata.project_value this { container with value := value }
          = some container.addr)
    ∧ (existential_type_metadata.representation this
        = existential_type_metadata.representation_type.unsupported →
      existential_type_metadata.project_value this container = none
      ∧ existential_type_metadata.dynamic_type objc this container = none) := by
  constructor
  · intro h
    simp [existential_type_metadata.project_value, h]
  · intro h
    simp [existential_type_metadata.project_value, existential_type_metadata.dynamic_type, h]

theorem existential_projection_witness :
    (existential_type_metadata.representation sample.existential_class
        = existential_type_metadata.representation_type.class_type
      ∧ existential_type_metadata.project_value sample.existential_class sample.container
        = some 0xB000)
    ∧ (existential_type_metadata.representation sample.existential_error
        = existential_type_metadata.representation_type.unsupported
      ∧ existential_type_metadata.project_value sample.existential_error sample.container
        = none
      ∧ existential_type_metadata.dynamic_type sample.object_runtime sample.existential_error
          sample.container = none) :=
  ⟨⟨by decide,
      ((existential_projection sample.object_runtime sample.existential_class
        sample.container).1 (by decide)).1⟩,
    ⟨by decide,
      (existential_projection sample.object_runtime sample.existential_error
        sample.container).2 (by decide)⟩⟩

/-- C20: `representation()` is a function of the flags word alone.  It is
unsupported exactly when the special-protocol field, flag bits 24 to 29, is
nonzero; otherwise it is class_type exactly when the non-class-constraint flag,
bit 31, is clear and opaque exactly when that flag is set.  Two flags words
that agree on bits 24 to 29 and on bit 31 have the same representation, so the
witness-table count (the low 24 bits) and the has-superclass flag (bit 30)
never change it; `is_class_bound()` is true exactly in the class_type case. -/
theorem existential_representation (this : existential_type_metadata) :
    (existential_type_metadata.representation this
        = existential_type_metadata.representation_type.unsupported
      ↔ this.flags / 2 ^ 24 % 2 ^ 6 ≠ 0)
    ∧ (this.flags / 2 ^ 24 % 2 ^ 6 = 0 →
      (existential_type_metadata.representation this
          = existential_type_metadata.representation_type.class_type
        ↔ this.flags / 2 ^ 31 % 2 = 0)
      ∧ (existential_type_metadata.representation this
          = existential_type_metadata.representation_type.opaque_
        ↔ this.flags / 2 ^ 31 % 2 = 1))
    ∧ (∀ other : existential_type_metadata,
      other.flags / 2 ^ 24 % 2 ^ 6 = this.flags / 2 ^ 24 % 2 ^ 6 →
      other.flags / 2 ^ 31 % 2 = this.flags / 2 ^ 31 % 2 →
      existential_type_metadata.representation other
        = existential_type_metadata.representation this)
    ∧ (existential_type_metadata.is_class_bound this = true
      ↔ existential_type_metadata.representation this
        = existential_type_metadata.representation_type.class_type) := by
  have hrepr : ∀ e : existential_type_metadata,
      existential_type_metadata.representation e
        = if e.flags / 2 ^ 24 % 2 ^ 6 ≠ 0 then
            existential_type_metadata.representation_type.unsupported
          else if e.flags / 2 ^ 31 % 2 = 0 then
            existential_type_metadata.representation_type.class_type
          else existential_type_metadata.representation_type.opaque_ := by
    intro e
    simp only [existential_type_metadata.representation, special_protocol_field,
      non_class_constraint_bit]
  refine ⟨?_, ?_, ?_, ?_⟩
  · rw [hrepr]
    by_cases h : this.flags / 2 ^ 24 % 2 ^ 6 = 0
    · rw [if_neg (not_not.mpr h)]
      constructor
      · intro hh
        split at hh <;> cases hh
      · intro hh
        exact absurd h hh
    · rw [if_pos h]
      exact ⟨fun _ => h, fun _ => rfl⟩
  · intro h
    rw [hrepr, if_neg (not_not.mpr h)]
    have hmod : this.flags / 2 ^ 31 % 2 = 0 ∨ this.flags / 2 ^ 31 % 2 = 1 := by omega
    rcases hmod with h31 | h31
    · rw [if_pos h31]
      exact ⟨⟨fun _ => h31, fun _ => rfl⟩, ⟨fun hh => (by cases hh), fun hh => (by omega)⟩⟩
    · have hne : ¬ this.flags / 2 ^ 31 % 2 = 0 := by omega
      rw [if_neg hne]
      exact ⟨⟨fun hh => (by cases hh), fun hh => (by omega)⟩, ⟨fun _ => h31, fun _ => rfl⟩⟩
  · intro other h1 h2
    rw [hrepr, hrepr, h1, h2]
  · simp [existential_type_metadata.is_class_bound]

theorem existential_representation_witness :
    (sample.existential_class.flags / 2 ^ 24 % 2 ^ 6 = 0
      ∧ sample.existential_class.flags / 2 ^ 31 % 2 = 0)
    ∧ existential_type_metadata.representation sample.existential_class
      = existential_type_metadata.representation_type.class_type :=
  ⟨⟨by decide, by decide⟩,
    (((existential_representation sample.existential_class).2.1 (by decide)).1).2
      (by decide)⟩

/-- C21: `canonical_kind` returns class for every kind tag greater than
`kind_last_enumerated` (0x7FF) and the tag itself for every tag up to and
including 0x7FF; applied to its own result it returns it again; and `visit`,
`visit_heap`, `descriptor()` and `SPMETypeApplyFields` take, for a handle whose
tag is greater than 0x7FF, the same path as for a handle whose tag is class. -/
theorem canonical_kind_large_tag {σ : Type} (rt : Runtime) (this : metadata)
    (visitor : metadata_visitor σ) (mask flags : Nat) (callback : Callback σ) (s : σ) :
    (this.kind > kind_last_enumerated → this.canonical_kind = kind_class)
    ∧ (this.kind ≤ kind_last_enumerated → this.canonical_kind = this.kind)
    ∧ (∀ other : metadata, other.kind = this.canonical_kind →
        other.canonical_kind = this.canonical_kind)
    ∧ (this.kind = kind_class ∨ this.kind > kind_last_enumerated →
        this.visit rt visitor s = visitor.visit_class this s
        ∧ this.visit_heap rt visitor mask s
          = (if mask &&& heap_kind_mask_class ≠ 0 then visit_heap_class rt visitor this s
             else (visitor.unknown_result s, s))
        ∧ this.descriptor
          = (match this.swift_metadata with
             | some m => m.header.cls.descriptor
             | none => none)
        ∧ SPMETypeApplyFields rt this flags callback s
          = (if flags &&& SPMETypeApplyClassType ≠ 0 then
               visit_heap_class rt (SPMETypeApplyFields.Visitor rt callback flags) this s
             else (false, s))) := by
  refine ⟨?_, ?_, ?_, ?_⟩
  · intro h
    simp [metadata.canonical_kind, h]
  · intro h
    have : ¬ this.kind > kind_last_enumerated := by omega
    simp [metadata.canonical_kind, this]
  · intro other h
    unfold metadata.canonical_kind at h ⊢
    by_cases hk : this.kind > kind_last_enumerated
    · simp only [hk, if_true] at h ⊢
      rw [h]
      decide
    · simp only [hk, if_false] at h ⊢
      rw [h]
      simp [hk]
  · intro h
    have hck : this.canonical_kind = kind_class := by
      rcases h with h | h
      · simp +decide [metadata.canonical_kind, h]
      · simp [metadata.canonical_kind, h]
    refine ⟨?_, ?_, ?_, ?_⟩
    · simp [metadata.visit, hck]
    · simp [metadata.visit_heap, hck]
    · simp +decide [metadata.descriptor, hck]
    · simp +decide only [SPMETypeApplyFields, hck, metadata.visit_heap, if_true, if_false,
        or_self, ne_eq, not_not]
      by_cases hf : flags &&& SPMETypeApplyClassType = 0
      · simp [hf]
      · simp [hf]

theorem canonical_kind_large_tag_witness :
    sample.class_Holder.kind > kind_last_enumerated
    ∧ sample.class_Holder.canonical_kind = kind_class :=
  ⟨by decide,
    (canonical_kind_large_tag sample.runtime sample.class_Holder sample.accepting_visitor 0 0
      sample.accept_all ()).1 (by decide)⟩

/-- C23: for every struct handle, `metadata::visit` returns `unknown_result()`
and makes no call on the visitor when the handle has no nominal context
descriptor, when the descriptor's reflection metadata is absent, or when the
descriptor's field-offset-vector position is zero, whatever the declared field
count is; a struct that passes the three checks and declares zero fields
returns true, again without a call. -/
theorem visit_struct_checks {σ : Type} (rt : Runtime) (this : metadata)
    (visitor : metadata_visitor σ) (s : σ) (h_kind : this.canonical_kind = kind_struct) :
    (this.nominal_descriptor = none →
      this.visit rt visitor.recording (s, []) = (visitor.unknown_result s, (s, [])))
    ∧ (∀ d, this.nominal_descriptor = some d → d.reflection_metadata = none →
      this.visit rt visitor.recording (s, []) = (visitor.unknown_result s, (s, [])))
    ∧ (∀ d, this.nominal_descriptor = some d →
      d.struct_type_field_offset_vector_offset = 0 →
      this.visit rt visitor.recording (s, []) = (visitor.unknown_result s, (s, [])))
    ∧ (∀ d fd, this.nominal_descriptor = some d → d.reflection_metadata = some fd →
      d.struct_type_field_offset_vector_offset ≠ 0 → d.struct_type_field_count = 0 →
      this.visit rt visitor.recording (s, []) = (true, (s, []))) := by
  have hv : this.visit rt visitor.recording (s, [])
      = this.visit_struct visitor.recording (s, []) := by
    simp +decide [metadata.visit, h_kind]
  rw [hv]
  refine ⟨?_, ?_, ?_, ?_⟩
  · intro hnone
    simp [metadata.visit_struct, hnone, metadata_visitor.recording]
  · intro d hd hr
    simp [metadata.visit_struct, hd, hr, metadata_visitor.recording]
  · intro d hd hf
    cases hr : d.reflection_metadata <;>
      simp [metadata.visit_struct, hd, hr, hf, metadata_visitor.recording]
  · intro d fd hd hr hf hc
    simp [metadata.visit_struct, hd, hr, hf, hc, for_each_index]

theorem visit_struct_checks_witness :
    sample.type_Int.canonical_kind = kind_struct
    ∧ sample.type_Int.nominal_descriptor = none
    ∧ sample.type_Int.visit sample.runtime
        (metadata_visitor.base sample.runtime : metadata_visitor Unit).recording ((), [])
      = (false, ((), [])) :=
  ⟨by decide, rfl,
    (visit_struct_checks sample.runtime sample.type_Int
      (metadata_visitor.base sample.runtime : metadata_visitor Unit) () (by decide)).1 rfl⟩

section superclass_link

variable {σ : Type}

theorem visit_heap_class_not_native (rt : Runtime) (visitor : metadata_visitor σ)
    (this : metadata) (s : σ) (h : this.is_swift_class = false) :
    visit_heap_class rt visitor this s = (visitor.unknown_result s, s) := by
  cases this with
  | mk header superclass elements boxed_type =>
    rw [visit_heap_class]
    simp [metadata.swift_metadata, h]

theorem visit_heap_class_declared_superclass (rt : Runtime) (visitor : metadata_visitor σ)
    (header : metadata_header) (s_cls : metadata) (elements : Nat → Option metadata × Nat)
    (boxed_type : Option metadata) (desc : context_descriptor) (name : encoded_name) (s : σ)
    (h_native : (mk header (some s_cls) elements boxed_type).is_swift_class = true)
    (h_desc : header.cls.descriptor = some desc)
    (h_super : desc.cls.superclass_type = some name) :
    visit_heap_class rt visitor (mk header (some s_cls) elements boxed_type) s
      = if s_cls.canonical_kind ≠ kind_class then (visitor.unknown_result s, s)
        else
          match visit_heap_class rt visitor s_cls s with
          | (false, s1) => (false, s1)
          | (true, s1) =>
            visit_heap_class_fields rt (mk header (some s_cls) elements boxed_type) desc
              visitor s1 := by
  rw [visit_heap_class]
  simp only [metadata.swift_metadata, h_native, if_true, h_desc, h_super]

end superclass_link

/-- C22, as stated, fails: `Holder` is a native class whose descriptor declares
a superclass and whose superclass link is the Objective-C class `NSObject`, a
class that is not flagged native.  With a visitor whose `unknown_result()` is
true the heap-class walk goes on to `Holder`'s own field `y` and visits it. -/
theorem visit_heap_class_continues_after_foreign_superclass :
    ¬ (∀ (rt : Runtime) (visitor : metadata_visitor Unit) (this s_cls : metadata)
        (desc : context_descriptor) (name : encoded_name),
        this.is_swift_class = true → this.header.cls.descriptor = some desc →
        desc.cls.superclass_type = some name → this.superclass = some s_cls →
        (s_cls.canonical_kind ≠ kind_class ∨ s_cls.is_swift_class = false) →
        visit_heap_class rt visitor.recording this ((), [])
          = (visitor.unknown_result (), ((), []))) := by
  intro h
  have h1 := h sample.runtime_objc
    (SPMETypeApplyFields.Visitor sample.runtime_objc sample.accept_all
      SPMETypeApplyIgnoreUnknown)
    sample.class_Holder sample.class_NSObject sample.descriptor_Holder sample.name_SS
    (by decide) rfl rfl rfl (Or.inr (by decide))
  have h2 : visit_heap_class sample.runtime_objc
      (SPMETypeApplyFields.Visitor sample.runtime_objc sample.accept_all
        SPMETypeApplyIgnoreUnknown).recording sample.class_Holder ((), [])
      = (true, ((), [visit_event.field sample.class_Holder (sample.records_y 0) 8])) := rfl
  rw [h2] at h1
  simp at h1

/-- C22 (amended): for a native class whose descriptor declares a superclass
and whose superclass link is present, the heap-class walk returns
`unknown_result()` and visits no field of the subclass for every visitor when
the superclass's canonical kind is not class, and for every visitor whose
`unknown_result()` is false when the superclass is a class that is not flagged
native; when `unknown_result()` is true in the latter case the superclass
contributes no visit and the walk continues with the subclass's own fields. -/
theorem visit_heap_class_foreign_superclass {σ : Type} (rt : Runtime)
    (visitor : metadata_visitor σ) (this s_cls : metadata) (desc : context_descriptor)
    (name : encoded_name) (s : σ)
    (h_native : this.is_swift_class = true) (h_desc : this.header.cls.descriptor = some desc)
    (h_super : desc.cls.superclass_type = some name) (h_link : this.superclass = some s_cls) :
    (s_cls.canonical_kind ≠ kind_class →
      visit_heap_class rt visitor.recording this (s, [])
        = (visitor.unknown_result s, (s, [])))
    ∧ (s_cls.canonical_kind = kind_class → s_cls.is_swift_class = false →
      visitor.unknown_result s = false →
      visit_heap_class rt visitor.recording this (s, []) = (false, (s, [])))
    ∧ (s_cls.canonical_kind = kind_class → s_cls.is_swift_class = false →
      visitor.unknown_result s = true →
      visit_heap_class rt visitor.recording this (s, [])
        = visit_heap_class_fields rt this desc visitor.recording (s, [])) := by
  cases this with
  | mk header superclass elements boxed_type =>
    have hl : superclass = some s_cls := h_link
    subst hl
    have hd : header.cls.descriptor = some desc := h_desc
    have hstep := visit_heap_class_declared_superclass rt visitor.recording header s_cls
      elements boxed_type desc name (s, []) h_native hd h_super
    refine ⟨?_, ?_, ?_⟩
    · intro hk
      rw [hstep, if_pos hk]
      rfl
    · intro hk hn hu
      rw [hstep, if_neg (not_not.mpr hk),
        visit_heap_class_not_native rt visitor.recording s_cls (s, []) hn]
      simp [metadata_visitor.recording, hu]
    · intro hk hn hu
      rw [hstep, if_neg (not_not.mpr hk),
        visit_heap_class_not_native rt visitor.recording s_cls (s, []) hn]
      simp [metadata_visitor.recording, hu]

theorem visit_heap_class_foreign_superclass_witness :
    (sample.class_Holder.is_swift_class = true
      ∧ sample.class_Holder.header.cls.descriptor = some sample.descriptor_Holder
      ∧ sample.descriptor_Holder.cls.superclass_type = some sample.name_SS
      ∧ sample.class_Holder.superclass = some sample.class_NSObject
      ∧ sample.class_NSObject.canonical_kind = kind_class
      ∧ sample.class_NSObject.is_swift_class = false)
    ∧ visit_heap_class sample.runtime_objc
        (metadata_visitor.base sample.runtime_objc : metadata_visitor Unit).recording
        sample.class_Holder ((), [])
      = (false, ((), [])) :=
  ⟨⟨by decide, rfl, rfl, rfl, by decide, by decide⟩,
    (visit_heap_class_foreign_superclass sample.runtime_objc
      (metadata_visitor.base sample.runtime_objc : metadata_visitor Unit) sample.class_Holder
      sample.class_NSObject sample.descriptor_Holder sample.name_SS () (by decide) rfl rfl
      rfl).2.1 (by decide) (by decide) rfl⟩

/-- C24 (the code does not do this): the class `Mismatch` is native, its
descriptor declares one field and its reflection metadata holds zero records.
The counts are unequal, yet the heap-class walk returns true, not
`unknown_result()` (false for the base visitor): the test `num_fields == 0`
returns before the two counts are compared. -/
theorem visit_heap_class_zero_records_returns_true :
    sample.descriptor_zero_records.cls.num_fields = 1
    ∧ (∃ fields, sample.descriptor_zero_records.cls.fields = some fields
        ∧ fields.num_fields = 0)
    ∧ (metadata_visitor.base sample.runtime : metadata_visitor Unit).unknown_result () = false
    ∧ visit_heap_class sample.runtime
        (metadata_visitor.base sample.runtime : metadata_visitor Unit).recording
        sample.class_zero_records ((), [])
      = (true, ((), [])) :=
  ⟨rfl, ⟨_, rfl, rfl⟩, rfl, rfl⟩

/-- C25 (the code does not do this): the class `Stripped` is native, its
descriptor declares one field and has no reflection field metadata.
`visit_heap` with the class bit set returns true with no visit, not
`unknown_result()`, which is false for the base visitor. -/
theorem visit_heap_no_reflection_returns_true :
    sample.descriptor_no_reflection.cls.fields = none
    ∧ (metadata_visitor.base sample.runtime : metadata_visitor Unit).unknown_result () = false
    ∧ sample.class_no_reflection.visit_heap sample.runtime
        (metadata_visitor.base sample.runtime : metadata_visitor Unit).recording
        heap_kind_mask_class ((), [])
      = (true, ((), [])) :=
  ⟨rfl, rfl, rfl⟩

/-- C27 (the code does not do this): for a class with a resilient superclass,
an immediate-members offset of -16 bytes and a declared relative position of
3 words, `field_offset_vector_offset` returns 2305843009213693953, not
-16 / 8 + 3 = 1: the signed offset is converted to `uintptr_t` before the
division by `sizeof(uintptr_t)`. -/
theorem field_offset_vector_offset_negative_resilient :
    class_type_descriptor.has_resilient_superclass sample.descriptor_resilient_negative = true
    ∧ class_type_descriptor.immediate_members_offset sample.descriptor_resilient_negative = -16
    ∧ sample.descriptor_resilient_negative.cls._field_offset_vector_offset = 3
    ∧ class_type_descriptor.field_offset_vector_offset sample.descriptor_resilient_negative
      = 2305843009213693953 := by
  refine ⟨by decide, by decide, rfl, by decide⟩

section class_level_offsets

variable {σ : Type}

/-- The own-fields part of the heap-class walk, for a class level whose
reflection metadata declares a nonzero field count equal to the descriptor's,
by the way the offsets are obtained. -/
theorem visit_heap_class_fields_cases (rt : Runtime) (this : metadata)
    (desc : context_descriptor) (fields : field_descriptor) (visitor : metadata_visitor σ)
    (s : σ) (h_fields : desc.cls.fields = some fields) (h_nonzero : fields.num_fields ≠ 0)
    (h_count : fields.num_fields = desc.cls.num_fields) :
    (this.header.cls.flags &&& uses_swift_refcounting ≠ 0 →
      (desc.cls._field_offset_vector_offset = 0 →
        visit_heap_class_fields rt this desc visitor s = (visitor.unknown_result s, s))
      ∧ (desc.cls._field_offset_vector_offset ≠ 0 →
        this.load_word (class_type_descriptor.field_offset_vector_offset desc) = 0 →
        visit_heap_class_fields rt this desc visitor s = (visitor.unknown_result s, s))
      ∧ (desc.cls._field_offset_vector_offset ≠ 0 →
        this.load_word (class_type_descriptor.field_offset_vector_offset desc) ≠ 0 →
        visit_heap_class_fields rt this desc visitor s
          = visit_fields_in_order visitor
              ((List.range fields.num_fields).map
                (fun i =>
                  { type := this, field := fields.records i,
                    offset := this.load_word
                      (class_type_descriptor.field_offset_vector_offset desc + (i : Int)) }))
              s))
    ∧ (this.header.cls.flags &&& uses_swift_refcounting = 0 →
      (rt.class_copyIvarList this = none →
        visit_heap_class_fields rt this desc visitor s = (visitor.unknown_result s, s))
      ∧ (∀ ivars, rt.class_copyIvarList this = some ivars →
        ivars.length ≠ fields.num_fields →
        visit_heap_class_fields rt this desc visitor s = (visitor.unknown_result s, s))
      ∧ (∀ ivars, rt.class_copyIvarList this = some ivars →
        ivars.length = fields.num_fields →
        to_size_t (rt.ivar_getOffset (ivars.getD 0 0)) = 0 →
        visit_heap_class_fields rt this desc visitor s = (visitor.unknown_result s, s))
      ∧ (∀ ivars, rt.class_copyIvarList this = some ivars →
        ivars.length = fields.num_fields →
        to_size_t (rt.ivar_getOffset (ivars.getD 0 0)) ≠ 0 →
        visit_heap_class_fields rt this desc visitor s
          = visit_fields_in_order visitor
              ((List.range fields.num_fields).map
                (fun i =>
                  { type := this, field := fields.records i,
                    offset := to_size_t (rt.ivar_getOffset (ivars.getD i 0)) }))
              s)) := by
  have hne : ¬ fields.num_fields ≠ desc.cls.num_fields := not_not.mpr h_count
  constructor
  · intro hrc
    refine ⟨?_, ?_, ?_⟩
    · intro hpos
      simp only [visit_heap_class_fields, h_fields, h_nonzero, if_false, hne, hrc, ne_eq,
        not_false_eq_true, if_true, metadata.field_offset_vector,
        class_type_descriptor.has_field_offset_vector, hpos, bne_self_eq_false, Bool.not_false]
    · intro hpos hzero
      have hv : class_type_descriptor.has_field_offset_vector desc = true := by
        simp [class_type_descriptor.has_field_offset_vector, hpos]
      have hzero0 : this.load_word (class_type_descriptor.field_offset_vector_offset desc
          + ((0 : Nat) : Int)) = 0 := by simpa using hzero
      simp only [visit_heap_class_fields, h_fields, h_nonzero, if_false, hne, hrc, ne_eq,
        not_false_eq_true, if_true, metadata.field_offset_vector, hv, Bool.not_true,
        Bool.false_eq_true, hzero0]
    · intro hpos hfirst
      have hv : class_type_descriptor.has_field_offset_vector desc = true := by
        simp [class_type_descriptor.has_field_offset_vector, hpos]
      have hfirst0 : this.load_word (class_type_descriptor.field_offset_vector_offset desc
          + ((0 : Nat) : Int)) ≠ 0 := by simpa using hfirst
      simp only [visit_heap_class_fields, h_fields, h_nonzero, if_false, hne, hrc, ne_eq,
        not_false_eq_true, if_true, metadata.field_offset_vector, hv, Bool.not_true,
        Bool.false_eq_true, hfirst0, List.range_eq_range']
      exact for_each_index_visit_field visitor this fields.records _ _ 0 s
  · intro hrc
    refine ⟨?_, ?_, ?_, ?_⟩
    · intro hnone
      simp only [visit_heap_class_fields, h_fields, h_nonzero, if_false, hne, hrc, ne_eq,
        not_true_eq_false, hnone]
    · intro ivars hsome hlen
      simp only [visit_heap_class_fields, h_fields, h_nonzero, if_false, hne, hrc, ne_eq,
        not_true_eq_false, hsome, hlen]
    · intro ivars hsome hlen hzero
      simp only [visit_heap_class_fields, h_fields, h_nonzero, if_false, hne, hrc, ne_eq,
        not_true_eq_false, hsome, hlen, if_true, hzero]
    · intro ivars hsome hlen hfirst
      simp only [visit_heap_class_fields, h_fields, h_nonzero, if_false, hne, hrc, ne_eq,
        not_true_eq_false, hsome, hlen, if_true, hfirst, not_false_eq_true,
        List.range_eq_range']
      exact for_each_index_visit_field visitor this fields.records _ _ 0 s

/-- The heap-class walk of a native class whose descriptor declares no
superclass, or whose superclass link is null, is the walk of its own fields. -/
theorem visit_heap_class_without_superclass (rt : Runtime) (visitor : metadata_visitor σ)
    (this : metadata) (desc : context_descriptor) (s : σ)
    (h_native : this.is_swift_class = true) (h_desc : this.header.cls.descriptor = some desc)
    (h_none : desc.cls.superclass_type = none ∨ this.superclass = none) :
    visit_heap_class rt visitor this s = visit_heap_class_fields rt this desc visitor s := by
  cases this with
  | mk header superclass elements boxed_type =>
    have hd : header.cls.descriptor = some desc := h_desc
    rw [visit_heap_class]
    simp only [metadata.swift_metadata, h_native, if_true, hd]
    rcases h_none with h | h
    · rw [h]
    · have hs : superclass = none := h
      subst hs
      cases desc.cls.superclass_type <;> rfl

/-- The heap-class walk of a native class reaches the class's own fields in the
state `entry`: the initial state when no superclass is walked, the state the
superclass walk leaves when that walk returns true. -/
theorem visit_heap_class_reaches_level (rt : Runtime) (visitor : metadata_visitor σ)
    (this : metadata) (desc : context_descriptor) (s entry : σ)
    (h_native : this.is_swift_class = true) (h_desc : this.header.cls.descriptor = some desc)
    (h_reached :
      ((desc.cls.superclass_type = none ∨ this.superclass = none) ∧ entry = s)
      ∨ (∃ name s_cls, desc.cls.superclass_type = some name ∧ this.superclass = some s_cls
          ∧ s_cls.canonical_kind = kind_class
          ∧ visit_heap_class rt visitor s_cls s = (true, entry))) :
    visit_heap_class rt visitor this s = visit_heap_class_fields rt this desc visitor entry := by
  rcases h_reached with ⟨h_none, h_entry⟩ | ⟨name, s_cls, h_super, h_link, h_skind, h_walk⟩
  · rw [h_entry]
    exact visit_heap_class_without_superclass rt visitor this desc s h_native h_desc h_none
  · cases this with
    | mk header superclass elements boxed_type =>
      have hl : superclass = some s_cls := h_link
      subst hl
      have hd : header.cls.descriptor = some desc := h_desc
      rw [visit_heap_class_declared_superclass rt visitor header s_cls elements boxed_type desc
        name s h_native hd h_super, if_neg (not_not.mpr h_skind), h_walk]

/-- The calls a visitor that accepts every field records for a list of
fields. -/
theorem visit_fields_in_order_recording (visitor : metadata_visitor σ)
    (h_accept : ∀ type field offset st, (visitor.visit_field type field offset st).1 = true)
    (l : List field_visit) (s : σ) (log : List visit_event) :
    ∃ s1, visit_fields_in_order visitor.recording l (s, log)
      = (true, (s1, log ++ l.map (fun v => visit_event.field v.type v.field v.offset))) := by
  induction l generalizing s log with
  | nil => exact ⟨s, by simp [visit_fields_in_order]⟩
  | cons v rest ih =>
    obtain ⟨s1, hs1⟩ := ih (visitor.visit_field v.type v.field v.offset s).2
      (log ++ [visit_event.field v.type v.field v.offset])
    refine ⟨s1, ?_⟩
    have hstep : visitor.recording.visit_field v.type v.field v.offset (s, log)
        = (true, ((visitor.visit_field v.type v.field v.offset s).2,
            log ++ [visit_event.field v.type v.field v.offset])) := by
      simp [metadata_visitor.recording, h_accept]
    simp only [visit_fields_in_order, hstep]
    rw [hs1]
    simp

end class_level_offsets

/-- C26: for a native class level the heap-class walk reaches (no superclass
is walked, or the superclass walk returns true and leaves the state `s0` and
the recorded calls `log0`), with a nonzero field count equal to the
descriptor's.  With native refcounting the offsets are the field-offset vector,
absent when the declared vector position is zero; otherwise they are the
instance-variable offsets of the Objective-C runtime, accepted only when the
number of instance variables equals the field count.  Without offsets, or with
a first offset of zero, `visit_heap_class` yields `unknown_result()` and no
field of the level is visited; otherwise it visits the field records in order,
the `i`-th with the `i`-th offset, up to the first rejection, and a visitor
that accepts every field is called for every `i` below the field count. -/
theorem visit_heap_class_offsets {σ : Type} (rt : Runtime) (this : metadata)
    (desc : context_descriptor) (fields : field_descriptor) (visitor : metadata_visitor σ)
    (s s0 : σ) (log0 : List visit_event)
    (h_native : this.is_swift_class = true)
    (h_desc : this.header.cls.descriptor = some desc)
    (h_fields : desc.cls.fields = some fields) (h_nonzero : fields.num_fields ≠ 0)
    (h_count : fields.num_fields = desc.cls.num_fields)
    (h_reached :
      ((desc.cls.superclass_type = none ∨ this.superclass = none) ∧ (s0, log0) = (s, []))
      ∨ (∃ name s_cls, desc.cls.superclass_type = some name ∧ this.superclass = some s_cls
          ∧ s_cls.canonical_kind = kind_class
          ∧ visit_heap_class rt visitor.recording s_cls (s, []) = (true, (s0, log0)))) :
    (this.header.cls.flags &&& uses_swift_refcounting ≠ 0 →
      (desc.cls._field_offset_vector_offset = 0 →
        visit_heap_class rt visitor.recording this (s, [])
          = (visitor.unknown_result s0, (s0, log0)))
      ∧ (desc.cls._field_offset_vector_offset ≠ 0 →
        this.load_word (class_type_descriptor.field_offset_vector_offset desc) = 0 →
        visit_heap_class rt visitor.recording this (s, [])
          = (visitor.unknown_result s0, (s0, log0)))
      ∧ (desc.cls._field_offset_vector_offset ≠ 0 →
        this.load_word (class_type_descriptor.field_offset_vector_offset desc) ≠ 0 →
        visit_heap_class rt visitor.recording this (s, [])
          = visit_fields_in_order visitor.recording
              ((List.range fields.num_fields).map
                (fun i =>
                  { type := this, field := fields.records i,
                    offset := this.load_word
                      (class_type_descriptor.field_offset_vector_offset desc + (i : Int)) }))
              (s0, log0)
        ∧ ((∀ type field offset st, (visitor.visit_field type field offset st).1 = true) →
          ∃ s1, visit_heap_class rt visitor.recording this (s, [])
            = (true, (s1, log0 ++ (List.range fields.num_fields).map
                (fun i => visit_event.field this (fields.records i)
                  (this.load_word
                    (class_type_descriptor.field_offset_vector_offset desc + (i : Int)))))))))
    ∧ (this.header.cls.flags &&& uses_swift_refcounting = 0 →
      (rt.class_copyIvarList this = none →
        visit_heap_class rt visitor.recording this (s, [])
          = (visitor.unknown_result s0, (s0, log0)))
      ∧ (∀ ivars, rt.class_copyIvarList this = some ivars →
        ivars.length ≠ fields.num_fields →
        visit_heap_class rt visitor.recording this (s, [])
          = (visitor.unknown_result s0, (s0, log0)))
      ∧ (∀ ivars, rt.class_copyIvarList this = some ivars →
        ivars.length = fields.num_fields →
        to_size_t (rt.ivar_getOffset (ivars.getD 0 0)) = 0 →
        visit_heap_class rt visitor.recording this (s, [])
          = (visitor.unknown_result s0, (s0, log0)))
      ∧ (∀ ivars, rt.class_copyIvarList this = some ivars →
        ivars.length = fields.num_fields →
        to_size_t (rt.ivar_getOffset (ivars.getD 0 0)) ≠ 0 →
        visit_heap_class rt visitor.recording this (s, [])
          = visit_fields_in_order visitor.recording
              ((List.range fields.num_fields).map
                (fun i =>
                  { type := this, field := fields.records i,
                    offset := to_size_t (rt.ivar_getOffset (ivars.getD i 0)) }))
              (s0, log0)
        ∧ ((∀ type field offset st, (visitor.visit_field type field offset st).1 = true) →
          ∃ s1, visit_heap_class rt visitor.recording this (s, [])
            = (true, (s1, log0 ++ (List.range fields.num_fields).map
                (fun i => visit_event.field this (fields.records i)
                  (to_size_t (rt.ivar_getOffset (ivars.getD i 0))))))))) := by
  have h_level : visit_heap_class rt visitor.recording this (s, [])
      = visit_heap_class_fields rt this desc visitor.recording (s0, log0) := by
    apply visit_heap_class_reaches_level rt visitor.recording this desc (s, []) (s0, log0)
      h_native h_desc
    rcases h_reached with ⟨h_none, h_entry⟩ | h_walk
    · exact Or.inl ⟨h_none, h_entry⟩
    · exact Or.inr h_walk
  have h_cases := visit_heap_class_fields_cases rt this desc fields visitor.recording (s0, log0)
    h_fields h_nonzero h_count
  have h_unknown :
      (visitor.recording.unknown_result (s0, log0), ((s0, log0) : σ × List visit_event))
        = (visitor.unknown_result s0, (s0, log0)) := rfl
  rw [h_level]
  constructor
  · intro hrc
    obtain ⟨h1, h2, h3⟩ := h_cases.1 hrc
    refine ⟨fun hpos => (h1 hpos).trans h_unknown,
      fun hpos hzero => (h2 hpos hzero).trans h_unknown, ?_⟩
    intro hpos hfirst
    refine ⟨h3 hpos hfirst, ?_⟩
    intro h_accept
    rw [h3 hpos hfirst]
    obtain ⟨s1, hs1⟩ := visit_fields_in_order_recording visitor h_accept
      ((List.range fields.num_fields).map
        (fun i =>
          ({ type := this, field := fields.records i,
             offset := this.load_word
               (class_type_descriptor.field_offset_vector_offset desc + (i : Int)) }
            : field_visit)))
      s0 log0
    exact ⟨s1, by rw [hs1]; simp [Function.comp]⟩
  · intro hrc
    obtain ⟨h1, h2, h3, h4⟩ := h_cases.2 hrc
    refine ⟨fun hnone => (h1 hnone).trans h_unknown,
      fun ivars hsome hlen => (h2 ivars hsome hlen).trans h_unknown,
      fun ivars hsome hlen hzero => (h3 ivars hsome hlen hzero).trans h_unknown, ?_⟩
    intro ivars hsome hlen hfirst
    refine ⟨h4 ivars hsome hlen hfirst, ?_⟩
    intro h_accept
    rw [h4 ivars hsome hlen hfirst]
    obtain ⟨s1, hs1⟩ := visit_fields_in_order_recording visitor h_accept
      ((List.range fields.num_fields).map
        (fun i =>
          ({ type := this, field := fields.records i,
             offset := to_size_t (rt.ivar_getOffset (ivars.getD i 0)) } : field_visit)))
      s0 log0
    exact ⟨s1, by rw [hs1]; simp [Function.comp]⟩

/-- The class `Derived : Base` with native refcounting: the superclass walk
visits `x` at 16, then `y` is visited with the entry 24 of the field-offset
vector at word 11.  The class `Holder : NSObject` without native refcounting,
under a visitor whose `unknown_result()` is true: `y` is visited with the
instance-variable offset 8. -/
theorem visit_heap_class_offsets_witness :
    (sample.class_Derived.is_swift_class = true
      ∧ sample.class_Derived.header.cls.flags &&& uses_swift_refcounting ≠ 0
      ∧ sample.descriptor_Derived.cls._field_offset_vector_offset ≠ 0
      ∧ visit_heap_class sample.runtime sample.accepting_visitor.recording sample.class_Base
          ((), [])
        = (true, ((), [visit_event.field sample.class_Base (sample.records_xy 0) 16])))
    ∧ (∃ s1, visit_heap_class sample.runtime sample.accepting_visitor.recording
          sample.class_Derived ((), [])
        = (true, (s1, [visit_event.field sample.class_Base (sample.records_xy 0) 16,
                       visit_event.field sample.class_Derived (sample.records_y 0) 24])))
    ∧ (sample.class_Holder.is_swift_class = true
      ∧ sample.class_Holder.header.cls.flags &&& uses_swift_refcounting = 0
      ∧ sample.runtime_objc.class_copyIvarList sample.class_Holder = some [1])
    ∧ (∃ s1, visit_heap_class sample.runtime_objc sample.lenient_visitor.recording
          sample.class_Holder ((), [])
        = (true, (s1, [visit_event.field sample.class_Holder (sample.records_y 0) 8]))) :=
  ⟨⟨by decide, by decide, by decide, rfl⟩,
    (((visit_heap_class_offsets sample.runtime sample.class_Derived sample.descriptor_Derived
      { num_fields := 1, records := sample.records_y } sample.accepting_visitor () ()
      [visit_event.field sample.class_Base (sample.records_xy 0) 16]
      (by decide) rfl rfl (by decide) rfl
      (Or.inr ⟨sample.name_SS, sample.class_Base, rfl, rfl, by decide, rfl⟩)).1
        (by decide)).2.2 (by decide) (by decide)).2 (fun _ _ _ _ => rfl),
    ⟨by decide, by decide, rfl⟩,
    (((visit_heap_class_offsets sample.runtime_objc sample.class_Holder
      sample.descriptor_Holder { num_fields := 1, records := sample.records_y }
      sample.lenient_visitor () () []
      (by decide) rfl rfl (by decide) rfl
      (Or.inr ⟨sample.name_SS, sample.class_NSObject, rfl, rfl, by decide, rfl⟩)).2
        (by decide)).2.2.2 [1] rfl rfl (by decide)).2 (fun _ _ _ _ => rfl)⟩

section alignment

theorem and_high_mask (x k : Nat) (hk : k ≤ 64) (hx : x < 2 ^ 64) :
    x &&& ((2 ^ (64 - k) - 1) <<< k) = (x >>> k) <<< k := by
  apply Nat.eq_of_testBit_eq
  intro i
  simp only [Nat.testBit_and, Nat.testBit_shiftLeft, Nat.testBit_shiftRight,
    Nat.testBit_two_pow_sub_one]
  by_cases hik : i ≥ k
  · have hadd : k + (i - k) = i := by omega
    rw [hadd]
    by_cases hi : i < 64
    · have : i - k < 64 - k := by omega
      simp [hik, this]
    · have hbit : x.testBit i = false := by
        apply Nat.testBit_lt_two_pow
        calc x < 2 ^ 64 := hx
          _ ≤ 2 ^ i := Nat.pow_le_pow_right (by decide) (by omega)
      simp [hbit]
  · simp [hik]

theorem bitwise_not_size_t_mask (k : Nat) (hk : k ≤ 64) :
    bitwise_not_size_t (2 ^ k - 1) = (2 ^ (64 - k) - 1) <<< k := by
  have hpos : 0 < 2 ^ k := Nat.pow_pos (by decide)
  have hle : 2 ^ k ≤ 2 ^ 64 := Nat.pow_le_pow_right (by decide) hk
  have hmod : (2 ^ k - 1) % 2 ^ 64 = 2 ^ k - 1 := Nat.mod_eq_of_lt (by omega)
  have hsplit : 2 ^ (64 - k) * 2 ^ k = 2 ^ 64 := by
    rw [← Nat.pow_add]
    congr 1
    omega
  rw [bitwise_not_size_t, hmod, Nat.shiftLeft_eq, Nat.sub_mul, hsplit]
  omega

theorem align_up_eq (offset k : Nat) (hk : k ≤ 64) (h : offset + (2 ^ k - 1) < 2 ^ 64) :
    align_up offset (2 ^ k - 1)
      = (offset + (2 ^ k - 1)) - (offset + (2 ^ k - 1)) % 2 ^ k := by
  have hsz : to_size_t (offset + (2 ^ k - 1)) = offset + (2 ^ k - 1) :=
    Nat.mod_eq_of_lt h
  rw [align_up, hsz, bitwise_not_size_t_mask k hk, and_high_mask _ k hk h,
    Nat.shiftLeft_eq, Nat.shiftRight_eq_div_pow]
  have := Nat.div_add_mod (offset + (2 ^ k - 1)) (2 ^ k)
  rw [Nat.mul_comm] at this
  omega

end alignment

/-- C29: the align-up arithmetic `r = (offset + a) & ~a`, with `a = 2^k - 1` an
alignment mask (`k` from 0 to 8) and `offset + a` not overflowing the word,
satisfies `0 <= r - offset < a + 1`, makes `r` a multiple of `a + 1`, and is
idempotent.  It is the expression the generic-box walk, the capture-box walk
and the opaque-existential projection compute. -/
theorem align_up_properties (offset k : Nat) (hk : k ≤ 8)
    (h : offset + (2 ^ k - 1) < 2 ^ 64) :
    (offset ≤ align_up offset (2 ^ k - 1)
      ∧ align_up offset (2 ^ k - 1) - offset < (2 ^ k - 1) + 1
      ∧ ((2 ^ k - 1) + 1) ∣ align_up offset (2 ^ k - 1)
      ∧ align_up (align_up offset (2 ^ k - 1)) (2 ^ k - 1) = align_up offset (2 ^ k - 1))
    ∧ (∀ {σ : Type} (this type : metadata) (visitor : metadata_visitor σ) (s : σ),
        this.boxed_type = some type →
        this.visit_heap_box visitor s
          = visitor.visit_element type ref_kind.strong
              (align_up this.header.generic_box_offset type.alignment_mask) s)
    ∧ (∀ {σ : Type} (rt : Runtime) (this : metadata) (desc : capture_descriptor)
        (visitor : metadata_visitor σ) (count i running : Nat) (s : σ) (elt_type : metadata)
        (ref : ref_kind),
        this.mangled_type_name_ref rt (desc.capture_type i) = some (elt_type, ref) →
        visit_heap_locals_captures rt this desc visitor (count + 1) i running s
          = match visitor.visit_element elt_type ref
                (align_up running elt_type.alignment_mask) s with
            | (false, s1) => locals_loop.returned false s1
            | (true, s1) =>
              visit_heap_locals_captures rt this desc visitor count (i + 1)
                (to_size_t (align_up running elt_type.alignment_mask + elt_type.size)) s1)
    ∧ (∀ container : existential_container,
        container.type.flags &&& value_witness_table.is_non_inline ≠ 0 →
        opaque_existential_container.project_value container
          = to_size_t (container.buffer 0)
            + align_up (2 * sizeof_uintptr_t) container.type.alignment_mask) := by
  have hk64 : k ≤ 64 := by omega
  have hpos : 0 < 2 ^ k := Nat.pow_pos (by decide)
  have hr := align_up_eq offset k hk64 h
  have hmodlt : (offset + (2 ^ k - 1)) % 2 ^ k < 2 ^ k := Nat.mod_lt _ hpos
  have hdvd : 2 ^ k ∣ align_up offset (2 ^ k - 1) := by
    rw [hr]
    exact Nat.dvd_sub_mod _
  have hsucc : 2 ^ k - 1 + 1 = 2 ^ k := by omega
  refine ⟨⟨?_, ?_, ?_, ?_⟩, ?_, ?_, ?_⟩
  · rw [hr]
    omega
  · rw [hr]
    omega
  · rw [hsucc]
    exact hdvd
  · obtain ⟨q, hq⟩ := hdvd
    have hrle : align_up offset (2 ^ k - 1) ≤ offset + (2 ^ k - 1) := by
      rw [hr]
      omega
    have hpow : (2 : Nat) ^ k ∣ 2 ^ 64 := Nat.pow_dvd_pow 2 hk64
    obtain ⟨t, ht⟩ := hpow
    have hqlt : q < t := by
      by_contra hge
      have : 2 ^ k * t ≤ 2 ^ k * q := Nat.mul_le_mul_left _ (by omega)
      omega
    have hbound : align_up offset (2 ^ k - 1) + (2 ^ k - 1) < 2 ^ 64 := by
      have : 2 ^ k * (q + 1) ≤ 2 ^ k * t := Nat.mul_le_mul_left _ (by omega)
      rw [Nat.mul_add, Nat.mul_one] at this
      omega
    rw [align_up_eq _ k hk64 hbound]
    have hmod : (align_up offset (2 ^ k - 1) + (2 ^ k - 1)) % 2 ^ k = 2 ^ k - 1 := by
      rw [hq, Nat.mul_add_mod]
      exact Nat.mod_eq_of_lt (by omega)
    rw [hmod]
    omega
  · intro σ this type visitor s hbox
    simp [metadata.visit_heap_box, hbox, align_up]
  · intro σ rt this desc visitor count i running s elt_type ref hres
    simp only [visit_heap_locals_captures, hres, align_up]
  · intro container hnon
    simp [opaque_existential_container.project_value, hnon, align_up]

theorem align_up_properties_witness :
    ((3 : Nat) ≤ 8 ∧ 13 + (2 ^ 3 - 1) < 2 ^ 64)
    ∧ (13 ≤ align_up 13 (2 ^ 3 - 1)
      ∧ align_up 13 (2 ^ 3 - 1) - 13 < (2 ^ 3 - 1) + 1
      ∧ ((2 ^ 3 - 1) + 1) ∣ align_up 13 (2 ^ 3 - 1)
      ∧ align_up (align_up 13 (2 ^ 3 - 1)) (2 ^ 3 - 1) = align_up 13 (2 ^ 3 - 1)) :=
  ⟨⟨by decide, by decide⟩, (align_up_properties 13 3 (by decide) (by decide)).1⟩

section enum_walk

variable {σ : Type}

theorem for_each_index_visit_case (visitor : metadata_visitor σ) (this : metadata)
    (records : Nat → field_record) (n i0 : Nat) (s : σ) :
    for_each_index
        (fun i s1 =>
          if (records i).mangled_type_name.isSome then
            visitor.visit_case this (records i) i s1
          else (true, s1))
        n i0 s
      = visit_cases_in_order visitor this records
          ((List.range' i0 n).filter (fun i => (records i).mangled_type_name.isSome)) s := by
  induction n generalizing i0 s with
  | zero => rfl
  | succ n ih =>
    simp only [for_each_index, List.range'_succ, List.filter_cons]
    by_cases hname : (records i0).mangled_type_name.isSome = true
    · simp only [hname, if_true, visit_cases_in_order]
      cases h : visitor.visit_case this (records i0) i0 s with
      | mk r s1 =>
        cases r with
        | true => exact ih (i0 + 1) s1
        | false => rfl
    · simp only [hname, if_false]
      exact ih (i0 + 1) s

theorem visit_cases_in_order_accepting (visitor : metadata_visitor σ) (this : metadata)
    (records : Nat → field_record)
    (h_accept : ∀ type field tag st, (visitor.visit_case type field tag st).1 = true)
    (tags : List Nat) (s : σ) (log : List visit_event) :
    ∃ s1, visit_cases_in_order visitor.recording this records tags (s, log)
      = (true, (s1, log ++ tags.map (fun i => visit_event.case_ this (records i) i))) := by
  induction tags generalizing s log with
  | nil => exact ⟨s, by simp [visit_cases_in_order]⟩
  | cons tag rest ih =>
    obtain ⟨s1, hs1⟩ := ih (visitor.visit_case this (records tag) tag s).2
      (log ++ [visit_event.case_ this (records tag) tag])
    refine ⟨s1, ?_⟩
    have hstep : visitor.recording.visit_case this (records tag) tag (s, log)
        = (true, ((visitor.visit_case this (records tag) tag s).2,
            log ++ [visit_event.case_ this (records tag) tag])) := by
      simp [metadata_visitor.recording, h_accept]
    simp only [visit_cases_in_order, hstep]
    rw [hs1]
    simp

end enum_walk

/-- C30: for an enum or optional handle with reflection metadata and a nonzero
payload-case count, `metadata::visit` calls `visit_case` for exactly the case
records that carry an encoded type name, in ascending record order, the tag
being the record's index among all case records; a record without a type name
produces no call; the walk stops with false at the first `visit_case` that
returns false and returns true otherwise.  With a visitor that accepts every
case the calls are those of all the records with a type name. -/
theorem visit_enum_cases {σ : Type} (rt : Runtime) (this : metadata)
    (visitor : metadata_visitor σ) (s : σ) (d : nominal_type_descriptor)
    (fd : field_descriptor)
    (h_kind : this.canonical_kind = kind_enum ∨ this.canonical_kind = kind_optional)
    (h_desc : this.nominal_descriptor = some d) (h_refl : d.reflection_metadata = some fd)
    (h_payload : d.enum_type_payload_cases % 2 ^ 24 ≠ 0) :
    this.visit rt visitor s
      = visit_cases_in_order visitor this fd.records (payload_case_tags fd) s
    ∧ ((∀ type field tag st, (visitor.visit_case type field tag st).1 = true) →
      ∃ s1, this.visit rt visitor.recording (s, [])
        = (true, (s1, (payload_case_tags fd).map
            (fun i => visit_event.case_ this (fd.records i) i)))) := by
  have hpay : ¬ d.enum_type_payload_cases &&& 0x00ffffff = 0 := by
    rw [and_mask_eq_mod]
    exact h_payload
  have hv : ∀ {τ : Type} (v : metadata_visitor τ) (st : τ),
      this.visit rt v st = visit_cases_in_order v this fd.records (payload_case_tags fd) st := by
    intro τ v st
    have h1 : this.visit rt v st = this.visit_enum v st := by
      rcases h_kind with h | h <;> simp +decide [metadata.visit, h]
    rw [h1]
    simp only [metadata.visit_enum, h_desc, h_refl, hpay, if_false, payload_case_tags,
      List.range_eq_range']
    exact for_each_index_visit_case v this fd.records _ 0 st
  refine ⟨hv visitor s, ?_⟩
  intro h_accept
  rw [hv visitor.recording (s, [])]
  obtain ⟨s1, hs1⟩ := visit_cases_in_order_accepting visitor this fd.records h_accept
    (payload_case_tags fd) s []
  exact ⟨s1, by simpa using hs1⟩

theorem visit_enum_cases_witness :
    ((sample.enum_Choice.canonical_kind = kind_enum
        ∨ sample.enum_Choice.canonical_kind = kind_optional)
      ∧ sample.descriptor_Choice.nominal.enum_type_payload_cases % 2 ^ 24 ≠ 0
      ∧ payload_case_tags { num_fields := 3, records := sample.records_a_none_b } = [0, 2])
    ∧ sample.enum_Choice.visit sample.runtime sample.accepting_visitor ()
      = visit_cases_in_order sample.accepting_visitor sample.enum_Choice
          sample.records_a_none_b
          (payload_case_tags { num_fields := 3, records := sample.records_a_none_b }) () :=
  ⟨⟨Or.inl (by decide), by decide, by decide⟩,
    (visit_enum_cases sample.runtime sample.enum_Choice sample.accepting_visitor ()
      sample.descriptor_Choice.nominal { num_fields := 3, records := sample.records_a_none_b }
      (Or.inl (by decide)) rfl rfl (by decide)).1⟩

/-! ### The capture-box walk -/

section locals_walk

variable {σ : Type}

theorem binding_events_succ (pointer_type : metadata) (start count : Nat) :
    binding_events pointer_type start (count + 1)
      = visit_event.element pointer_type ref_kind.unowned_unsafe start
          :: binding_events pointer_type (start + sizeof_uintptr_t) count := by
  unfold binding_events
  rw [List.range_succ_eq_map]
  simp only [List.map_cons, List.map_map, Nat.zero_mul, Nat.add_zero]
  congr 1
  apply List.map_congr_left
  intro b _
  simp only [Function.comp, sizeof_uintptr_t]
  congr 1
  omega

theorem binding_events_length (pointer_type : metadata) (start count : Nat) :
    (binding_events pointer_type start count).length = count := by
  simp [binding_events]

theorem capture_events_length :
    ∀ (types : List (metadata × ref_kind)) (offset : Nat),
      (capture_events types offset).length = types.length
  | [], _ => rfl
  | (type, ref) :: rest, offset => by
    simp only [capture_events, List.length_cons, capture_events_length rest]

/-- The bindings loop under an accepting visitor: it runs to its end, visits
the placeholder type once per binding, a pointer width apart, and leaves the
offset behind the last slot. -/
theorem visit_heap_locals_bindings_accepting (rt : Runtime) (this : metadata)
    (visitor : metadata_visitor σ) (pointer_type : metadata) (pointer_ref : ref_kind)
    (h_accept : ∀ type ref offset st, (visitor.visit_element type ref offset st).1 = true) :
    ∀ (count offset : Nat) (s : σ) (log : List visit_event),
      (0 < count →
        this.mangled_type_name_ref rt (some name_Bp) = some (pointer_type, pointer_ref)) →
      offset + count * sizeof_uintptr_t < 2 ^ 64 →
      ∃ s1, visit_heap_locals_bindings rt this visitor.recording count offset (s, log)
        = locals_loop.finished (offset + count * sizeof_uintptr_t)
            (s1, log ++ binding_events pointer_type offset count)
  | 0, offset, s, log, _, _ => ⟨s, by simp [visit_heap_locals_bindings, binding_events]⟩
  | count + 1, offset, s, log, h_ptr, h_fit => by
    have hp := h_ptr (Nat.succ_pos _)
    have hstep : visitor.recording.visit_element pointer_type ref_kind.unowned_unsafe offset
          (s, log)
        = (true, ((visitor.visit_element pointer_type ref_kind.unowned_unsafe offset s).2,
            log ++ [visit_event.element pointer_type ref_kind.unowned_unsafe offset])) := by
      simp [metadata_visitor.recording, h_accept]
    have hoff : to_size_t (offset + sizeof_uintptr_t) = offset + sizeof_uintptr_t := by
      unfold to_size_t
      apply Nat.mod_eq_of_lt
      simp only [sizeof_uintptr_t] at h_fit ⊢
      omega
    obtain ⟨s1, hs1⟩ := visit_heap_locals_bindings_accepting rt this visitor pointer_type
      pointer_ref h_accept count (offset + sizeof_uintptr_t)
      (visitor.visit_element pointer_type ref_kind.unowned_unsafe offset s).2
      (log ++ [visit_event.element pointer_type ref_kind.unowned_unsafe offset])
      (fun _ => hp) (by simp only [sizeof_uintptr_t] at h_fit ⊢; omega)
    refine ⟨s1, ?_⟩
    simp only [visit_heap_locals_bindings, hp, hstep, hoff]
    rw [hs1, binding_events_succ]
    have harith : offset + sizeof_uintptr_t + count * sizeof_uintptr_t
        = offset + (count + 1) * sizeof_uintptr_t := by
      simp only [sizeof_uintptr_t]; omega
    rw [harith]
    simp

/-- The captures loop under an accepting visitor, for a list `types` of the
resolutions of the captures `i`, `i + 1`, ...: when the list covers all the
iterations left the loop runs to its end; when the capture after the list
does not resolve the loop returns `unknown_result()`; both after the visits
`capture_events types offset`. -/
theorem visit_heap_locals_captures_accepting (rt : Runtime) (this : metadata)
    (desc : capture_descriptor) (visitor : metadata_visitor σ)
    (h_accept : ∀ type ref offset st, (visitor.visit_element type ref offset st).1 = true) :
    ∀ (types : List (metadata × ref_kind)) (count i offset : Nat) (s : σ)
      (log : List visit_event),
      (∀ c p, types[c]? = some p →
        this.mangled_type_name_ref rt (desc.capture_type (i + c)) = some p) →
      (types.length = count →
        ∃ s1 last, visit_heap_locals_captures rt this desc visitor.recording count i offset
            (s, log)
          = locals_loop.finished last (s1, log ++ capture_events types offset))
      ∧ (types.length < count →
          this.mangled_type_name_ref rt (desc.capture_type (i + types.length)) = none →
          ∃ s1, visit_heap_locals_captures rt this desc visitor.recording count i offset
              (s, log)
            = locals_loop.returned (visitor.unknown_result s1)
                (s1, log ++ capture_events types offset))
  | [], count, i, offset, s, log, _ => by
    constructor
    · intro hlen
      simp only [List.length_nil] at hlen
      subst hlen
      exact ⟨s, offset, by simp [visit_heap_locals_captures, capture_events]⟩
    · intro hlen hnone
      simp only [List.length_nil, Nat.add_zero] at hlen hnone
      obtain ⟨k, rfl⟩ := Nat.exists_eq_succ_of_ne_zero (Nat.pos_iff_ne_zero.mp hlen)
      refine ⟨s, ?_⟩
      simp [visit_heap_locals_captures, hnone, capture_events, metadata_visitor.recording]
  | (type, ref) :: rest, count, i, offset, s, log, h_types => by
    have h0 : this.mangled_type_name_ref rt (desc.capture_type i) = some (type, ref) := by
      have := h_types 0 (type, ref) (by simp)
      simpa using this
    have hstep : visitor.recording.visit_element type ref (align_up offset type.alignment_mask)
          (s, log)
        = (true, ((visitor.visit_element type ref
              (align_up offset type.alignment_mask) s).2,
            log ++ [visit_event.element type ref (align_up offset type.alignment_mask)])) := by
      simp [metadata_visitor.recording, h_accept]
    have h_rest : ∀ c p, rest[c]? = some p →
        this.mangled_type_name_ref rt (desc.capture_type (i + 1 + c)) = some p := by
      intro c p hc
      have := h_types (c + 1) p (by simpa using hc)
      rw [show i + 1 + c = i + (c + 1) by omega]
      exact this
    constructor
    · intro hlen
      simp only [List.length_cons] at hlen
      subst hlen
      obtain ⟨s1, last, hs1⟩ := (visit_heap_locals_captures_accepting rt this desc visitor
        h_accept rest rest.length (i + 1)
        (to_size_t (align_up offset type.alignment_mask + type.size))
        (visitor.visit_element type ref (align_up offset type.alignment_mask) s).2
        (log ++ [visit_event.element type ref (align_up offset type.alignment_mask)])
        h_rest).1 rfl
      refine ⟨s1, last, ?_⟩
      have hstep2 := hstep
      unfold align_up at hstep2
      simp only [visit_heap_locals_captures, h0, hstep2]
      unfold align_up at hs1
      rw [hs1]
      simp [capture_events, align_up]
    · intro hlen hnone
      simp only [List.length_cons] at hlen hnone
      obtain ⟨k, rfl⟩ := Nat.exists_eq_succ_of_ne_zero
        (Nat.pos_iff_ne_zero.mp (Nat.lt_of_le_of_lt (Nat.zero_le _) hlen))
      obtain ⟨s1, hs1⟩ := (visit_heap_locals_captures_accepting rt this desc visitor
        h_accept rest k (i + 1)
        (to_size_t (align_up offset type.alignment_mask + type.size))
        (visitor.visit_element type ref (align_up offset type.alignment_mask) s).2
        (log ++ [visit_event.element type ref (align_up offset type.alignment_mask)])
        h_rest).2 (by omega) (by rw [show i + 1 + rest.length = i + (rest.length + 1) by omega]
                                 exact hnone)
      refine ⟨s1, ?_⟩
      have hstep2 := hstep
      unfold align_up at hstep2
      simp only [visit_heap_locals_captures, h0, hstep2]
      unfold align_up at hs1
      rw [hs1]
      simp [capture_events, align_up]

end locals_walk

/-- C28: for a heap local-capture box with a capture descriptor, zero metadata
sources, `B` bindings and `C` captures, a resolvable raw-pointer placeholder
and a visitor that accepts every element, the walk starts at the declared
first-capture offset, or at two pointer widths when that offset is zero.  With
`types` the resolutions (type and ownership kind) of the first captures: when
`types` covers all `C` captures the walk returns true after exactly the visits
of the `B` binding slots (unowned-unsafe references of the placeholder type, a
pointer width apart) followed by the captures in order (each at the running
offset rounded up to its type's alignment, the offset then advancing by the
type's size), `B + C` visits in all; when the capture after `types` does not
resolve, the walk returns `unknown_result()` after the visits of the bindings
and of `types`, `B + types.length` in all. -/
theorem visit_heap_locals_walk {σ : Type} (rt : Runtime) (this : metadata)
    (visitor : metadata_visitor σ) (mask : Nat) (s : σ) (desc : capture_descriptor)
    (pointer_type : metadata) (pointer_ref : ref_kind)
    (types : List (metadata × ref_kind))
    (h_kind : this.canonical_kind = kind_heap_local_variable)
    (h_mask : mask &&& heap_kind_mask_local ≠ 0)
    (h_desc : this.header.heap_local.descriptor = some desc)
    (h_sources : desc.num_metadata_sources = 0)
    (h_first : this.header.heap_local.offset_to_first_capture < 2 ^ 32)
    (h_bindings : desc.num_bindings < 2 ^ 32)
    (h_pointer : 0 < desc.num_bindings →
      this.mangled_type_name_ref rt (some name_Bp) = some (pointer_type, pointer_ref))
    (h_accept : ∀ type ref offset st, (visitor.visit_element type ref offset st).1 = true)
    (h_types : ∀ c p, types[c]? = some p →
      this.mangled_type_name_ref rt (desc.capture_type c) = some p) :
    (types.length = desc.num_capture_types →
      ∃ s1 log, this.visit_heap rt visitor.recording mask (s, []) = (true, (s1, log))
        ∧ log = binding_events pointer_type (first_capture_offset this) desc.num_bindings
            ++ capture_events types
                (first_capture_offset this + desc.num_bindings * sizeof_uintptr_t)
        ∧ log.length = desc.num_bindings + desc.num_capture_types)
    ∧ (types.length < desc.num_capture_types →
        this.mangled_type_name_ref rt (desc.capture_type types.length) = none →
        ∃ s1 log, this.visit_heap rt visitor.recording mask (s, [])
            = (visitor.unknown_result s1, (s1, log))
          ∧ log = binding_events pointer_type (first_capture_offset this) desc.num_bindings
              ++ capture_events types
                  (first_capture_offset this + desc.num_bindings * sizeof_uintptr_t)
          ∧ log.length = desc.num_bindings + types.length) := by
  have h_not_class : this.canonical_kind ≠ kind_class := by
    rw [h_kind]; decide
  have h_start : first_capture_offset this + desc.num_bindings * sizeof_uintptr_t < 2 ^ 64 := by
    unfold first_capture_offset
    simp only [sizeof_uintptr_t]
    split <;> omega
  obtain ⟨sb, hsb⟩ := visit_heap_locals_bindings_accepting rt this visitor pointer_type
    pointer_ref h_accept desc.num_bindings (first_capture_offset this) s [] h_pointer h_start
  have h_finished : ∀ last s2,
      visit_heap_locals_captures rt this desc visitor.recording desc.num_capture_types 0
          (first_capture_offset this + desc.num_bindings * sizeof_uintptr_t)
          (sb, [] ++ binding_events pointer_type (first_capture_offset this)
            desc.num_bindings) = locals_loop.finished last s2 →
      this.visit_heap rt visitor.recording mask (s, []) = (true, s2) := by
    intro last s2 hc
    unfold first_capture_offset at hsb hc
    unfold visit_heap
    rw [if_neg h_not_class, if_pos h_kind, if_pos h_mask]
    simp only [visit_heap_locals, h_desc, h_sources, ne_eq, not_true_eq_false, if_false, hsb,
      hc]
  have h_returned : ∀ result s2,
      visit_heap_locals_captures rt this desc visitor.recording desc.num_capture_types 0
          (first_capture_offset this + desc.num_bindings * sizeof_uintptr_t)
          (sb, [] ++ binding_events pointer_type (first_capture_offset this)
            desc.num_bindings) = locals_loop.returned result s2 →
      this.visit_heap rt visitor.recording mask (s, []) = (result, s2) := by
    intro result s2 hc
    unfold first_capture_offset at hsb hc
    unfold visit_heap
    rw [if_neg h_not_class, if_pos h_kind, if_pos h_mask]
    simp only [visit_heap_locals, h_desc, h_sources, ne_eq, not_true_eq_false, if_false, hsb,
      hc]
  have h_caps := visit_heap_locals_captures_accepting rt this desc visitor h_accept types
    desc.num_capture_types 0
    (first_capture_offset this + desc.num_bindings * sizeof_uintptr_t) sb
    ([] ++ binding_events pointer_type (first_capture_offset this) desc.num_bindings)
    (by intro c p hc; rw [Nat.zero_add]; exact h_types c p hc)
  constructor
  · intro hlen
    obtain ⟨s1, last, hs1⟩ := h_caps.1 hlen
    refine ⟨s1, _, ?_, rfl, ?_⟩
    · rw [h_finished last _ hs1, List.nil_append]
    · rw [List.length_append, binding_events_length, capture_events_length, hlen]
  · intro hlen hnone
    obtain ⟨s1, hs1⟩ := h_caps.2 hlen (by rw [Nat.zero_add]; exact hnone)
    refine ⟨s1, _, ?_, rfl, ?_⟩
    · rw [h_returned _ _ hs1, List.nil_append]
    · rw [List.length_append, binding_events_length, capture_events_length]

/-- The walk of a box with one binding that captures a `Bool` and an `Int`:
the binding slot at offset 16, the `Bool` at 24, the `Int` at 32 (25 rounded
up to a multiple of 8), three visits; and the walk of a box whose second
capture does not resolve: false after two visits. -/
theorem visit_heap_locals_walk_witness :
    (∃ s1 log, sample.box_Bool_Int.visit_heap sample.runtime_locals
          sample.accepting_visitor.recording heap_kind_mask_local ((), []) = (true, (s1, log))
        ∧ log = [visit_event.element sample.type_RawPointer ref_kind.unowned_unsafe 16,
                 visit_event.element sample.type_Bool ref_kind.strong 24,
                 visit_event.element sample.type_Int ref_kind.strong 32]
        ∧ log.length = 1 + 2)
    ∧ (∃ s1 log, sample.box_Bool_unknown.visit_heap sample.runtime_locals
          sample.accepting_visitor.recording heap_kind_mask_local ((), [])
            = (false, (s1, log))
        ∧ log = [visit_event.element sample.type_RawPointer ref_kind.unowned_unsafe 16,
                 visit_event.element sample.type_Bool ref_kind.strong 24]
        ∧ log.length = 1 + 1) :=
  ⟨(visit_heap_locals_walk sample.runtime_locals sample.box_Bool_Int sample.accepting_visitor
      heap_kind_mask_local () sample.captures_Bool_Int sample.type_RawPointer ref_kind.strong
      [(sample.type_Bool, ref_kind.strong), (sample.type_Int, ref_kind.strong)]
      (by decide) (by decide) rfl rfl (by decide) (by decide) (fun _ => rfl)
      (fun _ _ _ _ => rfl)
      (by
        intro c p hc
        match c, hc with
        | 0, hc => cases hc; rfl
        | 1, hc => cases hc; rfl
        | _ + 2, hc => cases hc)).1 rfl,
   (visit_heap_locals_walk sample.runtime_locals sample.box_Bool_unknown
      sample.accepting_visitor heap_kind_mask_local () sample.captures_Bool_unknown
      sample.type_RawPointer ref_kind.strong [(sample.type_Bool, ref_kind.strong)]
      (by decide) (by decide) rfl rfl (by decide) (by decide) (fun _ => rfl)
      (fun _ _ _ _ => rfl)
      (by
        intro c p hc
        match c, hc with
        | 0, hc => cases hc; rfl
        | _ + 1, hc => cases hc)).2 (by decide) rfl⟩

/-! ### The case-count equation -/

/-- C31, as stated, fails: the enum `Miscounted` declares one payload case and
no empty case while its reflection metadata holds two case records, so
`payload_cases + empty_cases = 1` is not the record count 2; `visit` evaluates
no check and enumerates both records. -/
theorem visit_enum_enumerates_miscounted_enum :
    ¬ (∀ (rt : Runtime) (this : metadata) (visitor : metadata_visitor Unit)
        (d : nominal_type_descriptor) (fd : field_descriptor),
        (this.canonical_kind = kind_enum ∨ this.canonical_kind = kind_optional) →
        this.nominal_descriptor = some d → d.reflection_metadata = some fd →
        (this.visit rt visitor.recording ((), [])).2.2 ≠ [] →
        case_count_equation d fd) := by
  intro h
  have h1 := h sample.runtime sample.enum_miscounted sample.accepting_visitor
    sample.descriptor_miscounted.nominal { num_fields := 2, records := sample.records_ab }
    (Or.inl (by decide)) rfl rfl
  have h2 : sample.enum_miscounted.visit sample.runtime sample.accepting_visitor.recording
      ((), [])
      = (true, ((), [visit_event.case_ sample.enum_miscounted (sample.records_ab 0) 0,
                     visit_event.case_ sample.enum_miscounted (sample.records_ab 1) 1])) := rfl
  rw [h2] at h1
  exact absurd (h1 (by simp)) (by decide)

/-- C31 (amended): for every enum or optional type handle, `visit` evaluates
no check of the equation `payload_cases + empty_cases == total_case_count`;
the assertion before the iteration expands to nothing, so it cannot fail, and
the walk does not depend on the empty-case count: under a visitor whose
`visit_case` does not depend on the handle it is passed, the handle with any
other empty-case count is enumerated exactly as the handle itself, whether the
equation holds for it or not. -/
theorem visit_enum_ignores_empty_cases {σ : Type} (rt : Runtime) (this : metadata)
    (visitor : metadata_visitor σ) (s : σ) (empty_cases : Nat)
    (h_kind : this.canonical_kind = kind_enum ∨ this.canonical_kind = kind_optional)
    (h_handle : ∀ t t1 field tag st,
      visitor.visit_case t field tag st = visitor.visit_case t1 field tag st) :
    (this.with_empty_cases empty_cases).visit rt visitor s = this.visit rt visitor s := by
  cases this with
  | mk header superclass elements boxed_type =>
    have hk : (metadata.with_empty_cases (mk header superclass elements boxed_type)
        empty_cases).canonical_kind
        = (mk header superclass elements boxed_type).canonical_kind := rfl
    have h_kind1 : (metadata.with_empty_cases (mk header superclass elements boxed_type)
        empty_cases).canonical_kind = kind_enum
        ∨ (metadata.with_empty_cases (mk header superclass elements boxed_type)
          empty_cases).canonical_kind = kind_optional := hk ▸ h_kind
    have h1 : ∀ m : metadata,
        (m.canonical_kind = kind_enum ∨ m.canonical_kind = kind_optional) →
        m.visit rt visitor s = m.visit_enum visitor s := by
      intro m hm
      rcases hm with h | h <;> simp +decide [metadata.visit, h]
    rw [h1 (metadata.with_empty_cases (mk header superclass elements boxed_type) empty_cases)
      h_kind1, h1 (mk header superclass elements boxed_type) h_kind]
    have hd : ∀ m : metadata,
        (m.canonical_kind = kind_enum ∨ m.canonical_kind = kind_optional) →
        m.descriptor = m.header.nominal.descriptor := by
      intro m hm
      rcases hm with h | h <;> simp +decide [metadata.descriptor, h]
    simp only [metadata.visit_enum, metadata.nominal_descriptor,
      hd (metadata.with_empty_cases (mk header superclass elements boxed_type) empty_cases)
        h_kind1,
      hd (mk header superclass elements boxed_type) h_kind]
    simp only [metadata.with_empty_cases, metadata.header]
    cases hdesc : header.nominal.descriptor with
    | none => rfl
    | some desc =>
      simp only [Option.map_some', context_descriptor.nominal_descriptor]
      by_cases hflag : desc.flags &&& context_descriptor.kind_mask = context_descriptor.kind_struct
          ∨ desc.flags &&& context_descriptor.kind_mask = context_descriptor.kind_enum
      · simp only [if_pos hflag, nominal_type_descriptor.enum_type_payload_cases]
        cases hrefl : desc.nominal.reflection_metadata with
        | none => rfl
        | some fd =>
          simp only []
          by_cases hp : desc.nominal.union_word0 &&& 0x00ffffff = 0
          · simp only [if_pos hp]
          · simp only [if_neg hp]
            congr 1
            funext i s1
            rw [h_handle _ (mk header superclass elements boxed_type)]
      · simp only [if_neg hflag]

/-- The enum `Miscounted`, which violates the equation, and the same enum with
one empty case declared, which satisfies it, are enumerated alike: the tags 0
and 1 are visited. -/
theorem visit_enum_ignores_empty_cases_witness :
    ((sample.enum_miscounted.canonical_kind = kind_enum
        ∨ sample.enum_miscounted.canonical_kind = kind_optional)
      ∧ ¬ case_count_equation sample.descriptor_miscounted.nominal
            { num_fields := 2, records := sample.records_ab }
      ∧ case_count_equation
          { sample.descriptor_miscounted.nominal with union_word1 := 1 }
          { num_fields := 2, records := sample.records_ab }
      ∧ sample.enum_miscounted.visit sample.runtime sample.tag_collector [] = (true, [0, 1]))
    ∧ (sample.enum_miscounted.with_empty_cases 1).visit sample.runtime sample.tag_collector []
      = sample.enum_miscounted.visit sample.runtime sample.tag_collector [] :=
  ⟨⟨Or.inl (by decide), by decide, by decide, rfl⟩,
    visit_enum_ignores_empty_cases sample.runtime sample.enum_miscounted sample.tag_collector
      [] 1 (Or.inl (by decide)) (fun _ _ _ _ _ => rfl)⟩

/-! ### The tuple walk -/

section tuple_walk

variable {σ : Type}

theorem for_each_index_visit_element (visitor : metadata_visitor σ) (this : metadata)
    (n i0 : Nat) (s : σ) :
    for_each_index
        (fun i s1 =>
          match (this.elements i).1 with
          | some type => visitor.visit_element type ref_kind.strong (this.elements i).2 s1
          | none => (true, s1))
        n i0 s
      = visit_elements_in_order visitor
          ((List.range' i0 n).filterMap
            (fun i =>
              match (this.elements i).1 with
              | some type => some (type, (this.elements i).2)
              | none => none)) s := by
  induction n generalizing i0 s with
  | zero => rfl
  | succ n ih =>
    simp only [for_each_index, List.range'_succ, List.filterMap_cons]
    cases helt : (this.elements i0).1 with
    | none =>
      simp only []
      exact ih (i0 + 1) s
    | some type =>
      simp only [visit_elements_in_order]
      cases h : visitor.visit_element type ref_kind.strong (this.elements i0).2 s with
      | mk r s1 =>
        cases r with
        | true => exact ih (i0 + 1) s1
        | false => rfl

theorem visit_elements_in_order_recording (visitor : metadata_visitor σ)
    (accept : metadata × Nat → Bool)
    (h_accept : ∀ type offset st,
      (visitor.visit_element type ref_kind.strong offset st).1 = accept (type, offset))
    (elements : List (metadata × Nat)) (s : σ) (log : List visit_event) :
    ∃ s1, visit_elements_in_order visitor.recording elements (s, log)
      = (elements.all accept,
          (s1, log ++ (elements_up_to_rejection accept elements).map
            (fun e => visit_event.element e.1 ref_kind.strong e.2))) := by
  induction elements generalizing s log with
  | nil => exact ⟨s, by simp [visit_elements_in_order, elements_up_to_rejection]⟩
  | cons e rest ih =>
    obtain ⟨type, offset⟩ := e
    have hstep : visitor.recording.visit_element type ref_kind.strong offset (s, log)
        = (accept (type, offset),
            ((visitor.visit_element type ref_kind.strong offset s).2,
              log ++ [visit_event.element type ref_kind.strong offset])) := by
      simp [metadata_visitor.recording, h_accept]
    cases hacc : accept (type, offset) with
    | true =>
      obtain ⟨s1, hs1⟩ := ih (visitor.visit_element type ref_kind.strong offset s).2
        (log ++ [visit_event.element type ref_kind.strong offset])
      refine ⟨s1, ?_⟩
      rw [hacc] at hstep
      simp only [visit_elements_in_order, hstep]
      rw [hs1]
      simp [elements_up_to_rejection, hacc]
    | false =>
      refine ⟨(visitor.visit_element type ref_kind.strong offset s).2, ?_⟩
      rw [hacc] at hstep
      simp only [visit_elements_in_order, hstep]
      simp [elements_up_to_rejection, hacc]

theorem elements_up_to_rejection_accepting (elements : List (metadata × Nat)) :
    elements_up_to_rejection (fun _ => true) elements = elements := by
  unfold elements_up_to_rejection
  induction elements with
  | nil => rfl
  | cons e rest ih => simpa [List.takeWhile_cons, List.dropWhile_cons] using ih

end tuple_walk

/-- C32: for every tuple type handle, `metadata::visit` calls `visit_element`
for the elements whose type handle is present, in element order, each with
its stored type handle, ownership strong and its stored offset, up to and
including the first one the visitor rejects; an element with an absent type
handle produces no call, and the runtime resolver plays no part in the walk.
With an acceptance test `accept` that the visitor follows, the calls are the
accepted present elements before the first rejected one, and that one, and the
result is whether all present elements are accepted; with a visitor that
accepts every element there are as many calls as present elements and the
result is true; a tuple with no present element returns true with no call. -/
theorem visit_tuple_elements {σ : Type} (rt : Runtime) (this : metadata)
    (visitor : metadata_visitor σ) (s : σ)
    (h_kind : this.canonical_kind = kind_tuple) :
    this.visit rt visitor s = visit_elements_in_order visitor (present_elements this) s
    ∧ (∀ rt1 : Runtime, this.visit rt1 visitor s = this.visit rt visitor s)
    ∧ (∀ accept : metadata × Nat → Bool,
        (∀ type offset st,
          (visitor.visit_element type ref_kind.strong offset st).1 = accept (type, offset)) →
        ∃ s1, this.visit rt visitor.recording (s, [])
          = ((present_elements this).all accept,
              (s1, (elements_up_to_rejection accept (present_elements this)).map
                (fun e => visit_event.element e.1 ref_kind.strong e.2))))
    ∧ ((∀ type ref offset st, (visitor.visit_element type ref offset st).1 = true) →
        ∃ s1 log, this.visit rt visitor.recording (s, []) = (true, (s1, log))
          ∧ log = (present_elements this).map
              (fun e => visit_event.element e.1 ref_kind.strong e.2)
          ∧ log.length = (present_elements this).length)
    ∧ (present_elements this = [] →
        this.visit rt visitor.recording (s, []) = (true, (s, []))) := by
  have hv : ∀ {τ : Type} (rt1 : Runtime) (v : metadata_visitor τ) (st : τ),
      this.visit rt1 v st = visit_elements_in_order v (present_elements this) st := by
    intro τ rt1 v st
    have h1 : this.visit rt1 v st = this.visit_tuple v st := by
      simp +decide [metadata.visit, h_kind]
    rw [h1]
    simp only [metadata.visit_tuple, present_elements, List.range_eq_range']
    exact for_each_index_visit_element v this _ 0 st
  refine ⟨hv rt visitor s, ?_, ?_, ?_, ?_⟩
  · intro rt1
    rw [hv rt1 visitor s, hv rt visitor s]
  · intro accept h_accept
    rw [hv rt visitor.recording (s, [])]
    obtain ⟨s1, hs1⟩ := visit_elements_in_order_recording visitor accept h_accept
      (present_elements this) s []
    exact ⟨s1, by simpa using hs1⟩
  · intro h_accept
    rw [hv rt visitor.recording (s, [])]
    obtain ⟨s1, hs1⟩ := visit_elements_in_order_recording visitor (fun _ => true)
      (fun type offset st => h_accept type ref_kind.strong offset st)
      (present_elements this) s []
    refine ⟨s1, _, ?_, rfl, ?_⟩
    · rw [hs1, elements_up_to_rejection_accepting]
      simp
    · simp
  · intro h_none
    rw [hv rt visitor.recording (s, []), h_none]
    rfl

/-- The tuple `(Int, absent, String)`: its present elements are `Int` at 0 and
`String` at 16; a visitor that accepts every element is called for both and
the walk returns true; a visitor that accepts only elements of size 16 is
called for the `Int`, rejects it, and the walk returns false without a call
for the `String`. -/
theorem visit_tuple_elements_witness :
    (sample.tuple_Int_gap_String.canonical_kind = kind_tuple
      ∧ present_elements sample.tuple_Int_gap_String
        = [(sample.type_Int, 0), (sample.type_String, 16)])
    ∧ (∃ s1 log, sample.tuple_Int_gap_String.visit sample.runtime
          sample.accepting_visitor.recording ((), []) = (true, (s1, log))
        ∧ log = [visit_event.element sample.type_Int ref_kind.strong 0,
                 visit_event.element sample.type_String ref_kind.strong 16]
        ∧ log.length = 2)
    ∧ (∃ s1, sample.tuple_Int_gap_String.visit sample.runtime
          sample.size_16_visitor.recording ((), [])
        = (false, (s1, [visit_event.element sample.type_Int ref_kind.strong 0]))) :=
  ⟨⟨by decide, rfl⟩,
    (visit_tuple_elements sample.runtime sample.tuple_Int_gap_String sample.accepting_visitor
      () (by decide)).2.2.2.1 (fun _ _ _ _ => rfl),
    (visit_tuple_elements sample.runtime sample.tuple_Int_gap_String sample.size_16_visitor
      () (by decide)).2.2.1 (fun e => e.1.size == 16) (fun _ _ _ => rfl)⟩

/-! ### The arguments of the resolver call -/

/-- C33: for every base type and non-null encoded name,
`mangled_type_name_ref` returns what the runtime resolver returns for the name,
its scanned length, the base type's context descriptor (null when it has none)
and a generic-argument vector that is null unless the descriptor's is-generic
flag is set, the metadata's inline vector (two words after the address point)
for a struct or enum descriptor, and the metadata's address plus the
descriptor's generic-argument offset in words for a class descriptor.  That
offset is the immediate-members offset: minus the negative size when the
immediate-members-negative flag is set, the positive size minus the number of
immediate members when it is clear, and the resilient bounds value when the
class has a resilient superclass. -/
theorem mangled_type_name_ref_resolver_arguments (rt : Runtime) (this : metadata)
    (name : encoded_name) :
    mangled_type_name_size name.bytes = some name.size
    ∧ (this.descriptor = none →
        (this.mangled_type_name_ref rt (some name)).map Prod.fst
          = rt.swift_getTypeByMangledNameInContext name name.size none none)
    ∧ (∀ desc, this.descriptor = some desc →
        (desc.flags &&& context_descriptor.is_generic = 0 →
          (this.mangled_type_name_ref rt (some name)).map Prod.fst
            = rt.swift_getTypeByMangledNameInContext name name.size (some desc) none)
        ∧ (desc.flags &&& context_descriptor.is_generic ≠ 0 →
            (desc.flags &&& context_descriptor.kind_mask = context_descriptor.kind_struct
              ∨ desc.flags &&& context_descriptor.kind_mask = context_descriptor.kind_enum) →
            (this.mangled_type_name_ref rt (some name)).map Prod.fst
              = rt.swift_getTypeByMangledNameInContext name name.size (some desc)
                  (some ((this.addr : Int) + 2 * sizeof_uintptr_t)))
        ∧ (desc.flags &&& context_descriptor.is_generic ≠ 0 →
            desc.flags &&& context_descriptor.kind_mask = context_descriptor.kind_class →
            (this.mangled_type_name_ref rt (some name)).map Prod.fst
              = rt.swift_getTypeByMangledNameInContext name name.size (some desc)
                  (some ((this.addr : Int)
                    + sizeof_uintptr_t * class_type_descriptor.generic_argument_offset desc))))
    ∧ (∀ desc : context_descriptor,
        class_type_descriptor.generic_argument_offset desc
          = class_type_descriptor.immediate_members_offset desc
        ∧ (class_type_descriptor.has_resilient_superclass desc = false →
            desc.kind_specific_flags &&& class_type_descriptor.immediate_members_negative ≠ 0 →
            class_type_descriptor.immediate_members_offset desc
              = - (desc.cls.metadata_negative_size_in_words : Int))
        ∧ (class_type_descriptor.has_resilient_superclass desc = false →
            desc.kind_specific_flags &&& class_type_descriptor.immediate_members_negative = 0 →
            desc.cls.metadata_positive_size_in_words < 2 ^ 32 →
            desc.cls.num_immediate_members ≤ desc.cls.metadata_positive_size_in_words →
            class_type_descriptor.immediate_members_offset desc
              = (desc.cls.metadata_positive_size_in_words : Int)
                - (desc.cls.num_immediate_members : Int))
        ∧ (class_type_descriptor.has_resilient_superclass desc = true →
            class_type_descriptor.immediate_members_offset desc
              = desc.cls.resilient_super_immediate_members_offset)) := by
  have hfst := mangled_type_name_ref_fst rt this name
  refine ⟨?_, ?_, ?_, ?_⟩
  · simp [encoded_name.size]
  · intro hnone
    rw [hfst]
    simp only [metadata.resolver_generic_args, hnone]
  · intro desc hdesc
    refine ⟨?_, ?_, ?_⟩
    · intro hg
      rw [hfst]
      simp only [metadata.resolver_generic_args, hdesc, hg, if_true]
    · intro hg hk
      rw [hfst]
      simp only [metadata.resolver_generic_args, hdesc, if_neg hg, if_pos hk]
    · intro hg hk
      have hns : ¬ (desc.flags &&& context_descriptor.kind_mask = context_descriptor.kind_struct
          ∨ desc.flags &&& context_descriptor.kind_mask = context_descriptor.kind_enum) := by
        rw [hk]
        decide
      rw [hfst]
      simp only [metadata.resolver_generic_args, hdesc, if_neg hg, if_neg hns, if_pos hk]
  · intro desc
    refine ⟨rfl, ?_, ?_, ?_⟩
    · intro hr hneg
      simp [class_type_descriptor.immediate_members_offset, hr, hneg]
    · intro hr hneg hpos hle
      have h1 : to_uint32 desc.cls.num_immediate_members = desc.cls.num_immediate_members :=
        Nat.mod_eq_of_lt (by omega)
      have h2 : to_uint32 (desc.cls.metadata_positive_size_in_words + 2 ^ 32
          - desc.cls.num_immediate_members)
          = desc.cls.metadata_positive_size_in_words - desc.cls.num_immediate_members := by
        unfold to_uint32
        omega
      simp only [class_type_descriptor.immediate_members_offset, hr, hneg, h1, h2]
      simp
      omega
    · intro hr
      simp [class_type_descriptor.immediate_members_offset, hr]

/-- The generic class `Box<Int>` at address 0x6000: its generic-argument offset
is 12 - 2 = 10 words, so the resolver is handed the descriptor and the vector
at 0x6000 + 8 * 10 = 0x6050. -/
theorem mangled_type_name_ref_resolver_arguments_witness :
    (sample.class_Box.descriptor = some sample.descriptor_Box
      ∧ sample.descriptor_Box.flags &&& context_descriptor.is_generic ≠ 0
      ∧ sample.descriptor_Box.flags &&& context_descriptor.kind_mask
        = context_descriptor.kind_class
      ∧ class_type_descriptor.generic_argument_offset sample.descriptor_Box = 10)
    ∧ (sample.class_Box.mangled_type_name_ref sample.runtime_generic
          (some sample.name_Si)).map Prod.fst
      = sample.runtime_generic.swift_getTypeByMangledNameInContext sample.name_Si 2
          (some sample.descriptor_Box) (some 0x6050) :=
  ⟨⟨rfl, by decide, by decide, by decide⟩,
    ((mangled_type_name_ref_resolver_arguments sample.runtime_generic sample.class_Box
      sample.name_Si).2.2.1 sample.descriptor_Box rfl).2.2 (by decide) (by decide)⟩

/-! ### Opaque existential containers -/

/-- C34: for every existential metadata with opaque representation and every
container, `dynamic_type` returns the type handle stored in the container;
`project_value` returns the address of the container's inline buffer when the
stored type's value-witness flags have the non-inline bit clear, and otherwise
the pointer held in the buffer's first word plus `(2 * pointer width + a) & ~a`
with `a` the stored type's alignment mask; for an alignment mask `2^k - 1` that
header size is the two pointer widths rounded up to a multiple of `2^k`. -/
theorem opaque_existential_projection (objc : ObjectRuntime)
    (this : existential_type_metadata) (container : existential_container)
    (h_rep : existential_type_metadata.representation this
      = existential_type_metadata.representation_type.opaque_) :
    existential_type_metadata.dynamic_type objc this container = some container.type
    ∧ (container.type.flags &&& value_witness_table.is_non_inline = 0 →
        existential_type_metadata.project_value this container = some container.addr)
    ∧ (container.type.flags &&& value_witness_table.is_non_inline ≠ 0 →
        existential_type_metadata.project_value this container
          = some (to_size_t (container.buffer 0)
              + ((2 * sizeof_uintptr_t + container.type.alignment_mask)
                  &&& bitwise_not_size_t container.type.alignment_mask))
        ∧ ∀ k, k ≤ 8 → container.type.alignment_mask = 2 ^ k - 1 →
            2 * sizeof_uintptr_t
              ≤ (2 * sizeof_uintptr_t + container.type.alignment_mask)
                  &&& bitwise_not_size_t container.type.alignment_mask
            ∧ (2 * sizeof_uintptr_t + container.type.alignment_mask)
                  &&& bitwise_not_size_t container.type.alignment_mask
                < 2 * sizeof_uintptr_t + 2 ^ k
            ∧ 2 ^ k ∣ (2 * sizeof_uintptr_t + container.type.alignment_mask)
                  &&& bitwise_not_size_t container.type.alignment_mask) := by
  have hmask : container.type.alignment_mask < 256 := by
    unfold metadata.alignment_mask value_witness_table.alignment_mask
    exact Nat.lt_of_le_of_lt Nat.and_le_right (by decide)
  have hsz : to_size_t (2 * sizeof_uintptr_t + container.type.alignment_mask)
      = 2 * sizeof_uintptr_t + container.type.alignment_mask := by
    unfold to_size_t
    apply Nat.mod_eq_of_lt
    simp only [sizeof_uintptr_t]
    omega
  refine ⟨?_, ?_, ?_⟩
  · simp [existential_type_metadata.dynamic_type, h_rep]
  · intro h_inline
    simp [existential_type_metadata.project_value, h_rep,
      opaque_existential_container.project_value, h_inline]
  · intro h_boxed
    refine ⟨?_, ?_⟩
    · simp only [existential_type_metadata.project_value, h_rep,
        opaque_existential_container.project_value, if_neg h_boxed, hsz]
    · intro k hk ha
      have hpos : 0 < 2 ^ k := Nat.pow_pos (by decide)
      have hle : 2 ^ k ≤ 2 ^ 8 := Nat.pow_le_pow_right (by decide) hk
      have hfit : 2 * sizeof_uintptr_t + (2 ^ k - 1) < 2 ^ 64 := by
        simp only [sizeof_uintptr_t]
        omega
      have hr := align_up_eq (2 * sizeof_uintptr_t) k (by omega) hfit
      rw [ha] at hsz
      rw [align_up, hsz] at hr
      rw [ha, hr]
      have hmod : (2 * sizeof_uintptr_t + (2 ^ k - 1)) % 2 ^ k < 2 ^ k := Nat.mod_lt _ hpos
      have hdiv := Nat.div_add_mod (2 * sizeof_uintptr_t + (2 ^ k - 1)) (2 ^ k)
      refine ⟨by omega, by omega, ?_⟩
      refine ⟨(2 * sizeof_uintptr_t + (2 ^ k - 1)) / 2 ^ k, ?_⟩
      omega

/-- The opaque existential `Any`: a container holding an `Int` inline projects
to its own address 0xB000; a container holding a `Wide` (alignment mask 31) out
of line projects to the pointer 0xC000 in its first word plus a header of 32
bytes; the dynamic type is the stored type in both. -/
theorem opaque_existential_projection_witness :
    (existential_type_metadata.representation sample.existential_any
        = existential_type_metadata.representation_type.opaque_
      ∧ sample.container.type.flags &&& value_witness_table.is_non_inline = 0
      ∧ sample.container_boxed.type.flags &&& value_witness_table.is_non_inline ≠ 0)
    ∧ existential_type_metadata.dynamic_type sample.object_runtime sample.existential_any
        sample.container_boxed = some sample.type_Wide
    ∧ existential_type_metadata.project_value sample.existential_any sample.container
      = some 0xB000
    ∧ existential_type_metadata.project_value sample.existential_any sample.container_boxed
      = some (0xC000 + 32) :=
  ⟨⟨by decide, by decide, by decide⟩,
    (opaque_existential_projection sample.object_runtime sample.existential_any
      sample.container_boxed (by decide)).1,
    (opaque_existential_projection sample.object_runtime sample.existential_any
      sample.container (by decide)).2.1 (by decide),
    ((opaque_existential_projection sample.object_runtime sample.existential_any
      sample.container_boxed (by decide)).2.2 (by decide)).1⟩

/-! ### Relative references -/

section relative_references

theorem intptr_to_uintptr_lt (offset : Int) : intptr_to_uintptr offset < 2 ^ 64 := by
  unfold intptr_to_uintptr
  have h1 : (0 : Int) ≤ offset % 2 ^ 64 := Int.emod_nonneg _ (by norm_num)
  have h2 : offset % 2 ^ 64 < 2 ^ 64 := Int.emod_lt_of_pos _ (by norm_num)
  omega

theorem intptr_to_uintptr_mod (offset : Int) (k : Nat) (hk : k ≤ 64) :
    intptr_to_uintptr offset % 2 ^ k = (offset % 2 ^ k).toNat := by
  unfold intptr_to_uintptr
  have h1 : (0 : Int) ≤ offset % 18446744073709551616 := Int.emod_nonneg _ (by norm_num)
  have h2 : (0 : Int) ≤ offset % 2 ^ k := Int.emod_nonneg _ (by positivity)
  have hd : (2 : Int) ^ k ∣ 18446744073709551616 := by
    have := pow_dvd_pow (2 : Int) hk
    norm_num at this
    exact this
  have h : (((offset % 2 ^ 64).toNat % 2 ^ k : Nat) : Int) = ((offset % 2 ^ k).toNat : Int) := by
    rw [Int.toNat_of_nonneg h2]
    push_cast
    rw [Int.toNat_of_nonneg h1]
    exact Int.emod_emod_of_dvd offset hd
  exact_mod_cast h

/-- The tag test `(_offset & (alignof(T) - 1)) == 1` for `alignof(T) = 2^k`. -/
theorem relative_ptr_tag_test (offset : Int) (k : Nat) (hk : k ≤ 64) :
    intptr_to_uintptr offset &&& to_size_t (2 ^ k - 1) = 1 ↔ offset % 2 ^ k = 1 := by
  have hpos : 0 < 2 ^ k := Nat.pow_pos (by decide)
  have hle : 2 ^ k ≤ 2 ^ 64 := Nat.pow_le_pow_right (by decide) hk
  have hsz : to_size_t (2 ^ k - 1) = 2 ^ k - 1 := Nat.mod_eq_of_lt (by omega)
  have h2 : (0 : Int) ≤ offset % 2 ^ k := Int.emod_nonneg _ (by positivity)
  rw [hsz, Nat.and_pow_two_sub_one_eq_mod, intptr_to_uintptr_mod offset k hk]
  constructor
  · intro h
    have := Int.toNat_of_nonneg h2
    omega
  · intro h
    rw [h]
    rfl

/-- Clearing the low `k` bits of a word. -/
theorem and_bitwise_not_size_t_mask (x k : Nat) (hk : k ≤ 64) (hx : x < 2 ^ 64) :
    x &&& bitwise_not_size_t (2 ^ k - 1) = x - x % 2 ^ k := by
  rw [bitwise_not_size_t_mask k hk, and_high_mask x k hk hx, Nat.shiftLeft_eq,
    Nat.shiftRight_eq_div_pow]
  have := Nat.div_add_mod x (2 ^ k)
  rw [Nat.mul_comm] at this
  omega

end relative_references

/-- C35, as stated, fails: a character-typed reference at address 0x1000 with
the odd offset 5 resolves directly to 0x1005; the slot at 0x1004, which holds
0x7000, is not read, because the tag mask `alignof(char) - 1` is zero. -/
theorem relative_ptr_char_odd_offset_is_direct :
    ¬ (∀ (alignof_T : Nat) (load : Nat → Nat) (this : Nat) (offset : Int),
        (alignof_T = 1 ∨ alignof_T = 4 ∨ alignof_T = 8) → offset % 2 = 1 →
        relative_ptr.get alignof_T load this offset
          = load (to_size_t (this + intptr_to_uintptr (offset - 1)))) := by
  intro h
  have h1 := h 1 sample.slots 0x1000 5 (Or.inl rfl) (by decide)
  have h2 : relative_ptr.get 1 sample.slots 0x1000 5 = 0x1005 := by decide
  have h3 : sample.slots (to_size_t (0x1000 + intptr_to_uintptr (5 - 1))) = 0x7000 := by decide
  rw [h2, h3] at h1
  exact absurd h1 (by decide)

/-- C35 (amended): for a relative reference to a target type of alignment
`2^k` (1 for the character-typed references, 4 or 8 for the other targets): a
stored offset of zero resolves to null; a nonzero offset resolves indirectly
exactly when its low `k` bits are 1, by loading the target address from the
pointer-sized slot at the reference's address plus the offset with the low `k`
bits cleared, which is that sum minus the tag when the reference's address is a
multiple of `2^k`; every other nonzero offset resolves directly to the
reference's address plus the offset.  A character-typed reference always
resolves directly, and so does every even offset. -/
theorem relative_ptr_get_resolution (k : Nat) (hk : k ≤ 64) (load : Nat → Nat) (this : Nat)
    (offset : Int) (h_offset : offset ≠ 0) :
    relative_ptr.get (2 ^ k) load this 0 = 0
    ∧ relative_ptr.to_bool offset = true
    ∧ (offset % 2 ^ k = 1 →
        relative_ptr.get (2 ^ k) load this offset
          = load (to_size_t (this + intptr_to_uintptr offset)
              &&& bitwise_not_size_t (2 ^ k - 1))
        ∧ (2 ^ k ∣ this →
            to_size_t (this + intptr_to_uintptr offset) &&& bitwise_not_size_t (2 ^ k - 1)
              = to_size_t (this + intptr_to_uintptr offset) - 1))
    ∧ (offset % 2 ^ k ≠ 1 →
        relative_ptr.get (2 ^ k) load this offset = to_size_t (this + intptr_to_uintptr offset))
    ∧ (k = 0 →
        relative_ptr.get (2 ^ k) load this offset = to_size_t (this + intptr_to_uintptr offset))
    ∧ (offset % 2 = 0 →
        relative_ptr.get (2 ^ k) load this offset = to_size_t (this + intptr_to_uintptr offset))
    ∧ (0 ≤ (this : Int) + offset → (this : Int) + offset < 2 ^ 64 →
        ((to_size_t (this + intptr_to_uintptr offset) : Nat) : Int) = (this : Int) + offset) := by
  have hpos : 0 < 2 ^ k := Nat.pow_pos (by decide)
  have hle : 2 ^ k ≤ 2 ^ 64 := Nat.pow_le_pow_right (by decide) hk
  have hdirect : offset % 2 ^ k ≠ 1 →
      relative_ptr.get (2 ^ k) load this offset
        = to_size_t (this + intptr_to_uintptr offset) := by
    intro h
    have ht : ¬ intptr_to_uintptr offset &&& to_size_t (2 ^ k - 1) = 1 :=
      fun ht => h ((relative_ptr_tag_test offset k hk).mp ht)
    simp only [relative_ptr.get, if_neg h_offset, if_neg ht]
  refine ⟨by simp [relative_ptr.get], by simp [relative_ptr.to_bool, h_offset], ?_, hdirect,
    ?_, ?_, ?_⟩
  · intro h
    have ht := (relative_ptr_tag_test offset k hk).mpr h
    refine ⟨by simp only [relative_ptr.get, if_neg h_offset, if_pos ht], ?_⟩
    intro h_aligned
    have hx : to_size_t (this + intptr_to_uintptr offset) < 2 ^ 64 :=
      Nat.mod_lt _ (by decide)
    rw [and_bitwise_not_size_t_mask _ k hk hx]
    have hu : intptr_to_uintptr offset % 2 ^ k = 1 := by
      rw [intptr_to_uintptr_mod offset k hk, h]
      rfl
    have hmod : to_size_t (this + intptr_to_uintptr offset) % 2 ^ k = 1 := by
      unfold to_size_t
      rw [Nat.mod_mod_of_dvd _ (Nat.pow_dvd_pow 2 hk), Nat.add_mod,
        Nat.mod_eq_zero_of_dvd h_aligned, Nat.zero_add, Nat.mod_mod, hu]
    rw [hmod]
  · intro hk0
    apply hdirect
    subst hk0
    simp
  · intro heven
    apply hdirect
    intro h1
    have hk1 : 1 ≤ k := by
      rcases Nat.eq_zero_or_pos k with h0 | h0
      · subst h0
        simp at h1
      · exact h0
    have hdvd : (2 : Int) ∣ 2 ^ k := dvd_pow_self 2 (by omega)
    have := Int.emod_emod_of_dvd offset hdvd
    rw [h1] at this
    omega
  · intro h0 h1
    unfold to_size_t intptr_to_uintptr
    omega

/-- A reference to a `field_descriptor` (alignment 4) at address 0x1000 with
offset 5: the low two bits are 1, so the target is loaded from the slot at
0x1004, which holds 0x7000; with offset 7 the reference resolves directly to
0x1007, and with offset -4 to 0xFFC. -/
theorem relative_ptr_get_resolution_witness :
    ((5 : Int) ≠ 0 ∧ (5 : Int) % 2 ^ 2 = 1 ∧ 2 ^ 2 ∣ 0x1000)
    ∧ relative_ptr.get (2 ^ 2) sample.slots 0x1000 5 = sample.slots 0x1004
    ∧ relative_ptr.get (2 ^ 2) sample.slots 0x1000 7 = 0x1007
    ∧ relative_ptr.get (2 ^ 2) sample.slots 0x1000 (-4) = 0xFFC :=
  ⟨⟨by decide, by decide, by decide⟩,
    ((relative_ptr_get_resolution 2 (by decide) sample.slots 0x1000 5 (by decide)).2.2.1
      (by decide)).1,
    (relative_ptr_get_resolution 2 (by decide) sample.slots 0x1000 7 (by decide)).2.2.2.1
      (by decide),
    (relative_ptr_get_resolution 2 (by decide) sample.slots 0x1000 (-4)
      (by decide)).2.2.2.2.2.1 (by decide)⟩

end swift
